import Mathlib

/-!
Shallow embedding of the checkpoint-directory manager of
`python/paddle/fluid/io.py` (PaddlePaddle fluid io module, Python 2).

Filesystem model: a state is a list of `(path, isFile)` entries, where a
path is the list of its components (`os.path.join a b` becomes
`a ++ [b]`).  Directory entries carry `false`, file entries carry `true`.
All states built by the operations are prefix-closed (every proper prefix
of a recorded path is itself recorded as a directory) because the source
always creates parent directories first.  File contents are not modelled:
no claim depends on them (the success mark and trainer-arg files matter
only through existence).

Stateful Python code is modelled in the monad `FsM`, a state-error monad
over the filesystem; a raised Python exception becomes an error value
carrying the state at raise time, since Python exceptions do not undo
prior filesystem mutation.
-/

/-- A filesystem path, as its list of components. -/
abbrev FsPath := List String

/-- The Python exceptions raised by the modelled code. -/
inductive PyErr where
  | valueError (msg : String)
  | assertionError
  | osError (msg : String)
  | notFound (msg : String)
deriving DecidableEq

/-- A filesystem state: the recorded paths, tagged `true` for files and
`false` for directories. -/
abbrev FS := List (FsPath × Bool)

/-- Test of `os.path.isdir`. -/
def FS.isdir (fs : FS) (p : FsPath) : Bool :=
  fs.any (fun e => e.1 == p && e.2 == false)

/-- Test of `os.path.isfile`. -/
def FS.isfile (fs : FS) (p : FsPath) : Bool :=
  fs.any (fun e => e.1 == p && e.2 == true)

/-- Test of `os.path.exists`. -/
def FS.existsP (fs : FS) (p : FsPath) : Bool :=
  fs.any (fun e => e.1 == p)

/-- When `q` is a direct child of `p`, returns its final component. -/
def childName (p q : FsPath) : Option String :=
  match q.drop p.length with
  | [n] => if p.isPrefixOf q then some n else none
  | _ => none

/-- The entry names of `os.listdir p`, in recording order. -/
def FS.listdir (fs : FS) (p : FsPath) : List String :=
  fs.filterMap (fun e => childName p e.1)

/-- The nonempty prefixes of a path, shortest first. -/
def pathPrefixes (p : FsPath) : List FsPath :=
  (List.range p.length).map (fun i => p.take (i + 1))

/-- Effect of `os.makedirs p`: creates `p` and any missing parent as
directories; raises when `p` already exists or when some prefix of `p`
is a file. -/
def FS.makedirs (fs : FS) (p : FsPath) : Except PyErr FS :=
  if fs.existsP p then Except.error (PyErr.osError "makedirs: file exists")
  else if (pathPrefixes p).any fs.isfile then
    Except.error (PyErr.osError "makedirs: not a directory")
  else Except.ok
    (fs ++ (pathPrefixes p).filterMap
      (fun q => if fs.existsP q then none else some (q, false)))

/-- Effect of `open(p, mode) ... write` for mode `w` or `a`: requires the
parent directory, refuses a directory, creates the file if absent.
Contents are not modelled, so append and truncate coincide. -/
def FS.createFile (fs : FS) (p : FsPath) : Except PyErr FS :=
  if fs.isdir p then Except.error (PyErr.osError "open: is a directory")
  else if !(p.dropLast.isEmpty || fs.isdir p.dropLast) then
    Except.error (PyErr.osError "open: no such directory")
  else if fs.isfile p then Except.ok fs
  else Except.ok (fs ++ [(p, true)])

/-- Effect of `shutil.rmtree p`: removes the directory and everything
under it; raises when `p` is not a directory. -/
def FS.rmtree (fs : FS) (p : FsPath) : Except PyErr FS :=
  if fs.isdir p then
    Except.ok (fs.filter (fun e => !(p.isPrefixOf e.1)))
  else Except.error (PyErr.osError "rmtree: not a directory")

/-- Effect of `os.rmdir p`: removes an empty directory. -/
def FS.rmdir (fs : FS) (p : FsPath) : Except PyErr FS :=
  if !(fs.isdir p) then Except.error (PyErr.osError "rmdir: not a directory")
  else if !(fs.listdir p).isEmpty then
    Except.error (PyErr.osError "rmdir: directory not empty")
  else Except.ok (fs.filter (fun e => e.1 != p))

/-- State-error monad for the embedded Python code: an error carries the
filesystem state at raise time. -/
def FsM (α : Type) : Type := FS → Except (PyErr × FS) (α × FS)

/-- Monadic return. -/
def FsM.pure (a : α) : FsM α := fun fs => Except.ok (a, fs)

/-- Monadic bind. -/
def FsM.bind (m : FsM α) (f : α → FsM β) : FsM β := fun fs =>
  match m fs with
  | Except.ok (a, fs2) => f a fs2
  | Except.error e => Except.error e

/-- Raising a Python exception. -/
def FsM.raise (e : PyErr) : FsM α := fun fs => Except.error (e, fs)

/-- Lifting a pure fallible computation. -/
def FsM.liftE (x : Except PyErr α) : FsM α := fun fs =>
  match x with
  | Except.ok a => Except.ok (a, fs)
  | Except.error e => Except.error (e, fs)

/-- Lifting a pure fallible filesystem transformation. -/
def FsM.liftFs (f : FS → Except PyErr FS) : FsM Unit := fun fs =>
  match f fs with
  | Except.ok fs2 => Except.ok ((), fs2)
  | Except.error e => Except.error (e, fs)

/-- Monadic `os.path.isdir`. -/
def os_isdir (p : FsPath) : FsM Bool := fun fs => Except.ok (fs.isdir p, fs)

/-- Monadic `os.path.isfile`. -/
def os_isfile (p : FsPath) : FsM Bool := fun fs => Except.ok (fs.isfile p, fs)

/-- Monadic `os.listdir`; raises on a missing directory. -/
def os_listdir (p : FsPath) : FsM (List String) := fun fs =>
  if fs.isdir p then Except.ok (fs.listdir p, fs)
  else Except.error (PyErr.osError "listdir: no such directory", fs)

/-- Monadic `os.makedirs`. -/
def os_makedirs (p : FsPath) : FsM Unit := FsM.liftFs (fun fs => fs.makedirs p)

/-- Monadic `shutil.rmtree`. -/
def sh_rmtree (p : FsPath) : FsM Unit := FsM.liftFs (fun fs => fs.rmtree p)

/-- Monadic `os.rmdir`. -/
def os_rmdir (p : FsPath) : FsM Unit := FsM.liftFs (fun fs => fs.rmdir p)

/-- Monadic file creation by `open ... write`. -/
def fileWrite (p : FsPath) : FsM Unit := FsM.liftFs (fun fs => fs.createFile p)

/-! ### Python string helpers

`str.split(sep)` for the one-character separator used by the source, and
`int(s)`, both over the character list of the string.  `int` is modelled
for optionally signed decimal digit strings; the surrounding-whitespace
tolerance of Python `int` is not modelled (no claim involves it). -/

/-- Python `s.split(sep)` for a one-character separator. -/
def splitCh (l : List Char) (sep : Char) : List (List Char) :=
  match l with
  | [] => [[]]
  | c :: cs =>
    if c = sep then [] :: splitCh cs sep
    else
      match splitCh cs sep with
      | [] => [[c]]
      | h :: t => (c :: h) :: t

/-- Accumulating decimal parser: fails on any non-digit character. -/
def parseDigitsAux : List Char → Nat → Option Nat
  | [], acc => some acc
  | c :: cs, acc =>
    if c.isDigit then parseDigitsAux cs (acc * 10 + (c.toNat - 48))
    else none

/-- Python `int(s)` on the character list of `s` (signed decimal). -/
def pyIntOfChars (cs : List Char) : Option Int :=
  match cs with
  | [] => none
  | c :: rest =>
    if c = '-' then
      if rest.isEmpty then none
      else (parseDigitsAux rest 0).map (fun n => -(n : Int))
    else if c = '+' then
      if rest.isEmpty then none
      else (parseDigitsAux rest 0).map (fun n => (n : Int))
    else (parseDigitsAux cs 0).map (fun n => (n : Int))

/-! ### Variables and programs

A variable carries exactly the attributes the source consults: `name`,
`desc.type()` (represented by `type`), and `persistable`.  A program is
represented by its `list_vars()` result. -/

/-- The variable type tags consulted by the source, plus the ordinary
tensor type. -/
inductive VarType where
  | FEED_MINIBATCH
  | FETCH_LIST
  | RAW
  | LOD_TENSOR
deriving DecidableEq

/-- A program variable, as consulted by the checkpoint code. -/
structure PyVariable where
  name : String
  type : VarType
  persistable : Bool
deriving DecidableEq

/-- A program, through its `list_vars()` view. -/
abbrev PyProgram := List PyVariable

/-- Modelled from the spec: `default_main_program()` is ambient interpreter
state outside this module.  No settled claim exercises the
`main_program is None` path of `save_vars` or `load_vars`, so the ambient
program is modelled as empty. -/
def default_main_program : PyProgram := []

/-! ### Module constants (source lines 459-463) -/

/-- Constant `SUCCESS_MARK_FILENAME`. -/
def SUCCESS_MARK_FILENAME : String := "_SUCCESS"

/-- Constant `CHECKPOINT_PREFIX`. -/
def CHECKPOINT_PREFIX : String := "checkpoint"

/-- Constant `MODEL_DIR`. -/
def MODEL_DIR : String := "__model__"

/-- Constant `TRAINER_PREFIX`. -/
def TRAINER_PREFIX : String := "trainer"

/-- Constant `CHECKPOINT_SEPARATOR`. -/
def CHECKPOINT_SEPARATOR : String := "_"

/-- The serial-directory name built by `_get_serial_dir`
(`CHECKPOINT_PREFIX + CHECKPOINT_SEPARATOR + str(serial)`). -/
def cpName (serial : Int) : String :=
  CHECKPOINT_PREFIX ++ CHECKPOINT_SEPARATOR ++ toString serial

/-- The trainer-directory name built by `_get_trainer_dir`
(`TRAINER_PREFIX + CHECKPOINT_SEPARATOR + str(trainer_id)`). -/
def trName (trainer_id : Int) : String :=
  TRAINER_PREFIX ++ CHECKPOINT_SEPARATOR ++ toString trainer_id

/-! ### Embedded source functions -/

/-- Python `sub in s` for strings: `sub` occurs contiguously in `s`,
over the character lists. -/
def containsSub : List Char → List Char → Bool
  | [], sub => sub.isEmpty
  | c :: t, sub => sub.isPrefixOf (c :: t) || containsSub t sub

/-- Source `_is_checkpoint_var` (lines 618-640): discard feed, fetch and
raw variables and names containing the excluded substrings, otherwise
return the persistable flag. -/
def _is_checkpoint_var (var : PyVariable) : Bool :=
  if var.type = VarType.FEED_MINIBATCH ∨ var.type = VarType.FETCH_LIST ∨
      var.type = VarType.RAW then
    false
  else if containsSub var.name.data "@GRAD".data then false
  else if containsSub var.name.data ".trainer_".data then false
  else if containsSub var.name.data ".block".data then false
  else var.persistable

/-- Source `_get_dir_serial` (lines 643-650): `_, serial =
dirname.split(CHECKPOINT_SEPARATOR)` followed by `int(serial)` under a
`try` that only guards the `int` call.  The two-element unpack raises an
uncaught `ValueError` whenever the name does not contain exactly one
separator. -/
def _get_dir_serial (dirname : String) : Except PyErr Int :=
  match splitCh dirname.data '_' with
  | [_, serial] =>
    match pyIntOfChars serial with
    | some serial_num => Except.ok serial_num
    | none => Except.ok (-1)
  | _ => Except.error (PyErr.valueError "unpack")

/-- Source `_get_serial_dir` (lines 653-660): joins the serial folder
name onto the root and creates it when it is not a directory. -/
def _get_serial_dir (dirname : FsPath) (serial : Int) : FsM FsPath :=
  FsM.bind (os_isdir (dirname ++ [cpName serial])) (fun isd =>
  FsM.bind (if isd then FsM.pure () else os_makedirs (dirname ++ [cpName serial]))
    (fun _ => FsM.pure (dirname ++ [cpName serial])))

/-- Source `_get_model_dir` (lines 663-669). -/
def _get_model_dir (dirname : FsPath) : FsM FsPath :=
  FsM.bind (os_isdir (dirname ++ [ MODEL_DIR])) (fun isd =>
  FsM.bind (if isd then FsM.pure () else os_makedirs (dirname ++ [ MODEL_DIR]))
    (fun _ => FsM.pure (dirname ++ [ MODEL_DIR])))

/-- Source `_get_trainer_dir` (lines 672-679). -/
def _get_trainer_dir (dirname : FsPath) (trainer_id : Int) : FsM FsPath :=
  FsM.bind (os_isdir (dirname ++ [trName trainer_id])) (fun isd =>
  FsM.bind (if isd then FsM.pure () else os_makedirs (dirname ++ [trName trainer_id]))
    (fun _ => FsM.pure (dirname ++ [trName trainer_id])))

/-- Source `_write_success` (lines 700-709): appends a timestamp to the
`_SUCCESS` file of the directory, creating it when absent. -/
def _write_success (dirname : FsPath) : FsM Unit :=
  fileWrite (dirname ++ [SUCCESS_MARK_FILENAME])

/-- Python dict insertion for `serial_map[serial_num] = serial`: replaces
the value when the key is present, otherwise appends. -/
def dictInsert (k : Int) (v : String) : List (Int × String) → List (Int × String)
  | [] => [(k, v)]
  | (k2, v2) :: rest =>
    if k = k2 then (k, v) :: rest else (k2, v2) :: dictInsert k v rest

/-- Loop of `_scroll_delete` building `serial_map`; the parse of an entry
can raise, which aborts the whole pass. -/
def buildSerialMap (dirs : List String) (acc : List (Int × String)) :
    FsM (List (Int × String)) :=
  match dirs with
  | [] => FsM.pure acc
  | d :: rest =>
    FsM.bind (FsM.liftE (_get_dir_serial d)) (fun n =>
      buildSerialMap rest (dictInsert n d acc))

/-- Descending insertion used to model `list.sort(reverse=True)`. -/
def insertDesc (x : Int) : List Int → List Int
  | [] => [x]
  | y :: ys => if x ≥ y then x :: y :: ys else y :: insertDesc x ys

/-- Python `serials.sort(reverse=True)` (the keys are pairwise distinct,
so stability is irrelevant). -/
def sortDesc : List Int → List Int
  | [] => []
  | x :: xs => insertDesc x (sortDesc xs)

/-- Deletion loop of `_scroll_delete`: for each doomed serial, resolve
(and, when absent, create) its serial directory, then remove its tree. -/
def deleteSerials (dirname : FsPath) : List Int → FsM Unit
  | [] => FsM.pure ()
  | n :: rest =>
    FsM.bind (_get_serial_dir dirname n) (fun cur_dir =>
    FsM.bind (sh_rmtree cur_dir) (fun _ => deleteSerials dirname rest))

/-- Source `_scroll_delete` (lines 682-697): list the root, parse every
entry into `serial_map`, return when at most `max_num_checkpoints` keys
exist, otherwise sort the keys descending and delete the tree of every
serial past the first `max_num_checkpoints`.  Negative
`max_num_checkpoints` is not modelled (Python slicing from the end); the
source only passes nonnegative values. -/
def _scroll_delete (dirname : FsPath) (max_num_checkpoints : Int) : FsM Unit :=
  FsM.bind (os_listdir dirname) (fun dirs =>
  FsM.bind (buildSerialMap dirs []) (fun serial_map =>
  if (serial_map.length : Int) ≤ max_num_checkpoints then FsM.pure ()
  else
    deleteSerials dirname
      ((sortDesc (serial_map.map Prod.fst)).drop max_num_checkpoints.toNat)))

/-- Write loop of `save_trainer_args` over the dict items. -/
def writeArgFiles (cur_dir : FsPath) : List (String × String) → FsM Unit
  | [] => FsM.pure ()
  | (name, _value) :: rest =>
    FsM.bind (fileWrite (cur_dir ++ [name])) (fun _ =>
      writeArgFiles cur_dir rest)

/-- Source `save_trainer_args` (lines 590-599): asserts the args are a
dict (an omitted or `None` argument fails the assert), then writes one
file per item into the trainer directory and marks it.  The dict is
modelled as an association list with pairwise-distinct keys. -/
def save_trainer_args (dirname : FsPath) (trainer_id : Int)
    (trainer_args : Option (List (String × String))) : FsM Unit :=
  match trainer_args with
  | none => FsM.raise PyErr.assertionError
  | some args =>
    FsM.bind (_get_trainer_dir dirname trainer_id) (fun cur_dir =>
    FsM.bind (writeArgFiles cur_dir args) (fun _ => _write_success cur_dir))

/-- Modelled from the spec: the executor collaborator (spec section 4.3 and
6) is outside this module; running a built save program makes the target
file of each `save` operation exist.  The operations are represented by
their target paths. -/
def executorRunSave : List FsPath → FsM Unit
  | [] => FsM.pure ()
  | p :: rest => FsM.bind (fileWrite p) (fun _ => executorRunSave rest)

/-- Modelled from the spec: running a built load program reads the source
file of each `load` operation; a missing file is a not-found error,
propagated unchanged (spec sections 4.3 and 7). -/
def executorRunLoad : List FsPath → FsM Unit
  | [] => FsM.pure ()
  | p :: rest => fun fs =>
    if fs.isfile p then executorRunLoad rest fs
    else Except.error (PyErr.notFound "load: no such file", fs)

/-- The save operations built by the `vars` branch of `save_vars` with
`filename=None`: one `save` per non-RAW variable, targeting
`dir/<name>`. -/
def saveOpPaths (dirname : FsPath) (vars : List PyVariable) : List FsPath :=
  vars.filterMap (fun v =>
    if v.type = VarType.RAW then none else some (dirname ++ [v.name]))

/-- Source `save_vars` (lines 64-127) for the separate-files case
(`filename=None`, the only case the checkpoint path uses): with
`vars=None` it filters the program by the predicate and recurses;
otherwise it builds one `save` operation per non-RAW variable and hands
the built program to the executor. -/
def save_vars (dirname : FsPath) (main_program : Option PyProgram)
    (vars : Option (List PyVariable)) (predicate : PyVariable → Bool) :
    FsM Unit :=
  match vars with
  | none =>
    let prog := match main_program with
      | none => default_main_program
      | some p => p
    executorRunSave (saveOpPaths dirname (prog.filter predicate))
  | some vs => executorRunSave (saveOpPaths dirname vs)

/-- Source `load_vars` (lines 156-219) for the separate-files case:
mirror of `save_vars` with `load` operations. -/
def load_vars (dirname : FsPath) (main_program : Option PyProgram)
    (vars : Option (List PyVariable)) (predicate : PyVariable → Bool) :
    FsM Unit :=
  match vars with
  | none =>
    let prog := match main_program with
      | none => default_main_program
      | some p => p
    executorRunLoad (saveOpPaths dirname (prog.filter predicate))
  | some vs => executorRunLoad (saveOpPaths dirname vs)

/-- Source `save_persist_vars_without_grad` (lines 570-587): save the
checkpoint-eligible variables into the `__model__` subdirectory, then
write its success mark. -/
def save_persist_vars_without_grad (dirname : FsPath)
    (program : Option PyProgram) : FsM Unit :=
  FsM.bind (_get_model_dir dirname) (fun cur_dir =>
  FsM.bind (save_vars cur_dir program none _is_checkpoint_var) (fun _ =>
  _write_success cur_dir))

/-- Source `load_persist_vars_without_grad` (lines 545-567). -/
def load_persist_vars_without_grad (dirname : FsPath)
    (program : Option PyProgram) (has_model_dir : Bool) : FsM Unit :=
  FsM.bind (if has_model_dir then _get_model_dir dirname else FsM.pure dirname)
    (fun d => load_vars d program none _is_checkpoint_var)

/-- Inner `has_success` of `get_latest_checkpoint_serial` (lines
721-735): parse the entry (which can raise), answer `-1` for an invalid
serial or a non-directory entry, otherwise test the success mark under
the directory resolved by `_get_serial_dir` (which creates it when
absent).  The Python function returns `serial`, `-1`, or falls through
returning `None`; the `None` outcome is `none` here. -/
def has_success (checkpoint_dir : FsPath) (cur_dir : String) :
    FsM (Option Int) :=
  FsM.bind (FsM.liftE (_get_dir_serial cur_dir)) (fun serial =>
  FsM.bind (os_isdir (checkpoint_dir ++ [cur_dir])) (fun isd =>
  if serial = -1 ∨ isd = false then FsM.pure (some (-1))
  else
    FsM.bind (_get_serial_dir checkpoint_dir serial) (fun sdir =>
    FsM.bind (os_isfile (sdir ++ [ MODEL_DIR, SUCCESS_MARK_FILENAME]))
      (fun ok => if ok then FsM.pure (some serial) else FsM.pure none))))

/-- Maximum-tracking loop of `get_latest_checkpoint_serial`: Python
`success_num > current_dir` where `success_num` may be `None`, and
`None > n` is `False` in Python 2. -/
def latestSerialLoop (checkpoint_dir : FsPath) (dirs : List String)
    (current_dir : Int) : FsM Int :=
  match dirs with
  | [] => FsM.pure current_dir
  | d :: rest =>
    FsM.bind (has_success checkpoint_dir d) (fun success_num =>
      match success_num with
      | some n =>
        if n > current_dir then latestSerialLoop checkpoint_dir rest n
        else latestSerialLoop checkpoint_dir rest current_dir
      | none => latestSerialLoop checkpoint_dir rest current_dir)

/-- Source `get_latest_checkpoint_serial` (lines 712-746): `-1` for a
falsy (`None` or empty) or absent root, otherwise the loop above over
the listing, starting from `-1`. -/
def get_latest_checkpoint_serial (checkpoint_dir : Option FsPath) : FsM Int :=
  match checkpoint_dir with
  | none => FsM.pure (-1)
  | some root =>
    if root.isEmpty then FsM.pure (-1)
    else
      FsM.bind (os_isdir root) (fun isd =>
      if isd = false then FsM.pure (-1)
      else
        FsM.bind (os_listdir root) (fun dirs =>
        latestSerialLoop root dirs (-1)))

/-- Source `save_checkpoint` (lines 466-501).  The executor argument is
opaque and omitted; `trainer_args` is `None` or a dict, so the guarded
`isinstance` assert at the top can never fire in the model and is not
represented. -/
def save_checkpoint (checkpoint_dir : Option FsPath) (trainer_id : Int)
    (trainer_args : Option (List (String × String)))
    (main_program : Option PyProgram) (max_num_checkpoints : Int) :
    FsM Unit :=
  match checkpoint_dir with
  | none => FsM.raise (PyErr.valueError "checkpoint_dir should not be None")
  | some cdir =>
    FsM.bind (os_isdir cdir) (fun isd =>
    FsM.bind (if isd then FsM.pure () else os_makedirs cdir) (fun _ =>
    FsM.bind (get_latest_checkpoint_serial (some cdir)) (fun latest =>
    FsM.bind (_get_serial_dir cdir (latest + 1)) (fun cur_dir =>
    FsM.bind (save_trainer_args cur_dir trainer_id trainer_args) (fun _ =>
    FsM.bind (if trainer_id = 0 then
        save_persist_vars_without_grad cur_dir main_program
      else FsM.pure ()) (fun _ =>
    _scroll_delete cdir max_num_checkpoints))))))

/-- Source `load_checkpoint` (lines 504-525): validate the arguments,
then load the eligible variables from the `__model__` subdirectory of
the serial directory. -/
def load_checkpoint (checkpoint_dir : Option FsPath) (serial : Option Int)
    (main_program : Option PyProgram) : FsM Unit :=
  match checkpoint_dir with
  | none => FsM.raise (PyErr.valueError "checkpoint_dir should not be None")
  | some cdir =>
    match serial with
    | none => FsM.raise (PyErr.valueError "serial should not be None or <0")
    | some s =>
      if s < 0 then FsM.raise (PyErr.valueError "serial should not be None or <0")
      else
        match main_program with
        | none => FsM.raise (PyErr.valueError "main_program should not be None")
        | some prog =>
          FsM.bind (_get_serial_dir cdir s) (fun cur_dir =>
          load_persist_vars_without_grad cur_dir (some prog) true)

/-- Source `clean_checkpoint` (lines 528-542): retention pass with
`max_num_checkpoints=0`, then, only when `delete_dir` is set and the
listing is empty, remove the root.  The `os.listdir` call sits inside
the short-circuiting conjunction. -/
def clean_checkpoint (checkpoint_dir : Option FsPath) (delete_dir : Bool) :
    FsM Unit :=
  match checkpoint_dir with
  | none => FsM.raise (PyErr.valueError "checkpoint_dir should not be None")
  | some cdir =>
    FsM.bind (_scroll_delete cdir 0) (fun _ =>
    if delete_dir then
      FsM.bind (os_listdir cdir) (fun ls =>
      if ls.isEmpty then os_rmdir cdir else FsM.pure ())
    else FsM.pure ())

/-- Composition of the source steps of `save_checkpoint` up to, but not
including, the `_write_success` call of `save_persist_vars_without_grad`:
the state reached by a chief save cycle that stops right before the
success mark is written (and before the retention pass).  Every step is
the corresponding embedded source function. -/
def save_checkpoint_interrupted (cdir : FsPath) (trainer_id : Int)
    (trainer_args : Option (List (String × String)))
    (main_program : Option PyProgram) : FsM Unit :=
  FsM.bind (os_isdir cdir) (fun isd =>
  FsM.bind (if isd then FsM.pure () else os_makedirs cdir) (fun _ =>
  FsM.bind (get_latest_checkpoint_serial (some cdir)) (fun latest =>
  FsM.bind (_get_serial_dir cdir (latest + 1)) (fun cur_dir =>
  FsM.bind (save_trainer_args cur_dir trainer_id trainer_args) (fun _ =>
  FsM.bind (_get_model_dir cur_dir) (fun model_dir =>
  save_vars model_dir main_program none _is_checkpoint_var))))))

/-! ### Observation helpers used by claim statements -/

deriving instance DecidableEq for Except

/-- The state a run leaves behind, whether it returns or raises. -/
def runFs (m : FsM Unit) (fs : FS) : FS :=
  match m fs with
  | Except.ok (_, f) => f
  | Except.error (_, f) => f

/-- Whether a run raises a `ValueError`. -/
def isValueError (r : Except (PyErr × FS) (α × FS)) : Prop :=
  ∃ msg fs, r = Except.error (PyErr.valueError msg, fs)

/-! ### Claim-side view of resolution

`qualSerial` reads the claim: an entry qualifies when it parses as a
canonical serial-directory name `checkpoint_<n>`, is a directory, and
carries the success mark at `<serial_dir>/__model__/_SUCCESS`. -/

/-- The qualifying serial of one root entry, when any. -/
def qualSerial (fs : FS) (root : FsPath) (e : String) : Option Int :=
  match _get_dir_serial e with
  | Except.ok n =>
    if 0 ≤ n ∧ e = cpName n ∧ fs.isdir (root ++ [e]) = true ∧
        fs.isfile (root ++ [e, MODEL_DIR, SUCCESS_MARK_FILENAME]) = true
    then some n else none
  | Except.error _ => none

/-- All qualifying serials under a root, in listing order. -/
def qualSerials (fs : FS) (root : FsPath) : List Int :=
  (fs.listdir root).filterMap (qualSerial fs root)

/-- The resolver value the spec describes: the maximum qualifying serial,
or `-1` when none qualify. -/
def latestSpec (fs : FS) (root : FsPath) : Int :=
  (qualSerials fs root).foldl max (-1)

/-- Root entries tolerated by resolution without raising: canonical
serial-directory names, or names with exactly one separator whose second
field is not an integer (those parse to the sentinel `-1`). -/
def EntryOk (e : String) : Prop :=
  (∃ n, 0 ≤ n ∧ e = cpName n) ∨ _get_dir_serial e = Except.ok (-1)

/-! ### Well-formed filesystem states

States reachable from a real filesystem: paths are pairwise distinct and
every proper prefix of a recorded path is recorded as a directory. -/

/-- Well-formedness of a filesystem state. -/
def FS.Wf (fs : FS) : Prop :=
  (∀ e ∈ fs, ∀ k : Nat, k + 1 < e.1.length → (e.1.take (k + 1), false) ∈ fs)
  ∧ (fs.map Prod.fst).Nodup

/-! ### Shape of the state written by one save cycle -/

/-- The checkpoint-eligible variable names of a program, in order. -/
def eligNames (prog : PyProgram) : List String :=
  (prog.filter _is_checkpoint_var).map PyVariable.name

/-- Entries added by `save_trainer_args` under a fresh serial directory. -/
def trainerExtra (sdir : FsPath) (tid : Int)
    (args : List (String × String)) : FS :=
  (sdir ++ [trName tid], false) ::
    (args.map (fun a => (sdir ++ [trName tid] ++ [a.1], true)) ++
      [(sdir ++ [trName tid] ++ [SUCCESS_MARK_FILENAME], true)])

/-- Entries added by the variable-save pass under a fresh serial
directory, before the success mark. -/
def modelExtra (sdir : FsPath) (prog : PyProgram) : FS :=
  (sdir ++ [ MODEL_DIR], false) ::
    (eligNames prog).map (fun x => (sdir ++ [ MODEL_DIR] ++ [x], true))

/-- The success-mark entry of the model directory. -/
def markEntry (sdir : FsPath) : FS :=
  [(sdir ++ [ MODEL_DIR] ++ [SUCCESS_MARK_FILENAME], true)]

/-- The serial directory a save cycle starting from `fs` allocates. -/
def nextSdir (fs : FS) (root : FsPath) : FsPath :=
  root ++ [cpName (latestSpec fs root + 1)]

/-- State reached by a chief save cycle just before the success mark. -/
def preMarkState (fs : FS) (root : FsPath) (args : List (String × String))
    (prog : PyProgram) : FS :=
  ((fs ++ [(nextSdir fs root, false)]) ++
    trainerExtra (nextSdir fs root) 0 args) ++
  modelExtra (nextSdir fs root) prog

/-- State reached by a chief save cycle just before the retention pass. -/
def chiefState (fs : FS) (root : FsPath) (args : List (String × String))
    (prog : PyProgram) : FS :=
  preMarkState fs root args prog ++ markEntry (nextSdir fs root)

/-- One chief save cycle at root `ckpt` with one trainer arg, one
persistable variable and retention 3, as a state transformer (the
concrete scenario of C4). -/
def chiefSave3 (fs : FS) : FS :=
  runFs (save_checkpoint (some ["ckpt"]) 0 (some [("step", "5")])
    (some [⟨"w", VarType.LOD_TENSOR, true⟩]) 3) fs

/-! ### Elementary lemmas about the monad -/

theorem FsM.pure_apply (a : α) (fs : FS) : FsM.pure a fs = Except.ok (a, fs) :=
  rfl

theorem FsM.bind_ok {m : FsM α} {f : α → FsM β} {fs fs2 : FS} {a : α}
    (h : m fs = Except.ok (a, fs2)) : FsM.bind m f fs = f a fs2 := by
  simp [FsM.bind, h]

theorem FsM.bind_err {m : FsM α} {f : α → FsM β} {fs : FS}
    {e : PyErr × FS} (h : m fs = Except.error e) :
    FsM.bind m f fs = Except.error e := by
  simp [FsM.bind, h]

/-! ### Decimal digits: `str(n)` round-trips through `int` -/

theorem digitChar_spec (k : Nat) (h : k < 10) :
    (Nat.digitChar k).isDigit = true ∧ (Nat.digitChar k).toNat - 48 = k := by
  interval_cases k <;> exact ⟨by decide, by decide⟩

theorem toDigitsCore_parse (fuel : Nat) : ∀ n, n < fuel →
    ∃ E, 0 < E ∧ ∀ ds acc,
      parseDigitsAux (Nat.toDigitsCore 10 fuel n ds) acc =
        parseDigitsAux ds (acc * E + n) := by
  induction fuel with
  | zero => intro n h; omega
  | succ f ih =>
    intro n h
    by_cases h10 : n / 10 = 0
    · refine ⟨10, by omega, fun ds acc => ?_⟩
      have hn : n < 10 := by omega
      obtain ⟨hdig, hval⟩ := digitChar_spec (n % 10) (Nat.mod_lt n (by omega))
      simp only [Nat.toDigitsCore, h10, if_true, parseDigitsAux, hdig, if_pos]
      rw [hval]
      have : n % 10 = n := Nat.mod_eq_of_lt hn
      rw [this]
    · have hge : 10 ≤ n := by
        by_contra hlt
        exact h10 (Nat.div_eq_of_lt (by omega))
      have hlt : n / 10 < f := by
        have := Nat.div_lt_self (by omega : 0 < n) (by omega : 1 < 10)
        omega
      obtain ⟨E, hE, hIH⟩ := ih (n / 10) hlt
      refine ⟨E * 10, by positivity, fun ds acc => ?_⟩
      obtain ⟨hdig, hval⟩ := digitChar_spec (n % 10) (Nat.mod_lt n (by omega))
      simp only [Nat.toDigitsCore, h10, if_false]
      rw [hIH (Nat.digitChar (n % 10) :: ds) acc]
      simp only [parseDigitsAux, hdig, if_pos]
      rw [hval]
      congr 1
      have hdm : n / 10 * 10 + n % 10 = n := by omega
      calc (acc * E + n / 10) * 10 + n % 10
          = acc * (E * 10) + (n / 10 * 10 + n % 10) := by ring
        _ = acc * (E * 10) + n := by rw [hdm]

theorem toDigitsCore_all_digits (fuel : Nat) : ∀ n ds,
    (∀ c ∈ ds, c.isDigit = true) →
    ∀ c ∈ Nat.toDigitsCore 10 fuel n ds, c.isDigit = true := by
  induction fuel with
  | zero => intro n ds hds; simpa [Nat.toDigitsCore] using hds
  | succ f ih =>
    intro n ds hds
    obtain ⟨hdig, -⟩ := digitChar_spec (n % 10) (Nat.mod_lt n (by omega))
    by_cases h10 : n / 10 = 0
    · simp only [Nat.toDigitsCore, h10, if_true]
      intro c hc
      rcases List.mem_cons.mp hc with rfl | hc
      · exact hdig
      · exact hds c hc
    · simp only [Nat.toDigitsCore, h10, if_false]
      refine ih (n / 10) _ ?_
      intro c hc
      rcases List.mem_cons.mp hc with rfl | hc
      · exact hdig
      · exact hds c hc

theorem toDigitsCore_ne_nil (fuel : Nat) : ∀ n ds, fuel ≠ 0 →
    Nat.toDigitsCore 10 fuel n ds ≠ [] := by
  induction fuel with
  | zero => intro n ds h; omega
  | succ f ih =>
    intro n ds _
    by_cases h10 : n / 10 = 0
    · simp [Nat.toDigitsCore, h10]
    · simp only [Nat.toDigitsCore, h10, if_false]
      rcases Nat.eq_zero_or_pos f with rfl | hf
      · simp [Nat.toDigitsCore]
      · exact ih (n / 10) _ (by omega)

theorem pyIntOfChars_toDigits (k : Nat) :
    pyIntOfChars (Nat.toDigits 10 k) = some (k : Int) := by
  have hparse : parseDigitsAux (Nat.toDigits 10 k) 0 = some k := by
    obtain ⟨E, -, hE⟩ := toDigitsCore_parse (k + 1) k (by omega)
    simpa [Nat.toDigits, parseDigitsAux] using hE [] 0
  have hdig : ∀ c ∈ Nat.toDigits 10 k, c.isDigit = true :=
    toDigitsCore_all_digits (k + 1) k [] (by simp)
  have hne : Nat.toDigits 10 k ≠ [] := toDigitsCore_ne_nil (k + 1) k [] (by omega)
  obtain ⟨c, cs, hcons⟩ := List.exists_cons_of_ne_nil hne
  have hc : c.isDigit = true := hdig c (by rw [hcons]; exact List.mem_cons_self c cs)
  have hcm : c ≠ '-' := by rintro rfl; simp [Char.isDigit] at hc
  have hcp : c ≠ '+' := by rintro rfl; simp [Char.isDigit] at hc
  rw [hcons] at hparse ⊢
  simp [pyIntOfChars, hcm, hcp, hparse]

theorem toString_int_nonneg (m : Int) (h : 0 ≤ m) :
    (toString m).data = Nat.toDigits 10 m.toNat := by
  obtain ⟨k, rfl⟩ := Int.eq_ofNat_of_zero_le h
  rfl

/-! ### Splitting canonical serial-directory names -/

theorem splitCh_sepFree {l : List Char} {sep : Char} (h : sep ∉ l) :
    splitCh l sep = [l] := by
  induction l with
  | nil => rfl
  | cons c cs ih =>
    have hc : c ≠ sep := fun hc => h (hc ▸ List.mem_cons_self c cs)
    have hcs : sep ∉ cs := fun hm => h (List.mem_cons_of_mem c hm)
    simp [splitCh, hc, ih hcs]

theorem splitCh_append {l1 : List Char} {sep : Char} (l2 : List Char)
    (h : sep ∉ l1) :
    splitCh (l1 ++ sep :: l2) sep = l1 :: splitCh l2 sep := by
  induction l1 with
  | nil => simp [splitCh]
  | cons c cs ih =>
    have hc : c ≠ sep := fun hc => h (hc ▸ List.mem_cons_self c cs)
    have hcs : sep ∉ cs := fun hm => h (List.mem_cons_of_mem c hm)
    have hrec := ih hcs
    simp only [List.cons_append, splitCh, if_neg hc, List.append_eq, hrec]

theorem sep_not_mem_toDigits (k : Nat) : '_' ∉ Nat.toDigits 10 k := by
  intro hm
  have := toDigitsCore_all_digits (k + 1) k [] (by simp) '_' hm
  simp [Char.isDigit] at this

theorem cpName_data (m : Int) (h : 0 ≤ m) :
    (cpName m).data = "checkpoint".data ++ '_' :: Nat.toDigits 10 m.toNat := by
  have : (cpName m).data =
      "checkpoint".data ++ "_".data ++ (toString m).data := by
    simp [cpName, CHECKPOINT_PREFIX, CHECKPOINT_SEPARATOR]
  rw [this, toString_int_nonneg m h]
  simp

/-- Parsing a canonical serial-directory name recovers the serial: the
round trip behind serial allocation and retention. -/
theorem get_dir_serial_cpName (m : Int) (h : 0 ≤ m) :
    _get_dir_serial (cpName m) = Except.ok m := by
  have hsplit : splitCh (cpName m).data '_' =
      ["checkpoint".data, Nat.toDigits 10 m.toNat] := by
    rw [cpName_data m h]
    rw [splitCh_append _ (by decide)]
    rw [splitCh_sepFree (sep_not_mem_toDigits m.toNat)]
  have hint : pyIntOfChars (Nat.toDigits 10 m.toNat) = some m := by
    rw [pyIntOfChars_toDigits m.toNat]
    congr 1
    exact Int.toNat_of_nonneg h
  simp [_get_dir_serial, hsplit, hint]

/-- Canonical serial-directory names are injective in the serial. -/
theorem cpName_injective {a b : Int} (ha : 0 ≤ a) (hb : 0 ≤ b)
    (h : cpName a = cpName b) : a = b := by
  have h1 := get_dir_serial_cpName a ha
  have h2 := get_dir_serial_cpName b hb
  rw [h] at h1
  rw [h1] at h2
  exact (Except.ok.injEq _ _).mp h2


/-! ### Folded maximum helpers -/

theorem le_foldl_max (l : List Int) (c : Int) :
    c ≤ l.foldl max c ∧ ∀ x ∈ l, x ≤ l.foldl max c := by
  induction l generalizing c with
  | nil => simp
  | cons a t ih =>
    obtain ⟨h1, h2⟩ := ih (max c a)
    refine ⟨le_trans (le_max_left c a) h1, ?_⟩
    intro x hx
    rcases List.mem_cons.mp hx with rfl | hx
    · exact le_trans (le_max_right c x) h1
    · exact h2 x hx

theorem foldl_max_mem (l : List Int) (c : Int) :
    l.foldl max c = c ∨ l.foldl max c ∈ l := by
  induction l generalizing c with
  | nil => simp
  | cons a t ih =>
    rcases ih (max c a) with h | h
    · simp only [List.foldl_cons, h]
      rcases max_choice c a with h2 | h2
      · exact Or.inl h2
      · exact Or.inr (by rw [h2]; exact List.mem_cons_self a t)
    · exact Or.inr (List.mem_cons_of_mem a h)

/-! ### Evaluation of `has_success` on tolerated entries -/

theorem has_success_junk {e : String} (root : FsPath) (fs : FS)
    (h : _get_dir_serial e = Except.ok (-1)) :
    has_success root e fs = Except.ok (some (-1), fs) := by
  simp [has_success, FsM.bind, FsM.liftE, FsM.pure, os_isdir, h]

theorem has_success_canon (root : FsPath) (fs : FS) {e : String} {n : Int}
    (hn : 0 ≤ n) (he : e = cpName n) :
    has_success root e fs = Except.ok
      ((if fs.isdir (root ++ [e]) = true then
          (if fs.isfile (root ++ [e, MODEL_DIR, SUCCESS_MARK_FILENAME]) = true
           then some n else none)
        else some (-1)), fs) := by
  subst he
  have hne : ¬(n = -1) := by omega
  by_cases hd : fs.isdir (root ++ [cpName n]) = true
  · by_cases hf : fs.isfile (root ++ [cpName n, MODEL_DIR,
        SUCCESS_MARK_FILENAME]) = true
    · simp [has_success, _get_serial_dir, FsM.bind, FsM.liftE, FsM.pure,
        os_isdir, os_isfile, get_dir_serial_cpName n hn, hne, hd, hf]
    · simp [has_success, _get_serial_dir, FsM.bind, FsM.liftE, FsM.pure,
        os_isdir, os_isfile, get_dir_serial_cpName n hn, hne, hd, hf]
  · simp [has_success, FsM.bind, FsM.liftE, FsM.pure, os_isdir,
      get_dir_serial_cpName n hn, hne, hd]

theorem has_success_canon_marked (root : FsPath) (fs : FS) {e : String}
    {n : Int} (hn : 0 ≤ n) (he : e = cpName n)
    (hdir : fs.isdir (root ++ [e]) = true)
    (hfile : fs.isfile (root ++ [e, MODEL_DIR, SUCCESS_MARK_FILENAME]) = true) :
    has_success root e fs = Except.ok (some n, fs) := by
  rw [has_success_canon root fs hn he, if_pos hdir, if_pos hfile]

theorem has_success_canon_unmarked (root : FsPath) (fs : FS) {e : String}
    {n : Int} (hn : 0 ≤ n) (he : e = cpName n)
    (hdir : fs.isdir (root ++ [e]) = true)
    (hfile : ¬fs.isfile (root ++ [e, MODEL_DIR, SUCCESS_MARK_FILENAME]) = true) :
    has_success root e fs = Except.ok (none, fs) := by
  rw [has_success_canon root fs hn he, if_pos hdir, if_neg hfile]

theorem has_success_canon_nodir (root : FsPath) (fs : FS) {e : String}
    {n : Int} (hn : 0 ≤ n) (he : e = cpName n)
    (hdir : ¬fs.isdir (root ++ [e]) = true) :
    has_success root e fs = Except.ok (some (-1), fs) := by
  rw [has_success_canon root fs hn he, if_neg hdir]

/-! ### The resolver computes the maximum qualifying serial -/

theorem latestSerialLoop_spec (root : FsPath) (fs : FS) :
    ∀ (ds : List String) (c : Int), (∀ e ∈ ds, EntryOk e) → -1 ≤ c →
    latestSerialLoop root ds c fs =
      Except.ok ((ds.filterMap (qualSerial fs root)).foldl max c, fs) := by
  intro ds
  induction ds with
  | nil => intro c _ _; simp [latestSerialLoop, FsM.pure]
  | cons d rest ih =>
    intro c hent hc
    have hd := hent d (List.mem_cons_self d rest)
    have hrest : ∀ e ∈ rest, EntryOk e := fun e he =>
      hent e (List.mem_cons_of_mem d he)
    rcases hd with ⟨n, hn, he⟩ | hjunk
    · subst he
      simp only [latestSerialLoop]
      by_cases hdir : fs.isdir (root ++ [cpName n]) = true
      · by_cases hfile : fs.isfile (root ++
            [cpName n, MODEL_DIR, SUCCESS_MARK_FILENAME]) = true
        · have hq : qualSerial fs root (cpName n) = some n := by
            simp [qualSerial, get_dir_serial_cpName n hn, hn, hdir, hfile]
          rw [FsM.bind_ok (has_success_canon_marked root fs hn rfl hdir hfile)]
          change (if n > c then latestSerialLoop root rest n
            else latestSerialLoop root rest c) fs = _
          simp only [List.filterMap_cons, hq, List.foldl_cons]
          by_cases hcn : n > c
          · rw [if_pos hcn, ih n hrest (by omega),
              max_eq_right (le_of_lt hcn)]
          · rw [if_neg hcn, ih c hrest hc, max_eq_left (by omega)]
        · have hq : qualSerial fs root (cpName n) = none := by
            unfold qualSerial
            rw [get_dir_serial_cpName n hn]
            simp [hfile]
          rw [FsM.bind_ok (has_success_canon_unmarked root fs hn rfl hdir hfile)]
          change latestSerialLoop root rest c fs = _
          rw [ih c hrest hc]
          simp only [List.filterMap_cons, hq]
      · have hq : qualSerial fs root (cpName n) = none := by
          unfold qualSerial
          rw [get_dir_serial_cpName n hn]
          simp [hdir]
        rw [FsM.bind_ok (has_success_canon_nodir root fs hn rfl hdir)]
        change (if (-1 : Int) > c then latestSerialLoop root rest (-1)
          else latestSerialLoop root rest c) fs = _
        rw [if_neg (by omega : ¬((-1 : Int) > c)), ih c hrest hc]
        simp only [List.filterMap_cons, hq]
    · have hq : qualSerial fs root d = none := by
        simp [qualSerial, hjunk]
      simp only [latestSerialLoop]
      rw [FsM.bind_ok (has_success_junk root fs hjunk)]
      change (if (-1 : Int) > c then latestSerialLoop root rest (-1)
        else latestSerialLoop root rest c) fs = _
      rw [if_neg (by omega : ¬((-1 : Int) > c)), ih c hrest hc]
      simp only [List.filterMap_cons, hq]

/-- Resolution over a present root whose entries are all tolerated:
returns the maximum qualifying serial (or `-1`), and leaves the
filesystem unchanged. -/
theorem resolver_spec {fs : FS} {root : FsPath} (hne : root ≠ [])
    (hdir : fs.isdir root = true)
    (hent : ∀ e ∈ fs.listdir root, EntryOk e) :
    get_latest_checkpoint_serial (some root) fs =
      Except.ok (latestSpec fs root, fs) := by
  simp only [get_latest_checkpoint_serial, List.isEmpty_iff]
  rw [if_neg hne]
  rw [FsM.bind_ok (rfl : os_isdir root fs = Except.ok (fs.isdir root, fs))]
  rw [hdir]
  simp only [Bool.true_eq_false, if_false]
  rw [FsM.bind_ok (show os_listdir root fs = Except.ok (fs.listdir root, fs) by
    simp [os_listdir, hdir])]
  rw [latestSerialLoop_spec root fs (fs.listdir root) (-1) hent (by omega)]
  rfl

/-! ### Elementary filesystem lemmas -/

theorem FS.isdir_append (fs gs : FS) (p : FsPath) :
    (fs ++ gs).isdir p = (fs.isdir p || gs.isdir p) :=
  List.any_append

theorem FS.isfile_append (fs gs : FS) (p : FsPath) :
    (fs ++ gs).isfile p = (fs.isfile p || gs.isfile p) :=
  List.any_append

theorem FS.existsP_append (fs gs : FS) (p : FsPath) :
    (fs ++ gs).existsP p = (fs.existsP p || gs.existsP p) :=
  List.any_append

theorem FS.listdir_append (fs gs : FS) (p : FsPath) :
    (fs ++ gs).listdir p = fs.listdir p ++ gs.listdir p :=
  List.filterMap_append _ _ _

theorem FsM.bind_ok_inv {m : FsM α} {f : α → FsM β} {fs : FS}
    {r : β × FS} (h : FsM.bind m f fs = Except.ok r) :
    ∃ a fsx, m fs = Except.ok (a, fsx) ∧ f a fsx = Except.ok r := by
  unfold FsM.bind at h
  rcases hm : m fs with e | ⟨a, fsx⟩
  · rw [hm] at h; exact absurd h (by simp)
  · rw [hm] at h; exact ⟨a, fsx, rfl, h⟩

theorem mem_pathPrefixes_self {p : FsPath} (h : p ≠ []) :
    p ∈ pathPrefixes p := by
  unfold pathPrefixes
  have hl : 0 < p.length := List.length_pos.mpr h
  refine List.mem_map.mpr ⟨p.length - 1, List.mem_range.mpr (by omega), ?_⟩
  rw [Nat.sub_add_cancel (by omega), List.take_length]

theorem makedirs_isdir_self {fs fs3 : FS} {p : FsPath} (hne : p ≠ [])
    (h : fs.makedirs p = Except.ok fs3) : fs3.isdir p = true := by
  unfold FS.makedirs at h
  split_ifs at h with h1 h2
  have hfs3 : fs3 = fs ++ (pathPrefixes p).filterMap
      (fun q => if fs.existsP q then none else some (q, false)) := by
    exact (Except.ok.injEq _ _).mp h.symm
  subst hfs3
  rw [FS.isdir_append, Bool.or_eq_true]
  right
  have hmem : (p, false) ∈ (pathPrefixes p).filterMap
      (fun q => if fs.existsP q then none else some (q, false)) := by
    refine List.mem_filterMap.mpr ⟨p, mem_pathPrefixes_self hne, ?_⟩
    simp [h1]
  refine List.any_eq_true.mpr ⟨(p, false), hmem, ?_⟩
  simp

theorem makedirs_isdir_mono {fs fs3 : FS} {p q : FsPath}
    (h : fs.makedirs p = Except.ok fs3) (hq : fs.isdir q = true) :
    fs3.isdir q = true := by
  unfold FS.makedirs at h
  split_ifs at h with h1 h2
  have hfs3 : fs3 = fs ++ _ := (Except.ok.injEq _ _).mp h.symm
  subst hfs3
  rw [FS.isdir_append, hq, Bool.true_or]

theorem get_serial_dir_exists {fs : FS} {root : FsPath} {n : Int}
    (hd : fs.isdir (root ++ [cpName n]) = true) :
    _get_serial_dir root n fs = Except.ok (root ++ [cpName n], fs) := by
  unfold _get_serial_dir
  rw [FsM.bind_ok (rfl : os_isdir (root ++ [cpName n]) fs =
    Except.ok (fs.isdir (root ++ [cpName n]), fs))]
  rw [hd]
  simp [FsM.bind, FsM.pure]

theorem get_serial_dir_creates {fs fs4 : FS} {root : FsPath} {n : Int}
    (hd : ¬fs.isdir (root ++ [cpName n]) = true)
    (hmk : fs.makedirs (root ++ [cpName n]) = Except.ok fs4) :
    _get_serial_dir root n fs = Except.ok (root ++ [cpName n], fs4) := by
  unfold _get_serial_dir
  rw [FsM.bind_ok (rfl : os_isdir (root ++ [cpName n]) fs =
    Except.ok (fs.isdir (root ++ [cpName n]), fs))]
  rw [Bool.not_eq_true] at hd
  rw [hd]
  simp [FsM.bind, FsM.pure, os_makedirs, FsM.liftFs, hmk]

theorem get_serial_dir_fails {fs : FS} {root : FsPath} {n : Int} {e : PyErr}
    (hd : ¬fs.isdir (root ++ [cpName n]) = true)
    (hmk : fs.makedirs (root ++ [cpName n]) = Except.error e) :
    _get_serial_dir root n fs = Except.error (e, fs) := by
  unfold _get_serial_dir
  rw [FsM.bind_ok (rfl : os_isdir (root ++ [cpName n]) fs =
    Except.ok (fs.isdir (root ++ [cpName n]), fs))]
  rw [Bool.not_eq_true] at hd
  rw [hd]
  simp [FsM.bind, FsM.pure, os_makedirs, FsM.liftFs, hmk]

/-! ### Resolution side effects: directory creation and monotonicity -/

theorem isfile_tail_eval (p : FsPath) (m : Int) (fsx : FS) :
    FsM.bind (os_isfile p) (fun ok =>
      if ok = true then FsM.pure (some m) else FsM.pure none) fsx =
    Except.ok ((if fsx.isfile p = true then some m else none), fsx) := by
  by_cases hf : fsx.isfile p = true <;>
    simp [FsM.bind, os_isfile, FsM.pure, hf]

theorem has_success_general {root : FsPath} {e : String} {fs fs2 : FS}
    {v : Option Int} (h : has_success root e fs = Except.ok (v, fs2)) :
    (∀ q, fs.isdir q = true → fs2.isdir q = true) ∧
    (∀ m, _get_dir_serial e = Except.ok m → m ≠ -1 →
      fs.isdir (root ++ [e]) = true →
      fs2.isdir (root ++ [cpName m]) = true) := by
  unfold has_success at h
  rcases hp : _get_dir_serial e with em | m
  · rw [FsM.bind_err (show FsM.liftE (_get_dir_serial e) fs =
      Except.error (em, fs) by simp [FsM.liftE, hp])] at h
    exact absurd h (by simp)
  · rw [FsM.bind_ok (show FsM.liftE (_get_dir_serial e) fs =
      Except.ok (m, fs) by simp [FsM.liftE, hp])] at h
    rw [FsM.bind_ok (rfl : os_isdir (root ++ [e]) fs =
      Except.ok (fs.isdir (root ++ [e]), fs))] at h
    by_cases hcond : m = -1 ∨ fs.isdir (root ++ [e]) = false
    · rw [if_pos hcond] at h
      obtain ⟨hv, hfs⟩ := (Prod.mk.injEq _ _ _ _).mp
        ((Except.ok.injEq _ _).mp h)
      subst hfs
      refine ⟨fun q hq => hq, fun m2 hp2 hm2 hd2 => ?_⟩
      have hm : m = m2 := (Except.ok.injEq _ _).mp hp2
      subst hm
      rcases hcond with h1 | h1
      · exact absurd h1 hm2
      · rw [hd2] at h1; exact absurd h1 (by simp)
    · rw [if_neg hcond] at h
      by_cases hd : fs.isdir (root ++ [cpName m]) = true
      · rw [FsM.bind_ok (get_serial_dir_exists hd)] at h
        rw [isfile_tail_eval] at h
        obtain ⟨hv, hfs⟩ := (Prod.mk.injEq _ _ _ _).mp
          ((Except.ok.injEq _ _).mp h)
        subst hfs
        refine ⟨fun q hq => hq, fun m2 hp2 _ _ => ?_⟩
        have hm : m = m2 := (Except.ok.injEq _ _).mp hp2
        subst hm
        exact hd
      · rcases hmk : fs.makedirs (root ++ [cpName m]) with e4 | fs4
        · rw [FsM.bind_err (get_serial_dir_fails hd hmk)] at h
          exact absurd h (by simp)
        · rw [FsM.bind_ok (get_serial_dir_creates hd hmk)] at h
          rw [isfile_tail_eval] at h
          obtain ⟨hv, hfs⟩ := (Prod.mk.injEq _ _ _ _).mp
            ((Except.ok.injEq _ _).mp h)
          subst hfs
          refine ⟨fun q hq => makedirs_isdir_mono hmk hq,
            fun m2 hp2 _ _ => ?_⟩
          have hm : m = m2 := (Except.ok.injEq _ _).mp hp2
          subst hm
          exact makedirs_isdir_self (by simp) hmk

theorem latestSerialLoop_creates (root : FsPath) :
    ∀ (ds : List String) (c : Int) (fs fs2 : FS) (v : Int),
    latestSerialLoop root ds c fs = Except.ok (v, fs2) →
    (∀ q, fs.isdir q = true → fs2.isdir q = true) ∧
    (∀ e m, e ∈ ds → _get_dir_serial e = Except.ok m → m ≠ -1 →
      fs.isdir (root ++ [e]) = true →
      fs2.isdir (root ++ [cpName m]) = true) := by
  intro ds
  induction ds with
  | nil =>
    intro c fs fs2 v h
    have hfs : fs = fs2 :=
      (show c = v ∧ fs = fs2 by
        simpa [latestSerialLoop, FsM.pure, Prod.ext_iff] using h).2
    subst hfs
    exact ⟨fun q hq => hq, fun e m he => absurd he (List.not_mem_nil e)⟩
  | cons d rest ih =>
    intro c fs fs2 v h
    simp only [latestSerialLoop] at h
    rcases hhs : has_success root d fs with e2 | ⟨w, fsx⟩
    · rw [FsM.bind_err hhs] at h
      exact absurd h (by simp)
    · rw [FsM.bind_ok hhs] at h
      obtain ⟨mono1, creates1⟩ := has_success_general hhs
      have hcont : ∃ c2, latestSerialLoop root rest c2 fsx =
          Except.ok (v, fs2) := by
        rcases w with _ | nn
        · exact ⟨c, h⟩
        · replace h : (if nn > c then latestSerialLoop root rest nn
              else latestSerialLoop root rest c) fsx =
              Except.ok (v, fs2) := h
          by_cases hgt : nn > c
          · rw [if_pos hgt] at h; exact ⟨nn, h⟩
          · rw [if_neg hgt] at h; exact ⟨c, h⟩
      obtain ⟨c2, h2⟩ := hcont
      obtain ⟨mono2, creates2⟩ := ih c2 fsx fs2 v h2
      refine ⟨fun q hq => mono2 q (mono1 q hq), ?_⟩
      intro e m he hm hne hdir
      rcases List.mem_cons.mp he with rfl | he2
      · exact mono2 _ (creates1 m hm hne hdir)
      · exact creates2 e m he2 hm hne (mono1 _ hdir)

/-! ### Unfolding lemmas for the resolver entry points -/

theorem resolver_none (fs : FS) :
    get_latest_checkpoint_serial none fs = Except.ok (-1, fs) := rfl

theorem resolver_empty_root (fs : FS) :
    get_latest_checkpoint_serial (some []) fs = Except.ok (-1, fs) := rfl

theorem resolver_absent {fs : FS} {root : FsPath} (hne : root ≠ [])
    (hdir : fs.isdir root = false) :
    get_latest_checkpoint_serial (some root) fs = Except.ok (-1, fs) := by
  simp only [get_latest_checkpoint_serial, List.isEmpty_iff]
  rw [if_neg hne]
  rw [FsM.bind_ok (rfl : os_isdir root fs = Except.ok (fs.isdir root, fs))]
  rw [hdir]
  simp [FsM.pure]

theorem resolver_unfold {fs : FS} {root : FsPath} (hne : root ≠ [])
    (hdir : fs.isdir root = true) :
    get_latest_checkpoint_serial (some root) fs =
      latestSerialLoop root (fs.listdir root) (-1) fs := by
  simp only [get_latest_checkpoint_serial, List.isEmpty_iff]
  rw [if_neg hne]
  rw [FsM.bind_ok (rfl : os_isdir root fs = Except.ok (fs.isdir root, fs))]
  rw [hdir]
  simp only [Bool.true_eq_false, if_false]
  rw [FsM.bind_ok (show os_listdir root fs = Except.ok (fs.listdir root, fs) by
    simp [os_listdir, hdir])]

theorem qualSerials_nonneg {fs : FS} {root : FsPath} :
    ∀ q ∈ qualSerials fs root, 0 ≤ q := by
  intro q hq
  obtain ⟨e, -, he⟩ := List.mem_filterMap.mp hq
  unfold qualSerial at he
  rcases hp : _get_dir_serial e with e2 | n
  · rw [hp] at he; exact absurd he (by simp)
  · rw [hp] at he
    replace he : (if 0 ≤ n ∧ e = cpName n ∧ fs.isdir (root ++ [e]) = true ∧
        fs.isfile (root ++ [e, MODEL_DIR, SUCCESS_MARK_FILENAME]) = true
      then some n else none) = some q := he
    split_ifs at he with hc
    have : n = q := (Option.some.injEq _ _).mp he
    subst this
    exact hc.1

/-! ### Claim C10 -/

/-- C10: resolution is not read-only.  During
`get_latest_checkpoint_serial`, every listed directory entry whose name
parses to a serial `n` other than `-1` has its success check go through
`_get_serial_dir`, so after any resolution run that returns, the
directory `checkpoint_<n>` exists under the root — even when the entry
itself was named differently (for example `checkpoint_007`, which parses
to `7` and causes the empty directory `checkpoint_7` to be created). -/
theorem C10_resolution_creates_serial_dir
    (fs fs2 : FS) (root : FsPath) (e : String) (n r : Int)
    (hroot : root ≠ []) (hdir : fs.isdir root = true)
    (hmem : e ∈ fs.listdir root)
    (hparse : _get_dir_serial e = Except.ok n) (hn : n ≠ -1)
    (hedir : fs.isdir (root ++ [e]) = true)
    (hrun : get_latest_checkpoint_serial (some root) fs =
      Except.ok (r, fs2)) :
    fs2.isdir (root ++ [cpName n]) = true := by
  rw [resolver_unfold hroot hdir] at hrun
  exact (latestSerialLoop_creates root (fs.listdir root) (-1) fs fs2 r
    hrun).2 e n hmem hparse hn hedir

/-- Witness for C10: a root holding only the directory `checkpoint_007`
(not literally `checkpoint_7`).  Resolution returns `-1` yet creates the
directory `checkpoint_7`, empty, as a side effect. -/
theorem C10_witness :
    "checkpoint_007" ∈ FS.listdir
      [(["ckpt"], false), (["ckpt", "checkpoint_007"], false)] ["ckpt"] ∧
    _get_dir_serial "checkpoint_007" = Except.ok 7 ∧
    "checkpoint_007" ≠ cpName 7 ∧
    FS.existsP [(["ckpt"], false), (["ckpt", "checkpoint_007"], false)]
      (["ckpt"] ++ [cpName 7]) = false ∧
    get_latest_checkpoint_serial (some ["ckpt"])
      [(["ckpt"], false), (["ckpt", "checkpoint_007"], false)] =
      Except.ok (-1, [(["ckpt"], false), (["ckpt", "checkpoint_007"], false),
        (["ckpt", "checkpoint_7"], false)]) ∧
    FS.isdir [(["ckpt"], false), (["ckpt", "checkpoint_007"], false),
        (["ckpt", "checkpoint_7"], false)] (["ckpt"] ++ [cpName 7]) = true ∧
    FS.listdir [(["ckpt"], false), (["ckpt", "checkpoint_007"], false),
        (["ckpt", "checkpoint_7"], false)] (["ckpt"] ++ [cpName 7]) = [] :=
  ⟨by decide, by decide, by decide, by decide, by decide,
    C10_resolution_creates_serial_dir
      [(["ckpt"], false), (["ckpt", "checkpoint_007"], false)]
      [(["ckpt"], false), (["ckpt", "checkpoint_007"], false),
        (["ckpt", "checkpoint_7"], false)]
      ["ckpt"] "checkpoint_007" 7 (-1)
      (by decide) (by decide) (by decide) (by decide) (by decide)
      (by decide) (by decide),
    by decide⟩

/-! ### Claim C1 -/

/-- Counterexample for C1 as stated: over a root holding the complete
checkpoint `checkpoint_0` plus a stray directory `notes.txt`, the claim
prescribes the return value `0` (the maximum qualifying serial), but
`get_latest_checkpoint_serial` raises an uncaught `ValueError` from the
two-element unpack in `_get_dir_serial` instead of returning. -/
theorem C1_counterexample :
    latestSpec [(["ckpt"], false), (["ckpt", "checkpoint_0"], false),
      (["ckpt", "checkpoint_0", "__model__"], false),
      (["ckpt", "checkpoint_0", "__model__", "_SUCCESS"], true),
      (["ckpt", "notes.txt"], false)] ["ckpt"] = 0 ∧
    get_latest_checkpoint_serial (some ["ckpt"])
      [(["ckpt"], false), (["ckpt", "checkpoint_0"], false),
        (["ckpt", "checkpoint_0", "__model__"], false),
        (["ckpt", "checkpoint_0", "__model__", "_SUCCESS"], true),
        (["ckpt", "notes.txt"], false)] =
      Except.error (PyErr.valueError "unpack",
        [(["ckpt"], false), (["ckpt", "checkpoint_0"], false),
          (["ckpt", "checkpoint_0", "__model__"], false),
          (["ckpt", "checkpoint_0", "__model__", "_SUCCESS"], true),
          (["ckpt", "notes.txt"], false)]) :=
  ⟨by decide, by decide⟩

/-- C1 (amended): `get_latest_checkpoint_serial` returns `-1` when the
root is null, empty or absent; when the root is present and every listed
entry is either a canonical serial-directory name `checkpoint_<n>` with
`n ≥ 0` or a two-field name whose second field is not an integer, it
returns the maximum serial among entries that parse as a canonical
serial-directory name and carry the success mark at
`<serial_dir>/__model__/_SUCCESS`, and `-1` when no entry qualifies
(entries outside this shape can instead raise, see the
counterexample). -/
theorem C1_resolver_max_qualifying (fs : FS) (root : FsPath) :
    get_latest_checkpoint_serial none fs = Except.ok (-1, fs) ∧
    (root = [] →
      get_latest_checkpoint_serial (some root) fs = Except.ok (-1, fs)) ∧
    (fs.isdir root = false →
      get_latest_checkpoint_serial (some root) fs = Except.ok (-1, fs)) ∧
    (root ≠ [] → fs.isdir root = true →
      (∀ e ∈ fs.listdir root, EntryOk e) →
      get_latest_checkpoint_serial (some root) fs =
        Except.ok (latestSpec fs root, fs) ∧
      (qualSerials fs root = [] → latestSpec fs root = -1) ∧
      (∀ q ∈ qualSerials fs root, q ≤ latestSpec fs root) ∧
      (qualSerials fs root ≠ [] →
        latestSpec fs root ∈ qualSerials fs root)) := by
  refine ⟨rfl, ?_, ?_, ?_⟩
  · rintro rfl; exact resolver_empty_root fs
  · intro hdir
    by_cases hne : root = []
    · subst hne; exact resolver_empty_root fs
    · exact resolver_absent hne hdir
  · intro hne hdir hent
    refine ⟨resolver_spec hne hdir hent, ?_, ?_, ?_⟩
    · intro hq; unfold latestSpec; rw [hq]; rfl
    · intro q hq; exact (le_foldl_max (qualSerials fs root) (-1)).2 q hq
    · intro hqne
      rcases foldl_max_mem (qualSerials fs root) (-1) with h | h
      · exfalso
        obtain ⟨q0, hq0⟩ := List.exists_mem_of_ne_nil _ hqne
        have h1 := (le_foldl_max (qualSerials fs root) (-1)).2 q0 hq0
        have h2 := qualSerials_nonneg q0 hq0
        unfold latestSpec at *
        rw [h] at h1
        omega
      · exact h

/-- Witness for C1: a root with a marked `checkpoint_0`, an unmarked
`checkpoint_1`, a marked `checkpoint_3` and a stray file `readme_txt`;
resolution returns the maximum qualifying serial `3` and leaves the
state unchanged. -/
theorem C1_witness :
    (∀ e ∈ FS.listdir
      [(["ckpt"], false), (["ckpt", "checkpoint_0"], false),
        (["ckpt", "checkpoint_0", "__model__"], false),
        (["ckpt", "checkpoint_0", "__model__", "_SUCCESS"], true),
        (["ckpt", "checkpoint_1"], false),
        (["ckpt", "checkpoint_3"], false),
        (["ckpt", "checkpoint_3", "__model__"], false),
        (["ckpt", "checkpoint_3", "__model__", "_SUCCESS"], true),
        (["ckpt", "readme_txt"], true)] ["ckpt"], EntryOk e) ∧
    get_latest_checkpoint_serial (some ["ckpt"])
      [(["ckpt"], false), (["ckpt", "checkpoint_0"], false),
        (["ckpt", "checkpoint_0", "__model__"], false),
        (["ckpt", "checkpoint_0", "__model__", "_SUCCESS"], true),
        (["ckpt", "checkpoint_1"], false),
        (["ckpt", "checkpoint_3"], false),
        (["ckpt", "checkpoint_3", "__model__"], false),
        (["ckpt", "checkpoint_3", "__model__", "_SUCCESS"], true),
        (["ckpt", "readme_txt"], true)] =
      Except.ok (latestSpec
        [(["ckpt"], false), (["ckpt", "checkpoint_0"], false),
          (["ckpt", "checkpoint_0", "__model__"], false),
          (["ckpt", "checkpoint_0", "__model__", "_SUCCESS"], true),
          (["ckpt", "checkpoint_1"], false),
          (["ckpt", "checkpoint_3"], false),
          (["ckpt", "checkpoint_3", "__model__"], false),
          (["ckpt", "checkpoint_3", "__model__", "_SUCCESS"], true),
          (["ckpt", "readme_txt"], true)] ["ckpt"],
        [(["ckpt"], false), (["ckpt", "checkpoint_0"], false),
          (["ckpt", "checkpoint_0", "__model__"], false),
          (["ckpt", "checkpoint_0", "__model__", "_SUCCESS"], true),
          (["ckpt", "checkpoint_1"], false),
          (["ckpt", "checkpoint_3"], false),
          (["ckpt", "checkpoint_3", "__model__"], false),
          (["ckpt", "checkpoint_3", "__model__", "_SUCCESS"], true),
          (["ckpt", "readme_txt"], true)]) ∧
    latestSpec
      [(["ckpt"], false), (["ckpt", "checkpoint_0"], false),
        (["ckpt", "checkpoint_0", "__model__"], false),
        (["ckpt", "checkpoint_0", "__model__", "_SUCCESS"], true),
        (["ckpt", "checkpoint_1"], false),
        (["ckpt", "checkpoint_3"], false),
        (["ckpt", "checkpoint_3", "__model__"], false),
        (["ckpt", "checkpoint_3", "__model__", "_SUCCESS"], true),
        (["ckpt", "readme_txt"], true)] ["ckpt"] = 3 := by
  have hent : ∀ e ∈ FS.listdir
      [(["ckpt"], false), (["ckpt", "checkpoint_0"], false),
        (["ckpt", "checkpoint_0", "__model__"], false),
        (["ckpt", "checkpoint_0", "__model__", "_SUCCESS"], true),
        (["ckpt", "checkpoint_1"], false),
        (["ckpt", "checkpoint_3"], false),
        (["ckpt", "checkpoint_3", "__model__"], false),
        (["ckpt", "checkpoint_3", "__model__", "_SUCCESS"], true),
        (["ckpt", "readme_txt"], true)] ["ckpt"], EntryOk e := by
    intro e he
    rw [show FS.listdir
      [(["ckpt"], false), (["ckpt", "checkpoint_0"], false),
        (["ckpt", "checkpoint_0", "__model__"], false),
        (["ckpt", "checkpoint_0", "__model__", "_SUCCESS"], true),
        (["ckpt", "checkpoint_1"], false),
        (["ckpt", "checkpoint_3"], false),
        (["ckpt", "checkpoint_3", "__model__"], false),
        (["ckpt", "checkpoint_3", "__model__", "_SUCCESS"], true),
        (["ckpt", "readme_txt"], true)] ["ckpt"] =
      ["checkpoint_0", "checkpoint_1", "checkpoint_3", "readme_txt"]
      from by decide] at he
    simp only [List.mem_cons, List.not_mem_nil, or_false] at he
    rcases he with rfl | rfl | rfl | rfl
    · exact Or.inl ⟨0, by decide, by decide⟩
    · exact Or.inl ⟨1, by decide, by decide⟩
    · exact Or.inl ⟨3, by decide, by decide⟩
    · exact Or.inr (by decide)
  exact ⟨hent,
    ((C1_resolver_max_qualifying _ ["ckpt"]).2.2.2 (by decide) (by decide)
      hent).1, by decide⟩

/-! ### Claim C5 -/

/-- A root entry whose parse yields the sentinel `-1` is excluded from
serial computation. -/
theorem qualSerial_of_parse_neg_one {fs : FS} {root : FsPath} {e : String}
    (h : _get_dir_serial e = Except.ok (-1)) :
    qualSerial fs root e = none := by
  unfold qualSerial
  rw [h]
  replace h : (if 0 ≤ (-1 : Int) ∧ e = cpName (-1) ∧
      fs.isdir (root ++ [e]) = true ∧
      fs.isfile (root ++ [e, MODEL_DIR, SUCCESS_MARK_FILENAME]) = true
    then some (-1 : Int) else none) = none := by
    rw [if_neg]
    rintro ⟨h1, -⟩
    omega
  exact h

/-- Counterexample for C5 as stated: `_get_dir_serial` does raise.  On
the name `notes.txt` (no separator, so the two-element unpack fails
outside the `try` block) it raises `ValueError`, and resolution over a
root containing a stray file `notes.txt` crashes with that error rather
than skipping the entry. -/
theorem C5_counterexample :
    _get_dir_serial "notes.txt" = Except.error (PyErr.valueError "unpack") ∧
    get_latest_checkpoint_serial (some ["ckpt"])
      [(["ckpt"], false), (["ckpt", "notes.txt"], true)] =
      Except.error (PyErr.valueError "unpack",
        [(["ckpt"], false), (["ckpt", "notes.txt"], true)]) :=
  ⟨by decide, by decide⟩

/-- C5 (amended): `_get_dir_serial` returns the parsed serial for
canonical names, returns the sentinel `-1` for names with exactly one
separator whose second field is not an integer, but raises an uncaught
`ValueError` for names that do not split into exactly two fields; under
a root whose entries all have one of the first two shapes, resolution
does not crash, and sentinel entries are excluded from serial
computation. -/
theorem C5_parse_and_skip (s : String) (fs : FS) (root : FsPath) :
    (∀ n : Int, 0 ≤ n → _get_dir_serial (cpName n) = Except.ok n) ∧
    (∀ a b, splitCh s.data '_' = [a, b] → pyIntOfChars b = none →
      _get_dir_serial s = Except.ok (-1)) ∧
    (∀ a b, splitCh s.data '_' = [a, b] → ∀ n, pyIntOfChars b = some n →
      _get_dir_serial s = Except.ok n) ∧
    ((splitCh s.data '_').length ≠ 2 →
      _get_dir_serial s = Except.error (PyErr.valueError "unpack")) ∧
    (root ≠ [] → fs.isdir root = true →
      (∀ e ∈ fs.listdir root, EntryOk e) →
      get_latest_checkpoint_serial (some root) fs =
        Except.ok (latestSpec fs root, fs) ∧
      (∀ e ∈ fs.listdir root, _get_dir_serial e = Except.ok (-1) →
        qualSerial fs root e = none)) := by
  refine ⟨get_dir_serial_cpName, ?_, ?_, ?_, ?_⟩
  · intro a b hsp hpi
    unfold _get_dir_serial
    rw [hsp]
    show (match pyIntOfChars b with
      | some serial_num => Except.ok serial_num
      | none => Except.ok (-1)) = _
    rw [hpi]
  · intro a b hsp n hpi
    unfold _get_dir_serial
    rw [hsp]
    show (match pyIntOfChars b with
      | some serial_num => Except.ok serial_num
      | none => Except.ok (-1)) = _
    rw [hpi]
  · intro hlen
    unfold _get_dir_serial
    rcases hsp : splitCh s.data '_' with _ | ⟨a, _ | ⟨b, _ | ⟨c, t⟩⟩⟩
    · rfl
    · rfl
    · exact absurd (by rw [hsp]; rfl) hlen
    · rfl
  · intro hne hdir hent
    exact ⟨resolver_spec hne hdir hent,
      fun e _ hpe => qualSerial_of_parse_neg_one hpe⟩

/-- Witness for C5: the name `archive_old` splits into two fields with a
non-integer second field and parses to the sentinel `-1`; a root holding
a marked `checkpoint_0` and a stray file `archive_old` resolves to `0`
without crashing, with the stray entry excluded. -/
theorem C5_witness :
    splitCh "archive_old".data '_' = ["archive".data, "old".data] ∧
    pyIntOfChars "old".data = none ∧
    _get_dir_serial "archive_old" = Except.ok (-1) ∧
    (splitCh "notes.txt".data '_').length ≠ 2 ∧
    _get_dir_serial "notes.txt" = Except.error (PyErr.valueError "unpack") ∧
    get_latest_checkpoint_serial (some ["ckpt"])
      [(["ckpt"], false), (["ckpt", "checkpoint_0"], false),
        (["ckpt", "checkpoint_0", "__model__"], false),
        (["ckpt", "checkpoint_0", "__model__", "_SUCCESS"], true),
        (["ckpt", "archive_old"], true)] =
      Except.ok (latestSpec
        [(["ckpt"], false), (["ckpt", "checkpoint_0"], false),
          (["ckpt", "checkpoint_0", "__model__"], false),
          (["ckpt", "checkpoint_0", "__model__", "_SUCCESS"], true),
          (["ckpt", "archive_old"], true)] ["ckpt"],
        [(["ckpt"], false), (["ckpt", "checkpoint_0"], false),
          (["ckpt", "checkpoint_0", "__model__"], false),
          (["ckpt", "checkpoint_0", "__model__", "_SUCCESS"], true),
          (["ckpt", "archive_old"], true)]) ∧
    latestSpec
      [(["ckpt"], false), (["ckpt", "checkpoint_0"], false),
        (["ckpt", "checkpoint_0", "__model__"], false),
        (["ckpt", "checkpoint_0", "__model__", "_SUCCESS"], true),
        (["ckpt", "archive_old"], true)] ["ckpt"] = 0 ∧
    qualSerial
      [(["ckpt"], false), (["ckpt", "checkpoint_0"], false),
        (["ckpt", "checkpoint_0", "__model__"], false),
        (["ckpt", "checkpoint_0", "__model__", "_SUCCESS"], true),
        (["ckpt", "archive_old"], true)] ["ckpt"] "archive_old" = none := by
  have hent : ∀ e ∈ FS.listdir
      [(["ckpt"], false), (["ckpt", "checkpoint_0"], false),
        (["ckpt", "checkpoint_0", "__model__"], false),
        (["ckpt", "checkpoint_0", "__model__", "_SUCCESS"], true),
        (["ckpt", "archive_old"], true)] ["ckpt"], EntryOk e := by
    intro e he
    rw [show FS.listdir
      [(["ckpt"], false), (["ckpt", "checkpoint_0"], false),
        (["ckpt", "checkpoint_0", "__model__"], false),
        (["ckpt", "checkpoint_0", "__model__", "_SUCCESS"], true),
        (["ckpt", "archive_old"], true)] ["ckpt"] =
      ["checkpoint_0", "archive_old"] from by decide] at he
    simp only [List.mem_cons, List.not_mem_nil, or_false] at he
    rcases he with rfl | rfl
    · exact Or.inl ⟨0, by decide, by decide⟩
    · exact Or.inr (by decide)
  have hmain := (C5_parse_and_skip "archive_old"
    [(["ckpt"], false), (["ckpt", "checkpoint_0"], false),
      (["ckpt", "checkpoint_0", "__model__"], false),
      (["ckpt", "checkpoint_0", "__model__", "_SUCCESS"], true),
      (["ckpt", "archive_old"], true)] ["ckpt"])
  refine ⟨by decide, by decide,
    hmain.2.1 "archive".data "old".data (by decide) (by decide),
    by decide,
    (C5_parse_and_skip "notes.txt" [] []).2.2.2.1 (by decide),
    (hmain.2.2.2.2 (by decide) (by decide) hent).1,
    by decide,
    (hmain.2.2.2.2 (by decide) (by decide) hent).2 "archive_old"
      (by decide) (by decide)⟩

/-! ### Claim C6 -/

/-- C6: `_is_checkpoint_var` returns false for feed, fetch and raw
variables, false for names containing `@GRAD`, `.trainer_` or `.block`,
and otherwise exactly the persistable flag; it is a pure function (so
applying it twice gives the same result), rejects a persistable
`w@GRAD`, and accepts a plain persistable `w`. -/
theorem C6_is_checkpoint_var_characterization (var : PyVariable) :
    ((var.type = VarType.FEED_MINIBATCH ∨ var.type = VarType.FETCH_LIST ∨
        var.type = VarType.RAW) → _is_checkpoint_var var = false) ∧
    ((containsSub var.name.data "@GRAD".data = true ∨
      containsSub var.name.data ".trainer_".data = true ∨
      containsSub var.name.data ".block".data = true) →
      _is_checkpoint_var var = false) ∧
    (¬(var.type = VarType.FEED_MINIBATCH ∨ var.type = VarType.FETCH_LIST ∨
        var.type = VarType.RAW) →
      containsSub var.name.data "@GRAD".data = false →
      containsSub var.name.data ".trainer_".data = false →
      containsSub var.name.data ".block".data = false →
      _is_checkpoint_var var = var.persistable) ∧
    _is_checkpoint_var var = _is_checkpoint_var var ∧
    _is_checkpoint_var ⟨"w@GRAD", VarType.LOD_TENSOR, true⟩ = false ∧
    _is_checkpoint_var ⟨"w", VarType.LOD_TENSOR, true⟩ = true := by
  refine ⟨?_, ?_, ?_, rfl, by decide, by decide⟩
  · intro ht
    unfold _is_checkpoint_var
    rw [if_pos ht]
  · intro hname
    unfold _is_checkpoint_var
    by_cases htype : var.type = VarType.FEED_MINIBATCH ∨
        var.type = VarType.FETCH_LIST ∨ var.type = VarType.RAW
    · rw [if_pos htype]
    · rw [if_neg htype]
      by_cases h1 : containsSub var.name.data "@GRAD".data = true
      · rw [if_pos h1]
      · rw [if_neg h1]
        by_cases h2 : containsSub var.name.data ".trainer_".data = true
        · rw [if_pos h2]
        · rw [if_neg h2]
          rcases hname with h | h | h
          · exact absurd h h1
          · exact absurd h h2
          · rw [if_pos h]
  · intro htype h1 h2 h3
    unfold _is_checkpoint_var
    rw [if_neg htype, if_neg (by rw [h1]; exact Bool.false_ne_true),
      if_neg (by rw [h2]; exact Bool.false_ne_true),
      if_neg (by rw [h3]; exact Bool.false_ne_true)]

/-- Witness for C6 at the two concrete variables of the claim. -/
theorem C6_witness :
    _is_checkpoint_var ⟨"w@GRAD", VarType.LOD_TENSOR, true⟩ = false ∧
    _is_checkpoint_var ⟨"w", VarType.LOD_TENSOR, true⟩ = true :=
  ⟨(C6_is_checkpoint_var_characterization
      ⟨"w@GRAD", VarType.LOD_TENSOR, true⟩).2.1 (Or.inl (by decide)),
    (C6_is_checkpoint_var_characterization
      ⟨"w", VarType.LOD_TENSOR, true⟩).2.2.1
      (by decide) (by decide) (by decide) (by decide)⟩

/-! ### Claim C8 -/

/-- C8: evaluation at the failing input.  With `delete_dir = true` and a
root still holding a stray file `junk_txt` after the retention pass, the
source guards `os.rmdir` behind `not os.listdir(...)`, so it returns
silently with the root (and the stray entry) left in place — although
its own docstring says `OSError is raised` in that case.  When the root
is empty it does remove the root. -/
theorem C8_clean_silent_on_nonempty_root :
    clean_checkpoint (some ["ckpt"]) true
      [(["ckpt"], false), (["ckpt", "junk_txt"], true)] =
      Except.ok ((), [(["ckpt"], false), (["ckpt", "junk_txt"], true)]) ∧
    FS.existsP [(["ckpt"], false), (["ckpt", "junk_txt"], true)]
      ["ckpt"] = true ∧
    clean_checkpoint (some ["ckpt"]) true [(["ckpt"], false)] =
      Except.ok ((), []) :=
  ⟨by decide, by decide, by decide⟩

theorem FS.isdir_iff_mem {fs : FS} {p : FsPath} :
    fs.isdir p = true ↔ (p, false) ∈ fs := by
  unfold FS.isdir
  rw [List.any_eq_true]
  constructor
  · rintro ⟨e, he, hpred⟩
    have h1 : e.1 = p := by simpa using (Bool.and_eq_true _ _ |>.mp hpred).1
    have h2 : e.2 = false := by simpa using (Bool.and_eq_true _ _ |>.mp hpred).2
    have : e = (p, false) := Prod.ext h1 h2
    rwa [this] at he
  · intro h
    exact ⟨(p, false), h, by simp⟩

theorem FS.isfile_iff_mem {fs : FS} {p : FsPath} :
    fs.isfile p = true ↔ (p, true) ∈ fs := by
  unfold FS.isfile
  rw [List.any_eq_true]
  constructor
  · rintro ⟨e, he, hpred⟩
    have h1 : e.1 = p := by simpa using (Bool.and_eq_true _ _ |>.mp hpred).1
    have h2 : e.2 = true := by simpa using (Bool.and_eq_true _ _ |>.mp hpred).2
    have : e = (p, true) := Prod.ext h1 h2
    rwa [this] at he
  · intro h
    exact ⟨(p, true), h, by simp⟩

theorem FS.existsP_iff {fs : FS} {p : FsPath} :
    fs.existsP p = true ↔ ∃ b, (p, b) ∈ fs := by
  unfold FS.existsP
  rw [List.any_eq_true]
  constructor
  · rintro ⟨e, he, hpred⟩
    have h1 : e.1 = p := by simpa using hpred
    exact ⟨e.2, by rwa [← h1, Prod.mk.eta]⟩
  · rintro ⟨b, hb⟩
    exact ⟨(p, b), hb, by simp⟩

theorem FS.existsP_of_isdir {fs : FS} {p : FsPath}
    (h : fs.isdir p = true) : fs.existsP p = true :=
  FS.existsP_iff.mpr ⟨false, FS.isdir_iff_mem.mp h⟩

theorem FS.existsP_of_isfile {fs : FS} {p : FsPath}
    (h : fs.isfile p = true) : fs.existsP p = true :=
  FS.existsP_iff.mpr ⟨true, FS.isfile_iff_mem.mp h⟩

theorem FS.not_isfile_of_not_existsP {fs : FS} {p : FsPath}
    (h : fs.existsP p = false) : fs.isfile p = false := by
  by_contra hc
  rw [Bool.not_eq_false] at hc
  rw [FS.existsP_of_isfile hc] at h
  exact absurd h (by simp)

theorem FS.not_isdir_of_not_existsP {fs : FS} {p : FsPath}
    (h : fs.existsP p = false) : fs.isdir p = false := by
  by_contra hc
  rw [Bool.not_eq_false] at hc
  rw [FS.existsP_of_isdir hc] at h
  exact absurd h (by simp)

theorem FS.Wf.not_isfile_of_isdir {fs : FS} (hW : fs.Wf) {p : FsPath}
    (h : fs.isdir p = true) : fs.isfile p = false := by
  by_contra hc
  rw [Bool.not_eq_false] at hc
  have h1 := FS.isdir_iff_mem.mp h
  have h2 := FS.isfile_iff_mem.mp hc
  have hinj := List.inj_on_of_nodup_map hW.2
  have := hinj h1 h2 rfl
  exact absurd (congrArg Prod.snd this) (by simp)

theorem FS.Wf.not_isdir_of_isfile {fs : FS} (hW : fs.Wf) {p : FsPath}
    (h : fs.isfile p = true) : fs.isdir p = false := by
  by_contra hc
  rw [Bool.not_eq_false] at hc
  rw [hW.not_isfile_of_isdir hc] at h
  exact absurd h (by simp)

theorem childName_self (p : FsPath) (x : String) :
    childName p (p ++ [x]) = some x := by
  unfold childName
  rw [List.drop_left]
  show (if List.isPrefixOf p (p ++ [x]) = true then some x else none) = some x
  rw [if_pos (List.isPrefixOf_iff_prefix.mpr ⟨[x], rfl⟩)]

theorem childName_eq_some {p q : FsPath} {x : String}
    (h : childName p q = some x) : q = p ++ [x] := by
  unfold childName at h
  rcases hd : q.drop p.length with _ | ⟨n, _ | t⟩
  · rw [hd] at h; exact absurd h (by simp)
  · rw [hd] at h
    split_ifs at h with hpre
    have hx : n = x := (Option.some.injEq _ _).mp h
    subst hx
    obtain ⟨t2, ht2⟩ := List.isPrefixOf_iff_prefix.mp hpre
    have : t2 = q.drop p.length := by
      rw [← ht2, List.drop_left]
    rw [this, hd] at ht2
    exact ht2.symm
  · rw [hd] at h; exact absurd h (by simp)

theorem mem_listdir_iff {fs : FS} {p : FsPath} {x : String} :
    x ∈ fs.listdir p ↔ ∃ b, (p ++ [x], b) ∈ fs := by
  unfold FS.listdir
  rw [List.mem_filterMap]
  constructor
  · rintro ⟨e, he, hc⟩
    have := childName_eq_some hc
    exact ⟨e.2, by rwa [← this, Prod.mk.eta]⟩
  · rintro ⟨b, hb⟩
    exact ⟨(p ++ [x], b), hb, childName_self p x⟩

theorem mem_pathPrefixes_iff {p q : FsPath} :
    q ∈ pathPrefixes p ↔ ∃ i : Nat, i < p.length ∧ q = p.take (i + 1) := by
  unfold pathPrefixes
  rw [List.mem_map]
  constructor
  · rintro ⟨i, hi, rfl⟩
    exact ⟨i, List.mem_range.mp hi, rfl⟩
  · rintro ⟨i, hi, rfl⟩
    exact ⟨i, List.mem_range.mpr hi, rfl⟩

theorem pathPrefixes_append_singleton (d : FsPath) (x : String) :
    pathPrefixes (d ++ [x]) = (pathPrefixes d).map id ++ [d ++ [x]] := by
  unfold pathPrefixes
  rw [List.length_append, List.length_singleton, List.range_succ,
    List.map_append, List.map_map]
  congr 1
  · refine List.map_congr_left ?_
    intro i hi
    have hi2 := List.mem_range.mp hi
    simp only [Function.comp, id_eq]
    exact List.take_append_of_le_length (by omega)
  · simp only [List.map_cons, List.map_nil]
    congr 1
    rw [show d.length + 1 = (d ++ [x]).length by simp, List.take_length]

/-- Under a well-formed state, every prefix of an existing directory is a
directory. -/
theorem FS.Wf.prefix_isdir {fs : FS} (hW : fs.Wf) {d : FsPath}
    (hd : fs.isdir d = true) :
    ∀ i : Nat, i < d.length → fs.isdir (d.take (i + 1)) = true := by
  intro i hi
  rcases Nat.lt_or_ge (i + 1) d.length with h | h
  · exact FS.isdir_iff_mem.mpr (hW.1 (d, false) (FS.isdir_iff_mem.mp hd) i h)
  · have : i + 1 = d.length := by omega
    rw [this, List.take_length]
    exact hd

/-- Under a well-formed state, nothing exists strictly below an absent
path. -/
theorem FS.Wf.not_existsP_strict_child {fs : FS} (hW : fs.Wf) {p q : FsPath}
    (hne : p ≠ []) (habs : fs.existsP p = false)
    (hpre : p.isPrefixOf q = true) (hlen : p.length < q.length) :
    fs.existsP q = false := by
  by_contra hc
  rw [Bool.not_eq_false] at hc
  obtain ⟨b, hb⟩ := FS.existsP_iff.mp hc
  have hplen : 0 < p.length := List.length_pos.mpr hne
  have hmem := hW.1 (q, b) hb (p.length - 1) (by simpa using by omega)
  have htake : q.take (p.length - 1 + 1) = p := by
    rw [Nat.sub_add_cancel (by omega)]
    obtain ⟨t, ht⟩ := List.isPrefixOf_iff_prefix.mp hpre
    rw [← ht, List.take_left]
  rw [htake] at hmem
  have : fs.existsP p = true := FS.existsP_iff.mpr ⟨false, hmem⟩
  rw [this] at habs
  exact absurd habs (by simp)

/-! ### Creating a fresh child under an existing directory -/

theorem makedirs_child_ok {fs : FS} (hW : fs.Wf) {d : FsPath} {x : String}
    (hd : fs.isdir d = true) (hfresh : fs.existsP (d ++ [x]) = false) :
    fs.makedirs (d ++ [x]) = Except.ok (fs ++ [(d ++ [x], false)]) := by
  unfold FS.makedirs
  rw [if_neg (by rw [hfresh]; exact Bool.false_ne_true)]
  have hprefix_dir : ∀ q ∈ pathPrefixes d, fs.isdir q = true := by
    intro q hq
    obtain ⟨i, hi, rfl⟩ := mem_pathPrefixes_iff.mp hq
    exact hW.prefix_isdir hd i hi
  have hnofile : (pathPrefixes (d ++ [x])).any fs.isfile = false := by
    rw [Bool.eq_false_iff]
    intro hc
    obtain ⟨q, hq, hf⟩ := List.any_eq_true.mp hc
    rw [pathPrefixes_append_singleton, List.map_id] at hq
    rcases List.mem_append.mp hq with hq | hq
    · rw [hW.not_isfile_of_isdir (hprefix_dir q hq)] at hf
      exact absurd hf (by simp)
    · have : q = d ++ [x] := by simpa using hq
      subst this
      rw [FS.not_isfile_of_not_existsP hfresh] at hf
      exact absurd hf (by simp)
  rw [if_neg (by rw [hnofile]; exact Bool.false_ne_true)]
  congr 1
  rw [pathPrefixes_append_singleton, List.map_id, List.filterMap_append]
  have h1 : (pathPrefixes d).filterMap
      (fun q => if fs.existsP q = true then none else some (q, false)) = [] := by
    rw [List.filterMap_eq_nil]
    intro q hq
    rw [if_pos (FS.existsP_of_isdir (hprefix_dir q hq))]
  rw [h1]
  simp [hfresh]

theorem wf_append_child {fs : FS} (hW : fs.Wf) {d : FsPath} {x : String}
    {b : Bool} (hd : fs.isdir d = true)
    (hfresh : fs.existsP (d ++ [x]) = false) :
    (fs ++ [(d ++ [x], b)]).Wf := by
  constructor
  · intro e he k hk
    rcases List.mem_append.mp he with he | he
    · exact List.mem_append_left _ (hW.1 e he k hk)
    · have : e = (d ++ [x], b) := by simpa using he
      subst this
      simp only [List.length_append, List.length_singleton] at hk
      have hkd : k + 1 ≤ d.length := by omega
      have htake : (d ++ [x]).take (k + 1) = d.take (k + 1) :=
        List.take_append_of_le_length hkd
      rw [htake]
      rcases Nat.lt_or_ge (k + 1) d.length with h | h
      · exact List.mem_append_left _
          (hW.1 (d, false) (FS.isdir_iff_mem.mp hd) k h)
      · have : k + 1 = d.length := by omega
        rw [this, List.take_length]
        exact List.mem_append_left _ (FS.isdir_iff_mem.mp hd)
  · rw [List.map_append]
    refine List.Nodup.append hW.2 (by simp) ?_
    intro q hq hq2
    have : q = d ++ [x] := by simpa using hq2
    subst this
    obtain ⟨⟨p2, b2⟩, hmem, hp2⟩ := List.mem_map.mp hq
    have : fs.existsP (d ++ [x]) = true := by
      refine FS.existsP_iff.mpr ⟨b2, ?_⟩
      rwa [show p2 = d ++ [x] from hp2] at hmem
    rw [this] at hfresh
    exact absurd hfresh (by simp)

theorem createFile_child_ok {fs : FS} (hW : fs.Wf) {d : FsPath} {x : String}
    (hd : fs.isdir d = true) (hfresh : fs.existsP (d ++ [x]) = false) :
    fs.createFile (d ++ [x]) = Except.ok (fs ++ [(d ++ [x], true)]) := by
  unfold FS.createFile
  have h1 : fs.isdir (d ++ [x]) = false := FS.not_isdir_of_not_existsP hfresh
  have h2 : (d ++ [x]).dropLast = d := by simp
  have h3 : fs.isfile (d ++ [x]) = false := FS.not_isfile_of_not_existsP hfresh
  rw [if_neg (by rw [h1]; exact Bool.false_ne_true)]
  rw [if_neg (by rw [h2, hd]; simp)]
  rw [if_neg (by rw [h3]; exact Bool.false_ne_true)]

theorem createFile_existing {fs : FS} (hW : fs.Wf) {p : FsPath}
    (hf : fs.isfile p = true) :
    fs.createFile p = Except.ok fs := by
  unfold FS.createFile
  rw [if_neg (by rw [hW.not_isdir_of_isfile hf]; exact Bool.false_ne_true)]
  have hparent : (p.dropLast.isEmpty || fs.isdir p.dropLast) = true := by
    rcases Nat.lt_or_ge p.length 2 with hlen | hlen
    · have : p.dropLast.isEmpty = true := by
        rw [List.isEmpty_iff, List.dropLast_eq_take]
        rcases p with _ | ⟨a, _ | t⟩
        · rfl
        · rfl
        · exfalso
          simp only [List.length_cons] at hlen
          omega
      rw [this, Bool.true_or]
    · have hmem := hW.1 (p, true) (FS.isfile_iff_mem.mp hf)
        (p.length - 2) (by show p.length - 2 + 1 < p.length; omega)
      have : p.take (p.length - 2 + 1) = p.dropLast := by
        rw [List.dropLast_eq_take]
        congr 1
        omega
      rw [this] at hmem
      rw [FS.isdir_iff_mem.mpr hmem, Bool.or_true]
  rw [if_neg (by rw [hparent]; simp)]
  rw [if_pos hf]

/-! ### Freshness of the next serial directory -/

theorem next_serial_fresh {fs : FS} {root : FsPath} {r : Int}
    (hr : -1 ≤ r)
    (hent : ∀ e ∈ fs.listdir root, ∃ n, 0 ≤ n ∧ e = cpName n ∧ n ≤ r) :
    fs.existsP (root ++ [cpName (r + 1)]) = false := by
  by_contra hc
  rw [Bool.not_eq_false] at hc
  obtain ⟨b, hb⟩ := FS.existsP_iff.mp hc
  have hmem : cpName (r + 1) ∈ fs.listdir root := mem_listdir_iff.mpr ⟨b, hb⟩
  obtain ⟨n, hn0, heq, hle⟩ := hent _ hmem
  have := cpName_injective (by omega) hn0 heq
  omega

theorem FS.existsP_singleton (q p : FsPath) (b : Bool) :
    FS.existsP [(q, b)] p = (q == p) := by
  simp [FS.existsP]

theorem listdir_nodup {fs : FS} (hW : fs.Wf) (p : FsPath) :
    (fs.listdir p).Nodup := by
  have : fs.listdir p = (fs.map Prod.fst).filterMap (childName p) := by
    unfold FS.listdir
    rw [List.filterMap_map]
    rfl
  rw [this]
  refine List.Nodup.filterMap ?_ hW.2
  intro q1 q2 x hx1 hx2
  rw [childName_eq_some (Option.mem_def.mp hx1),
    childName_eq_some (Option.mem_def.mp hx2)]

/-! ### Evaluation of the directory helpers on fresh children -/

theorem os_makedirs_child {fs : FS} (hW : fs.Wf) {d : FsPath} {x : String}
    (hd : fs.isdir d = true) (hfresh : fs.existsP (d ++ [x]) = false) :
    os_makedirs (d ++ [x]) fs = Except.ok ((), fs ++ [(d ++ [x], false)]) := by
  unfold os_makedirs FsM.liftFs
  simp only [makedirs_child_ok hW hd hfresh]

theorem fileWrite_child {fs : FS} (hW : fs.Wf) {d : FsPath} {x : String}
    (hd : fs.isdir d = true) (hfresh : fs.existsP (d ++ [x]) = false) :
    fileWrite (d ++ [x]) fs = Except.ok ((), fs ++ [(d ++ [x], true)]) := by
  unfold fileWrite FsM.liftFs
  simp only [createFile_child_ok hW hd hfresh]

theorem get_trainer_dir_creates {fs : FS} (hW : fs.Wf) {d : FsPath} {t : Int}
    (hd : fs.isdir d = true)
    (hfresh : fs.existsP (d ++ [trName t]) = false) :
    _get_trainer_dir d t fs =
      Except.ok (d ++ [trName t], fs ++ [(d ++ [trName t], false)]) := by
  unfold _get_trainer_dir
  rw [FsM.bind_ok (rfl : os_isdir (d ++ [trName t]) fs =
    Except.ok (fs.isdir (d ++ [trName t]), fs))]
  rw [FS.not_isdir_of_not_existsP hfresh]
  rw [FsM.bind_ok (show (if (false : Bool) = true then FsM.pure ()
      else os_makedirs (d ++ [trName t])) fs =
      Except.ok ((), fs ++ [(d ++ [trName t], false)]) by
    rw [if_neg (by simp)]
    exact os_makedirs_child hW hd hfresh)]
  rfl

theorem get_model_dir_creates {fs : FS} (hW : fs.Wf) {d : FsPath}
    (hd : fs.isdir d = true)
    (hfresh : fs.existsP (d ++ [ MODEL_DIR]) = false) :
    _get_model_dir d fs =
      Except.ok (d ++ [ MODEL_DIR], fs ++ [(d ++ [ MODEL_DIR], false)]) := by
  unfold _get_model_dir
  rw [FsM.bind_ok (rfl : os_isdir (d ++ [ MODEL_DIR]) fs =
    Except.ok (fs.isdir (d ++ [ MODEL_DIR]), fs))]
  rw [FS.not_isdir_of_not_existsP hfresh]
  rw [FsM.bind_ok (show (if (false : Bool) = true then FsM.pure ()
      else os_makedirs (d ++ [ MODEL_DIR])) fs =
      Except.ok ((), fs ++ [(d ++ [ MODEL_DIR], false)]) by
    rw [if_neg (by simp)]
    exact os_makedirs_child hW hd hfresh)]
  rfl

theorem get_model_dir_exists {fs : FS} {d : FsPath}
    (hd : fs.isdir (d ++ [ MODEL_DIR]) = true) :
    _get_model_dir d fs = Except.ok (d ++ [ MODEL_DIR], fs) := by
  unfold _get_model_dir
  rw [FsM.bind_ok (rfl : os_isdir (d ++ [ MODEL_DIR]) fs =
    Except.ok (fs.isdir (d ++ [ MODEL_DIR]), fs))]
  rw [hd]
  simp [FsM.bind, FsM.pure]

theorem fileWrite_existing {fs : FS} (hW : fs.Wf) {p : FsPath}
    (hf : fs.isfile p = true) : fileWrite p fs = Except.ok ((), fs) := by
  unfold fileWrite FsM.liftFs
  simp only [createFile_existing hW hf]

/-! ### Writing batches of fresh files under an existing directory -/

theorem executorRunSave_spec (d : FsPath) :
    ∀ (names : List String) (fs : FS), fs.Wf → fs.isdir d = true →
    (∀ x ∈ names, fs.existsP (d ++ [x]) = false) → names.Nodup →
    executorRunSave (names.map (fun x => d ++ [x])) fs =
      Except.ok ((), fs ++ names.map (fun x => (d ++ [x], true))) ∧
    (fs ++ names.map (fun x => (d ++ [x], true))).Wf := by
  intro names
  induction names with
  | nil =>
    intro fs hW _ _ _
    constructor
    · simp [executorRunSave, FsM.pure]
    · simpa using hW
  | cons x rest ih =>
    intro fs hW hd hfresh hnodup
    have hx : fs.existsP (d ++ [x]) = false :=
      hfresh x (List.mem_cons_self x rest)
    have hW1 : (fs ++ [(d ++ [x], true)]).Wf := wf_append_child hW hd hx
    have hd1 : (fs ++ [(d ++ [x], true)]).isdir d = true := by
      rw [FS.isdir_append, hd, Bool.true_or]
    have hfresh1 : ∀ y ∈ rest,
        (fs ++ [(d ++ [x], true)]).existsP (d ++ [y]) = false := by
      intro y hy
      rw [FS.existsP_append, hfresh y (List.mem_cons_of_mem x hy),
        Bool.false_or, FS.existsP_singleton]
      have hne : x ≠ y := by
        rintro rfl
        exact (List.nodup_cons.mp hnodup).1 hy
      simp [hne]
    obtain ⟨hrun, hWf⟩ := ih (fs ++ [(d ++ [x], true)]) hW1 hd1 hfresh1
      (List.nodup_cons.mp hnodup).2
    constructor
    · simp only [List.map_cons, executorRunSave]
      rw [FsM.bind_ok (fileWrite_child hW hd hx)]
      rw [hrun]
      rw [List.append_assoc]
      rfl
    · rw [List.map_cons, ← List.singleton_append, ← List.append_assoc]
      exact hWf

theorem writeArgFiles_spec (d : FsPath) :
    ∀ (args : List (String × String)) (fs : FS), fs.Wf →
    fs.isdir d = true →
    (∀ a ∈ args, fs.existsP (d ++ [a.1]) = false) →
    (args.map Prod.fst).Nodup →
    writeArgFiles d args fs =
      Except.ok ((), fs ++ args.map (fun a => (d ++ [a.1], true))) ∧
    (fs ++ args.map (fun a => (d ++ [a.1], true))).Wf := by
  intro args
  induction args with
  | nil =>
    intro fs hW _ _ _
    constructor
    · simp [writeArgFiles, FsM.pure]
    · simpa using hW
  | cons a rest ih =>
    intro fs hW hd hfresh hnodup
    have hx : fs.existsP (d ++ [a.1]) = false :=
      hfresh a (List.mem_cons_self a rest)
    have hW1 : (fs ++ [(d ++ [a.1], true)]).Wf := wf_append_child hW hd hx
    have hd1 : (fs ++ [(d ++ [a.1], true)]).isdir d = true := by
      rw [FS.isdir_append, hd, Bool.true_or]
    have hfresh1 : ∀ b ∈ rest,
        (fs ++ [(d ++ [a.1], true)]).existsP (d ++ [b.1]) = false := by
      intro b hb
      rw [FS.existsP_append, hfresh b (List.mem_cons_of_mem a hb),
        Bool.false_or, FS.existsP_singleton]
      have hne : a.1 ≠ b.1 := by
        intro he
        rw [List.map_cons, List.nodup_cons] at hnodup
        exact hnodup.1 (he ▸ List.mem_map_of_mem Prod.fst hb)
      simp [hne]
    have hnodup1 : (rest.map Prod.fst).Nodup := by
      rw [List.map_cons, List.nodup_cons] at hnodup
      exact hnodup.2
    obtain ⟨hrun, hWf⟩ := ih (fs ++ [(d ++ [a.1], true)]) hW1 hd1 hfresh1
      hnodup1
    constructor
    · show FsM.bind (fileWrite (d ++ [a.1])) (fun _ => writeArgFiles d rest)
        fs = _
      rw [FsM.bind_ok (fileWrite_child hW hd hx)]
      rw [hrun]
      rw [List.map_cons, List.append_assoc]
      rfl
    · rw [List.map_cons, ← List.singleton_append, ← List.append_assoc]
      exact hWf

/-- The save operations built by `save_vars` over the filtered variable
set target exactly the eligible variable names (`_is_checkpoint_var`
already rejects RAW variables, so the extra RAW skip never fires). -/
theorem eligNamesLemma (dir : FsPath) (prog : PyProgram) :
    saveOpPaths dir (prog.filter _is_checkpoint_var) =
      ((prog.filter _is_checkpoint_var).map PyVariable.name).map
        (fun x => dir ++ [x]) := by
  unfold saveOpPaths
  induction prog with
  | nil => rfl
  | cons v t ih =>
    by_cases hv : _is_checkpoint_var v = true
    · rw [List.filter_cons_of_pos hv]
      have hraw : ¬v.type = VarType.RAW := by
        intro hr
        unfold _is_checkpoint_var at hv
        rw [if_pos (Or.inr (Or.inr hr))] at hv
        exact absurd hv (by simp)
      rw [List.filterMap_cons, List.map_cons, List.map_cons]
      simp only [if_neg hraw]
      rw [ih]
    · rw [List.filter_cons_of_neg (by simpa using hv)]
      exact ih

theorem existsP_under_map (d : FsPath) (x : String)
    (args : List (String × String)) :
    FS.existsP (args.map (fun a => (d ++ [a.1], true))) (d ++ [x]) =
      args.any (fun a => a.1 == x) := by
  unfold FS.existsP
  induction args with
  | nil => rfl
  | cons a rest ih =>
    simp only [List.map_cons, List.any_cons, ih]
    congr 1
    by_cases he : a.1 = x
    · subst he; simp
    · have h1 : ¬(d ++ [a.1] = d ++ [x]) := by
        intro hc
        exact he (by simpa using hc)
      simp [he, h1]

theorem existsP_under_map_names (d : FsPath) (x : String)
    (names : List String) :
    FS.existsP (names.map (fun y => (d ++ [y], true))) (d ++ [x]) =
      names.any (fun y => y == x) := by
  unfold FS.existsP
  induction names with
  | nil => rfl
  | cons a rest ih =>
    simp only [List.map_cons, List.any_cons, ih]
    congr 1
    by_cases he : a = x
    · subst he; simp
    · have h1 : ¬(d ++ [a] = d ++ [x]) := by
        intro hc
        exact he (by simpa using hc)
      simp [he, h1]

theorem save_trainer_args_spec {fs : FS} (hW : fs.Wf) {sdir : FsPath}
    {tid : Int} {args : List (String × String)}
    (hd : fs.isdir sdir = true)
    (hfreshT : fs.existsP (sdir ++ [trName tid]) = false)
    (hnodup : (args.map Prod.fst).Nodup)
    (hnS : ∀ a ∈ args, a.1 ≠ SUCCESS_MARK_FILENAME) :
    save_trainer_args sdir tid (some args) fs =
      Except.ok ((), fs ++ trainerExtra sdir tid args) ∧
    (fs ++ trainerExtra sdir tid args).Wf := by
  have hW1 : (fs ++ [(sdir ++ [trName tid], false)]).Wf :=
    wf_append_child hW hd hfreshT
  have hd1 : (fs ++ [(sdir ++ [trName tid], false)]).isdir
      (sdir ++ [trName tid]) = true := by
    rw [FS.isdir_append, Bool.or_eq_true]
    right
    simp [FS.isdir]
  have htne : (sdir ++ [trName tid]) ≠ [] := by simp
  have hpre : ∀ x : String,
      (sdir ++ [trName tid]).isPrefixOf (sdir ++ [trName tid] ++ [x]) =
        true := fun x => List.isPrefixOf_iff_prefix.mpr ⟨[x], rfl⟩
  have hfresh1 : ∀ a ∈ args, (fs ++ [(sdir ++ [trName tid], false)]).existsP
      (sdir ++ [trName tid] ++ [a.1]) = false := by
    intro a _
    rw [FS.existsP_append, FS.existsP_singleton]
    rw [hW.not_existsP_strict_child htne hfreshT (hpre a.1) (by simp)]
    simp
  obtain ⟨hrun, hW2⟩ := writeArgFiles_spec (sdir ++ [trName tid]) args
    (fs ++ [(sdir ++ [trName tid], false)]) hW1 hd1 hfresh1 hnodup
  have hd2 : ((fs ++ [(sdir ++ [trName tid], false)]) ++
      args.map (fun a => (sdir ++ [trName tid] ++ [a.1], true))).isdir
      (sdir ++ [trName tid]) = true := by
    rw [FS.isdir_append, hd1, Bool.true_or]
  have hfresh2 : ((fs ++ [(sdir ++ [trName tid], false)]) ++
      args.map (fun a => (sdir ++ [trName tid] ++ [a.1], true))).existsP
      (sdir ++ [trName tid] ++ [SUCCESS_MARK_FILENAME]) = false := by
    rw [FS.existsP_append, FS.existsP_append, FS.existsP_singleton]
    rw [hW.not_existsP_strict_child htne hfreshT
      (hpre SUCCESS_MARK_FILENAME) (by simp)]
    rw [existsP_under_map]
    have : args.any (fun a => a.1 == SUCCESS_MARK_FILENAME) = false := by
      rw [List.any_eq_false]
      intro a ha
      simpa using hnS a ha
    rw [this]
    simp
  have hEq : fs ++ trainerExtra sdir tid args =
      ((fs ++ [(sdir ++ [trName tid], false)]) ++
        args.map (fun a => (sdir ++ [trName tid] ++ [a.1], true))) ++
      [(sdir ++ [trName tid] ++ [SUCCESS_MARK_FILENAME], true)] := by
    simp [trainerExtra, List.append_assoc]
  constructor
  · show FsM.bind (_get_trainer_dir sdir tid) _ fs = _
    rw [FsM.bind_ok (get_trainer_dir_creates hW hd hfreshT)]
    show FsM.bind (writeArgFiles (sdir ++ [trName tid]) args) _ _ = _
    rw [FsM.bind_ok hrun]
    show fileWrite (sdir ++ [trName tid] ++ [SUCCESS_MARK_FILENAME]) _ = _
    rw [fileWrite_child hW2 hd2 hfresh2, hEq]
  · rw [hEq]
    exact @wf_append_child _ hW2 _ _ true hd2 hfresh2

theorem trName_ne_MODEL_DIR (t : Int) : trName t ≠ MODEL_DIR := by
  intro h
  have h1 : (trName t).data.head? = some 't' := rfl
  rw [h] at h1
  exact absurd h1 (by decide)

theorem existsP_false_of_ne {L : FS} {p : FsPath}
    (h : ∀ e ∈ L, e.1 ≠ p) : L.existsP p = false := by
  unfold FS.existsP
  rw [List.any_eq_false]
  intro e he
  simpa using h e he

theorem save_persist_spec {fs : FS} (hW : fs.Wf) {sdir : FsPath}
    {prog : PyProgram} (hd : fs.isdir sdir = true)
    (hfreshM : fs.existsP (sdir ++ [ MODEL_DIR]) = false)
    (hnodup : (eligNames prog).Nodup)
    (hnS : ∀ x ∈ eligNames prog, x ≠ SUCCESS_MARK_FILENAME) :
    save_persist_vars_without_grad sdir (some prog) fs =
      Except.ok ((), (fs ++ modelExtra sdir prog) ++ markEntry sdir) ∧
    ((fs ++ modelExtra sdir prog) ++ markEntry sdir).Wf := by
  have hW1 : (fs ++ [(sdir ++ [ MODEL_DIR], false)]).Wf :=
    wf_append_child hW hd hfreshM
  have hd1 : (fs ++ [(sdir ++ [ MODEL_DIR], false)]).isdir
      (sdir ++ [ MODEL_DIR]) = true := by
    rw [FS.isdir_append, Bool.or_eq_true]
    right
    simp [FS.isdir]
  have hmne : (sdir ++ [ MODEL_DIR]) ≠ [] := by simp
  have hpre : ∀ x : String,
      (sdir ++ [ MODEL_DIR]).isPrefixOf (sdir ++ [ MODEL_DIR] ++ [x]) =
        true := fun x => List.isPrefixOf_iff_prefix.mpr ⟨[x], rfl⟩
  have hfresh1 : ∀ x ∈ eligNames prog,
      (fs ++ [(sdir ++ [ MODEL_DIR], false)]).existsP
        (sdir ++ [ MODEL_DIR] ++ [x]) = false := by
    intro x _
    rw [FS.existsP_append, FS.existsP_singleton]
    rw [hW.not_existsP_strict_child hmne hfreshM (hpre x) (by simp)]
    simp
  obtain ⟨hrun, hW2⟩ := executorRunSave_spec (sdir ++ [ MODEL_DIR])
    (eligNames prog) (fs ++ [(sdir ++ [ MODEL_DIR], false)]) hW1 hd1
    hfresh1 hnodup
  have hd2 : ((fs ++ [(sdir ++ [ MODEL_DIR], false)]) ++
      (eligNames prog).map (fun x => (sdir ++ [ MODEL_DIR] ++ [x], true))).isdir
      (sdir ++ [ MODEL_DIR]) = true := by
    rw [FS.isdir_append, hd1, Bool.true_or]
  have hfresh2 : ((fs ++ [(sdir ++ [ MODEL_DIR], false)]) ++
      (eligNames prog).map
        (fun x => (sdir ++ [ MODEL_DIR] ++ [x], true))).existsP
      (sdir ++ [ MODEL_DIR] ++ [SUCCESS_MARK_FILENAME]) = false := by
    rw [FS.existsP_append, FS.existsP_append, FS.existsP_singleton]
    rw [hW.not_existsP_strict_child hmne hfreshM
      (hpre SUCCESS_MARK_FILENAME) (by simp)]
    rw [existsP_under_map_names]
    have : (eligNames prog).any (fun y => y == SUCCESS_MARK_FILENAME) =
        false := by
      rw [List.any_eq_false]
      intro x hx
      simpa using hnS x hx
    rw [this]
    simp
  have hEq : (fs ++ modelExtra sdir prog) ++ markEntry sdir =
      (((fs ++ [(sdir ++ [ MODEL_DIR], false)]) ++
        (eligNames prog).map
          (fun x => (sdir ++ [ MODEL_DIR] ++ [x], true)))) ++
      [(sdir ++ [ MODEL_DIR] ++ [SUCCESS_MARK_FILENAME], true)] := by
    simp [modelExtra, markEntry, List.append_assoc]
  constructor
  · show FsM.bind (_get_model_dir sdir) _ fs = _
    rw [FsM.bind_ok (get_model_dir_creates hW hd hfreshM)]
    show FsM.bind (save_vars (sdir ++ [ MODEL_DIR]) (some prog) none
      _is_checkpoint_var) _ _ = _
    have hsv : save_vars (sdir ++ [ MODEL_DIR]) (some prog) none
        _is_checkpoint_var (fs ++ [(sdir ++ [ MODEL_DIR], false)]) =
        Except.ok ((), (fs ++ [(sdir ++ [ MODEL_DIR], false)]) ++
          (eligNames prog).map
            (fun x => (sdir ++ [ MODEL_DIR] ++ [x], true))) := by
      show executorRunSave (saveOpPaths (sdir ++ [ MODEL_DIR])
        (prog.filter _is_checkpoint_var)) _ = _
      rw [eligNamesLemma]
      exact hrun
    rw [FsM.bind_ok hsv]
    show fileWrite (sdir ++ [ MODEL_DIR] ++ [SUCCESS_MARK_FILENAME]) _ = _
    rw [fileWrite_child hW2 hd2 hfresh2, hEq]
  · rw [hEq]
    exact @wf_append_child _ hW2 _ _ true hd2 hfresh2

theorem latestSpec_ge {fs : FS} {root : FsPath} :
    -1 ≤ latestSpec fs root :=
  (le_foldl_max (qualSerials fs root) (-1)).1

theorem trainerExtra_not_model {sdir : FsPath} {tid : Int}
    {args : List (String × String)} :
    ∀ e ∈ trainerExtra sdir tid args, e.1 ≠ sdir ++ [ MODEL_DIR] := by
  intro e he
  unfold trainerExtra at he
  rcases List.mem_cons.mp he with rfl | he
  · intro hc
    exact trName_ne_MODEL_DIR tid (by simpa using hc)
  · rcases List.mem_append.mp he with he | he
    · obtain ⟨a, -, rfl⟩ := List.mem_map.mp he
      intro hc
      have := congrArg List.length hc
      simp at this
    · have : e = (sdir ++ [trName tid] ++ [SUCCESS_MARK_FILENAME], true) := by
        simpa using he
      subst this
      intro hc
      have := congrArg List.length hc
      simp at this

theorem save_checkpoint_chief_steps {fs : FS} {root : FsPath}
    {args : List (String × String)} {prog : PyProgram} (k : Int)
    (hW : fs.Wf) (hne : root ≠ []) (hdir : fs.isdir root = true)
    (hent : ∀ e ∈ fs.listdir root, ∃ n, 0 ≤ n ∧ e = cpName n ∧
      n ≤ latestSpec fs root)
    (hargsN : (args.map Prod.fst).Nodup)
    (hargsS : ∀ a ∈ args, a.1 ≠ SUCCESS_MARK_FILENAME)
    (hprogN : (eligNames prog).Nodup)
    (hprogS : ∀ x ∈ eligNames prog, x ≠ SUCCESS_MARK_FILENAME) :
    save_checkpoint (some root) 0 (some args) (some prog) k fs =
      _scroll_delete root k (chiefState fs root args prog) ∧
    (chiefState fs root args prog).Wf := by
  have hEntryOk : ∀ e ∈ fs.listdir root, EntryOk e := by
    intro e he
    obtain ⟨n, hn0, heq, -⟩ := hent e he
    exact Or.inl ⟨n, hn0, heq⟩
  have hfreshS : fs.existsP (root ++ [cpName (latestSpec fs root + 1)]) = false :=
    next_serial_fresh latestSpec_ge hent
  have hW1 : (fs ++ [(root ++ [cpName (latestSpec fs root + 1)], false)]).Wf :=
    wf_append_child hW hdir hfreshS
  have hd1 : (fs ++ [(root ++ [cpName (latestSpec fs root + 1)], false)]).isdir (root ++ [cpName (latestSpec fs root + 1)]) =
      true := by
    rw [FS.isdir_append, Bool.or_eq_true]
    right
    simp [FS.isdir]
  have hsne : root ++ [cpName (latestSpec fs root + 1)] ≠ [] := by simp
  have hfreshT : (fs ++ [(root ++ [cpName (latestSpec fs root + 1)], false)]).existsP
      (root ++ [cpName (latestSpec fs root + 1)] ++ [trName 0]) = false := by
    rw [FS.existsP_append, FS.existsP_singleton]
    rw [hW.not_existsP_strict_child hsne hfreshS
      (List.isPrefixOf_iff_prefix.mpr ⟨[trName 0], rfl⟩) (by simp)]
    simp
  obtain ⟨htr, hW2⟩ := save_trainer_args_spec hW1 hd1 hfreshT hargsN hargsS
  have hd2 : ((fs ++ [(root ++ [cpName (latestSpec fs root + 1)], false)]) ++
      trainerExtra (root ++ [cpName (latestSpec fs root + 1)]) 0 args).isdir (root ++ [cpName (latestSpec fs root + 1)]) =
      true := by
    rw [FS.isdir_append, hd1, Bool.true_or]
  have hfreshM : ((fs ++ [(root ++ [cpName (latestSpec fs root + 1)], false)]) ++
      trainerExtra (root ++ [cpName (latestSpec fs root + 1)]) 0 args).existsP
      (root ++ [cpName (latestSpec fs root + 1)] ++ [ MODEL_DIR]) = false := by
    rw [FS.existsP_append, FS.existsP_append, FS.existsP_singleton]
    rw [hW.not_existsP_strict_child hsne hfreshS
      (List.isPrefixOf_iff_prefix.mpr ⟨[ MODEL_DIR], rfl⟩) (by simp)]
    rw [existsP_false_of_ne trainerExtra_not_model]
    simp
  obtain ⟨hpv, hW3⟩ := save_persist_spec hW2 hd2 hfreshM hprogN hprogS
  constructor
  · simp only [save_checkpoint]
    rw [FsM.bind_ok (rfl : os_isdir root fs =
      Except.ok (fs.isdir root, fs))]
    rw [hdir]
    show FsM.bind (if (true : Bool) = true then FsM.pure ()
      else os_makedirs root) _ fs = _
    rw [FsM.bind_ok (show (if (true : Bool) = true then FsM.pure ()
        else os_makedirs root) fs = Except.ok ((), fs) by
      rw [if_pos rfl]; rfl)]
    show FsM.bind (get_latest_checkpoint_serial (some root)) _ fs = _
    rw [FsM.bind_ok (resolver_spec hne hdir hEntryOk)]
    show FsM.bind (_get_serial_dir root (latestSpec fs root + 1)) _ fs = _
    rw [FsM.bind_ok (get_serial_dir_creates
      (by rw [FS.not_isdir_of_not_existsP hfreshS]; simp)
      (makedirs_child_ok hW hdir hfreshS))]
    show FsM.bind (save_trainer_args (root ++ [cpName (latestSpec fs root + 1)]) 0 (some args)) _
      _ = _
    rw [FsM.bind_ok htr]
    show FsM.bind (if (0 : Int) = 0 then save_persist_vars_without_grad
      (root ++ [cpName (latestSpec fs root + 1)]) (some prog) else FsM.pure ()) _ _ = _
    rw [FsM.bind_ok (show (if (0 : Int) = 0 then
        save_persist_vars_without_grad (root ++ [cpName (latestSpec fs root + 1)]) (some prog)
        else FsM.pure ()) ((fs ++ [(root ++ [cpName (latestSpec fs root + 1)], false)]) ++
          trainerExtra (root ++ [cpName (latestSpec fs root + 1)]) 0 args) =
        Except.ok ((), chiefState fs root args prog) by
      rw [if_pos rfl]
      exact hpv)]
  · exact hW3

theorem save_checkpoint_interrupted_spec {fs : FS} {root : FsPath}
    {args : List (String × String)} {prog : PyProgram}
    (hW : fs.Wf) (hne : root ≠ []) (hdir : fs.isdir root = true)
    (hent : ∀ e ∈ fs.listdir root, ∃ n, 0 ≤ n ∧ e = cpName n ∧
      n ≤ latestSpec fs root)
    (hargsN : (args.map Prod.fst).Nodup)
    (hargsS : ∀ a ∈ args, a.1 ≠ SUCCESS_MARK_FILENAME)
    (hprogN : (eligNames prog).Nodup) :
    save_checkpoint_interrupted root 0 (some args) (some prog) fs =
      Except.ok ((), preMarkState fs root args prog) ∧
    (preMarkState fs root args prog).Wf := by
  have hEntryOk : ∀ e ∈ fs.listdir root, EntryOk e := by
    intro e he
    obtain ⟨n, hn0, heq, -⟩ := hent e he
    exact Or.inl ⟨n, hn0, heq⟩
  have hfreshS : fs.existsP (root ++ [cpName (latestSpec fs root + 1)]) =
      false := next_serial_fresh latestSpec_ge hent
  have hW1 : (fs ++ [(root ++ [cpName (latestSpec fs root + 1)], false)]).Wf :=
    wf_append_child hW hdir hfreshS
  have hd1 : (fs ++ [(root ++ [cpName (latestSpec fs root + 1)],
      false)]).isdir (root ++ [cpName (latestSpec fs root + 1)]) = true := by
    rw [FS.isdir_append, Bool.or_eq_true]
    right
    simp [FS.isdir]
  have hsne : root ++ [cpName (latestSpec fs root + 1)] ≠ [] := by simp
  have hfreshT : (fs ++ [(root ++ [cpName (latestSpec fs root + 1)],
      false)]).existsP
      (root ++ [cpName (latestSpec fs root + 1)] ++ [trName 0]) = false := by
    rw [FS.existsP_append, FS.existsP_singleton]
    rw [hW.not_existsP_strict_child hsne hfreshS
      (List.isPrefixOf_iff_prefix.mpr ⟨[trName 0], rfl⟩) (by simp)]
    simp
  obtain ⟨htr, hW2⟩ := save_trainer_args_spec hW1 hd1 hfreshT hargsN hargsS
  have hd2 : ((fs ++ [(root ++ [cpName (latestSpec fs root + 1)], false)]) ++
      trainerExtra (root ++ [cpName (latestSpec fs root + 1)]) 0 args).isdir
      (root ++ [cpName (latestSpec fs root + 1)]) = true := by
    rw [FS.isdir_append, hd1, Bool.true_or]
  have hfreshM : ((fs ++ [(root ++ [cpName (latestSpec fs root + 1)],
      false)]) ++
      trainerExtra (root ++ [cpName (latestSpec fs root + 1)]) 0 args).existsP
      (root ++ [cpName (latestSpec fs root + 1)] ++ [ MODEL_DIR]) = false := by
    rw [FS.existsP_append, FS.existsP_append, FS.existsP_singleton]
    rw [hW.not_existsP_strict_child hsne hfreshS
      (List.isPrefixOf_iff_prefix.mpr ⟨[ MODEL_DIR], rfl⟩) (by simp)]
    rw [existsP_false_of_ne trainerExtra_not_model]
    simp
  have hW3 : (((fs ++ [(root ++ [cpName (latestSpec fs root + 1)],
      false)]) ++
      trainerExtra (root ++ [cpName (latestSpec fs root + 1)]) 0 args) ++
      [(root ++ [cpName (latestSpec fs root + 1)] ++ [ MODEL_DIR],
        false)]).Wf := wf_append_child hW2 hd2 hfreshM
  have hd3 : (((fs ++ [(root ++ [cpName (latestSpec fs root + 1)],
      false)]) ++
      trainerExtra (root ++ [cpName (latestSpec fs root + 1)]) 0 args) ++
      [(root ++ [cpName (latestSpec fs root + 1)] ++ [ MODEL_DIR],
        false)]).isdir
      (root ++ [cpName (latestSpec fs root + 1)] ++ [ MODEL_DIR]) = true := by
    rw [FS.isdir_append, Bool.or_eq_true]
    right
    simp [FS.isdir]
  have hmne : root ++ [cpName (latestSpec fs root + 1)] ++ [ MODEL_DIR] ≠
      [] := by simp
  have hfresh3 : ∀ x ∈ eligNames prog,
      (((fs ++ [(root ++ [cpName (latestSpec fs root + 1)], false)]) ++
        trainerExtra (root ++ [cpName (latestSpec fs root + 1)]) 0 args) ++
        [(root ++ [cpName (latestSpec fs root + 1)] ++ [ MODEL_DIR],
          false)]).existsP
        (root ++ [cpName (latestSpec fs root + 1)] ++ [ MODEL_DIR] ++ [x]) =
        false := by
    intro x _
    rw [FS.existsP_append, FS.existsP_singleton]
    rw [hW2.not_existsP_strict_child hmne hfreshM
      (List.isPrefixOf_iff_prefix.mpr ⟨[x], rfl⟩) (by simp)]
    simp
  obtain ⟨hrun, hW4⟩ := executorRunSave_spec
    (root ++ [cpName (latestSpec fs root + 1)] ++ [ MODEL_DIR])
    (eligNames prog)
    (((fs ++ [(root ++ [cpName (latestSpec fs root + 1)], false)]) ++
      trainerExtra (root ++ [cpName (latestSpec fs root + 1)]) 0 args) ++
      [(root ++ [cpName (latestSpec fs root + 1)] ++ [ MODEL_DIR], false)])
    hW3 hd3 hfresh3 hprogN
  have hEq : preMarkState fs root args prog =
      ((((fs ++ [(root ++ [cpName (latestSpec fs root + 1)], false)]) ++
        trainerExtra (root ++ [cpName (latestSpec fs root + 1)]) 0 args) ++
        [(root ++ [cpName (latestSpec fs root + 1)] ++ [ MODEL_DIR],
          false)]) ++
        (eligNames prog).map (fun x =>
          (root ++ [cpName (latestSpec fs root + 1)] ++ [ MODEL_DIR] ++ [x],
            true))) := by
    simp [preMarkState, modelExtra, nextSdir, List.append_assoc]
  constructor
  · simp only [save_checkpoint_interrupted]
    rw [FsM.bind_ok (rfl : os_isdir root fs =
      Except.ok (fs.isdir root, fs))]
    rw [hdir]
    show FsM.bind (if (true : Bool) = true then FsM.pure ()
      else os_makedirs root) _ fs = _
    rw [FsM.bind_ok (show (if (true : Bool) = true then FsM.pure ()
        else os_makedirs root) fs = Except.ok ((), fs) by
      rw [if_pos rfl]; rfl)]
    show FsM.bind (get_latest_checkpoint_serial (some root)) _ fs = _
    rw [FsM.bind_ok (resolver_spec hne hdir hEntryOk)]
    show FsM.bind (_get_serial_dir root (latestSpec fs root + 1)) _ fs = _
    rw [FsM.bind_ok (get_serial_dir_creates
      (by rw [FS.not_isdir_of_not_existsP hfreshS]; simp)
      (makedirs_child_ok hW hdir hfreshS))]
    show FsM.bind (save_trainer_args
      (root ++ [cpName (latestSpec fs root + 1)]) 0 (some args)) _ _ = _
    rw [FsM.bind_ok htr]
    show FsM.bind (_get_model_dir
      (root ++ [cpName (latestSpec fs root + 1)])) _ _ = _
    rw [FsM.bind_ok (get_model_dir_creates hW2 hd2 hfreshM)]
    show save_vars (root ++ [cpName (latestSpec fs root + 1)] ++
      [ MODEL_DIR]) (some prog) none _is_checkpoint_var _ = _
    have hsv : save_vars (root ++ [cpName (latestSpec fs root + 1)] ++
        [ MODEL_DIR]) (some prog) none _is_checkpoint_var
        (((fs ++ [(root ++ [cpName (latestSpec fs root + 1)], false)]) ++
          trainerExtra (root ++ [cpName (latestSpec fs root + 1)]) 0 args) ++
          [(root ++ [cpName (latestSpec fs root + 1)] ++ [ MODEL_DIR],
            false)]) = Except.ok ((), preMarkState fs root args prog) := by
      show executorRunSave (saveOpPaths (root ++
        [cpName (latestSpec fs root + 1)] ++ [ MODEL_DIR])
        (prog.filter _is_checkpoint_var)) _ = _
      rw [eligNamesLemma, hEq]
      exact hrun
    exact hsv
  · rw [hEq]
    exact hW4

/-! ### What the written entries look like from the root -/

theorem childName_none_of_length {root p : FsPath}
    (h : p.length ≠ root.length + 1) : childName root p = none := by
  unfold childName
  rcases hd : p.drop root.length with _ | ⟨n, _ | t⟩
  · rfl
  · exfalso
    have := congrArg List.length hd
    rw [List.length_drop] at this
    simp only [List.length_singleton] at this
    rcases Nat.lt_or_ge root.length p.length with h2 | h2
    · omega
    · rw [Nat.sub_eq_zero_of_le h2] at this
      omega
  · rfl

theorem prefix_root_child {root : FsPath} {y x : String} {rest : List String}
    (h : (root ++ [y]).isPrefixOf (root ++ x :: rest) = true) : y = x := by
  obtain ⟨t, ht⟩ := List.isPrefixOf_iff_prefix.mp h
  rw [List.append_assoc] at ht
  have := List.append_cancel_left ht
  simpa using (List.cons.injEq _ _ _ _).mp (by simpa using this) |>.1

theorem extra_no_touch {EXTRA : FS} {root : FsPath} {y x : String}
    {rest : List String}
    (hpre : ∀ ent ∈ EXTRA, (root ++ [y]).isPrefixOf ent.1 = true)
    (hne : y ≠ x) :
    FS.existsP EXTRA (root ++ x :: rest) = false := by
  refine existsP_false_of_ne ?_
  intro ent hent hc
  have := hpre ent hent
  rw [hc] at this
  exact hne (prefix_root_child this)

theorem trainerExtra_prefixed {sdir : FsPath} {tid : Int}
    {args : List (String × String)} :
    ∀ ent ∈ trainerExtra sdir tid args, sdir.isPrefixOf ent.1 = true := by
  intro ent hent
  rw [List.isPrefixOf_iff_prefix]
  unfold trainerExtra at hent
  rcases List.mem_cons.mp hent with rfl | hent
  · exact ⟨[trName tid], rfl⟩
  · rcases List.mem_append.mp hent with hent | hent
    · obtain ⟨a, -, rfl⟩ := List.mem_map.mp hent
      exact ⟨[trName tid, a.1], by simp⟩
    · have : ent = (sdir ++ [trName tid] ++ [SUCCESS_MARK_FILENAME],
          true) := by simpa using hent
      subst this
      exact ⟨[trName tid, SUCCESS_MARK_FILENAME], by simp⟩

theorem modelExtra_prefixed {sdir : FsPath} {prog : PyProgram} :
    ∀ ent ∈ modelExtra sdir prog, sdir.isPrefixOf ent.1 = true := by
  intro ent hent
  rw [List.isPrefixOf_iff_prefix]
  unfold modelExtra at hent
  rcases List.mem_cons.mp hent with rfl | hent
  · exact ⟨[ MODEL_DIR], rfl⟩
  · obtain ⟨x, -, rfl⟩ := List.mem_map.mp hent
    exact ⟨[ MODEL_DIR, x], by simp⟩

theorem markEntry_prefixed {sdir : FsPath} :
    ∀ ent ∈ markEntry sdir, sdir.isPrefixOf ent.1 = true := by
  intro ent hent
  rw [List.isPrefixOf_iff_prefix]
  have : ent = (sdir ++ [ MODEL_DIR] ++ [SUCCESS_MARK_FILENAME], true) := by
    simpa [markEntry] using hent
  subst this
  exact ⟨[ MODEL_DIR, SUCCESS_MARK_FILENAME], by simp⟩

theorem listdir_nil_of_deep {L : FS} {root : FsPath}
    (h : ∀ ent ∈ L, ent.1.length ≠ root.length + 1) :
    FS.listdir L root = [] := by
  unfold FS.listdir
  rw [List.filterMap_eq_nil]
  intro e he
  exact childName_none_of_length (h e he)

theorem trainerExtra_deep {sdir root : FsPath} {tid : Int}
    {args : List (String × String)} (h : sdir.length = root.length + 1) :
    ∀ ent ∈ trainerExtra sdir tid args,
      ent.1.length ≠ root.length + 1 := by
  intro ent hent
  unfold trainerExtra at hent
  rcases List.mem_cons.mp hent with rfl | hent
  · simp only [List.length_append, List.length_singleton]
    omega
  · rcases List.mem_append.mp hent with hent | hent
    · obtain ⟨a, -, rfl⟩ := List.mem_map.mp hent
      simp only [List.length_append, List.length_singleton]
      omega
    · have : ent = (sdir ++ [trName tid] ++ [SUCCESS_MARK_FILENAME],
          true) := by simpa using hent
      subst this
      simp only [List.length_append, List.length_singleton]
      omega

theorem modelExtra_deep {sdir root : FsPath} {prog : PyProgram}
    (h : sdir.length = root.length + 1) :
    ∀ ent ∈ modelExtra sdir prog, ent.1.length ≠ root.length + 1 := by
  intro ent hent
  unfold modelExtra at hent
  rcases List.mem_cons.mp hent with rfl | hent
  · simp only [List.length_append, List.length_singleton]
    omega
  · obtain ⟨x, -, rfl⟩ := List.mem_map.mp hent
    simp only [List.length_append, List.length_singleton]
    omega

theorem markEntry_deep {sdir root : FsPath} (h : sdir.length = root.length + 1) :
    ∀ ent ∈ markEntry sdir, ent.1.length ≠ root.length + 1 := by
  intro ent hent
  have : ent = (sdir ++ [ MODEL_DIR] ++ [SUCCESS_MARK_FILENAME], true) := by
    simpa [markEntry] using hent
  subst this
  simp only [List.length_append, List.length_singleton]
  omega

theorem listdir_preMark (fs : FS) (root : FsPath)
    (args : List (String × String)) (prog : PyProgram) :
    (preMarkState fs root args prog).listdir root =
      fs.listdir root ++ [cpName (latestSpec fs root + 1)] := by
  have hlen : (root ++ [cpName (latestSpec fs root + 1)]).length =
      root.length + 1 := by simp
  unfold preMarkState nextSdir
  rw [FS.listdir_append, FS.listdir_append, FS.listdir_append]
  rw [listdir_nil_of_deep (trainerExtra_deep hlen),
    listdir_nil_of_deep (modelExtra_deep hlen)]
  have hone : FS.listdir [(root ++ [cpName (latestSpec fs root + 1)],
      false)] root = [cpName (latestSpec fs root + 1)] := by
    unfold FS.listdir
    simp [childName_self]
  rw [hone]
  simp

theorem listdir_chiefState (fs : FS) (root : FsPath)
    (args : List (String × String)) (prog : PyProgram) :
    (chiefState fs root args prog).listdir root =
      fs.listdir root ++ [cpName (latestSpec fs root + 1)] := by
  have hlen : (root ++ [cpName (latestSpec fs root + 1)]).length =
      root.length + 1 := by simp
  unfold chiefState nextSdir
  rw [FS.listdir_append, listdir_preMark]
  rw [listdir_nil_of_deep (@markEntry_deep _ root hlen)]
  simp

theorem qualSerial_append_preserved {fs E : FS} {root : FsPath} {e : String}
    (h1 : FS.existsP E (root ++ [e]) = false)
    (h2 : FS.existsP E (root ++ [e, MODEL_DIR, SUCCESS_MARK_FILENAME]) =
      false) :
    qualSerial (fs ++ E) root e = qualSerial fs root e := by
  unfold qualSerial
  rcases hp : _get_dir_serial e with e2 | n
  · rfl
  · have hd : (fs ++ E).isdir (root ++ [e]) = fs.isdir (root ++ [e]) := by
      rw [FS.isdir_append, FS.not_isdir_of_not_existsP h1, Bool.or_false]
    have hf : (fs ++ E).isfile (root ++ [e, MODEL_DIR,
        SUCCESS_MARK_FILENAME]) = fs.isfile (root ++ [e, MODEL_DIR,
        SUCCESS_MARK_FILENAME]) := by
      rw [FS.isfile_append, FS.not_isfile_of_not_existsP h2, Bool.or_false]
    rw [hd, hf]

theorem preMark_assoc (fs : FS) (root : FsPath)
    (args : List (String × String)) (prog : PyProgram) :
    preMarkState fs root args prog =
      fs ++ ([(root ++ [cpName (latestSpec fs root + 1)], false)] ++
        (trainerExtra (root ++ [cpName (latestSpec fs root + 1)]) 0 args ++
          modelExtra (root ++ [cpName (latestSpec fs root + 1)]) prog)) := by
  simp [preMarkState, nextSdir, List.append_assoc]

theorem preMark_extra_prefixed {root : FsPath} {r : Int}
    {args : List (String × String)} {prog : PyProgram} :
    ∀ ent ∈ [(root ++ [cpName (r + 1)], false)] ++
      (trainerExtra (root ++ [cpName (r + 1)]) 0 args ++
        modelExtra (root ++ [cpName (r + 1)]) prog),
      (root ++ [cpName (r + 1)]).isPrefixOf ent.1 = true := by
  intro ent hent
  rcases List.mem_append.mp hent with hent | hent
  · have : ent = (root ++ [cpName (r + 1)], false) := by simpa using hent
    subst this
    exact List.isPrefixOf_iff_prefix.mpr (List.prefix_refl _)
  · rcases List.mem_append.mp hent with hent | hent
    · exact trainerExtra_prefixed ent hent
    · exact modelExtra_prefixed ent hent

theorem preMark_extra_not_mark {root : FsPath} {r : Int}
    {args : List (String × String)} {prog : PyProgram}
    (hprogS : ∀ x ∈ eligNames prog, x ≠ SUCCESS_MARK_FILENAME) :
    ∀ ent ∈ [(root ++ [cpName (r + 1)], false)] ++
      (trainerExtra (root ++ [cpName (r + 1)]) 0 args ++
        modelExtra (root ++ [cpName (r + 1)]) prog),
      ent.1 ≠ root ++ [cpName (r + 1)] ++ [ MODEL_DIR] ++
        [SUCCESS_MARK_FILENAME] := by
  intro ent hent
  rcases List.mem_append.mp hent with hent | hent
  · have : ent = (root ++ [cpName (r + 1)], false) := by simpa using hent
    subst this
    intro hc
    have := congrArg List.length hc
    simp at this
  · rcases List.mem_append.mp hent with hent | hent
    · unfold trainerExtra at hent
      rcases List.mem_cons.mp hent with rfl | hent
      · intro hc
        have := congrArg List.length hc
        simp at this
      · rcases List.mem_append.mp hent with hent | hent
        · obtain ⟨a, -, rfl⟩ := List.mem_map.mp hent
          intro hc
          simp only [List.append_assoc] at hc
          have := List.append_cancel_left hc
          exact trName_ne_MODEL_DIR 0 (by simpa using this :
            trName 0 = MODEL_DIR ∧ a.1 = SUCCESS_MARK_FILENAME).1
        · have : ent = (root ++ [cpName (r + 1)] ++ [trName 0] ++
              [SUCCESS_MARK_FILENAME], true) := by
            simpa [trainerExtra] using hent
          subst this
          intro hc
          simp only [List.append_assoc] at hc
          have := List.append_cancel_left hc
          exact trName_ne_MODEL_DIR 0 (by simpa using this)
    · unfold modelExtra at hent
      rcases List.mem_cons.mp hent with rfl | hent
      · intro hc
        have := congrArg List.length hc
        simp at this
      · obtain ⟨x, hx, rfl⟩ := List.mem_map.mp hent
        intro hc
        simp only [List.append_assoc] at hc
        have h2 := List.append_cancel_left hc
        have h3 := List.append_cancel_left (by simpa using h2 :
          ([ MODEL_DIR] : List String) ++ [x] =
            [ MODEL_DIR] ++ [SUCCESS_MARK_FILENAME])
        exact hprogS x hx (by simpa using h3)

theorem preMark_mark_absent {fs : FS} {root : FsPath}
    {args : List (String × String)} {prog : PyProgram} (hW : fs.Wf)
    (hne2 : root ++ [cpName (latestSpec fs root + 1)] ≠ [])
    (hfreshS : fs.existsP (root ++ [cpName (latestSpec fs root + 1)]) =
      false)
    (hprogS : ∀ x ∈ eligNames prog, x ≠ SUCCESS_MARK_FILENAME) :
    (preMarkState fs root args prog).isfile
      (root ++ [cpName (latestSpec fs root + 1), MODEL_DIR,
        SUCCESS_MARK_FILENAME]) = false := by
  rw [preMark_assoc, FS.isfile_append]
  have hflat : root ++ [cpName (latestSpec fs root + 1), MODEL_DIR,
      SUCCESS_MARK_FILENAME] = root ++ [cpName (latestSpec fs root + 1)] ++
      [ MODEL_DIR] ++ [SUCCESS_MARK_FILENAME] := by simp
  have h1 : fs.isfile (root ++ [cpName (latestSpec fs root + 1), MODEL_DIR,
      SUCCESS_MARK_FILENAME]) = false := by
    refine FS.not_isfile_of_not_existsP ?_
    refine hW.not_existsP_strict_child hne2 hfreshS ?_ ?_
    · rw [List.isPrefixOf_iff_prefix, hflat]
      exact ⟨[ MODEL_DIR] ++ [SUCCESS_MARK_FILENAME], by simp⟩
    · simp
  have h2 : FS.isfile ([(root ++ [cpName (latestSpec fs root + 1)],
      false)] ++
      (trainerExtra (root ++ [cpName (latestSpec fs root + 1)]) 0 args ++
        modelExtra (root ++ [cpName (latestSpec fs root + 1)]) prog))
      (root ++ [cpName (latestSpec fs root + 1), MODEL_DIR,
        SUCCESS_MARK_FILENAME]) = false := by
    refine FS.not_isfile_of_not_existsP (existsP_false_of_ne ?_)
    intro ent hent
    rw [hflat]
    exact preMark_extra_not_mark hprogS ent hent
  rw [h1, h2]
  rfl

theorem qualSerial_no_mark {fs : FS} {root : FsPath} {n : Int} (hn : 0 ≤ n)
    (hmark : fs.isfile (root ++ [cpName n, MODEL_DIR,
      SUCCESS_MARK_FILENAME]) = false) :
    qualSerial fs root (cpName n) = none := by
  unfold qualSerial
  rw [get_dir_serial_cpName n hn]
  exact if_neg (by rintro ⟨-, -, -, h4⟩; rw [hmark] at h4; cases h4)

theorem quals_preMark {fs : FS} {root : FsPath}
    {args : List (String × String)} {prog : PyProgram} (hW : fs.Wf)
    (hfreshS : fs.existsP (root ++ [cpName (latestSpec fs root + 1)]) =
      false)
    (hprogS : ∀ x ∈ eligNames prog, x ≠ SUCCESS_MARK_FILENAME) :
    qualSerials (preMarkState fs root args prog) root =
      qualSerials fs root := by
  have hr : (-1 : Int) ≤ latestSpec fs root := latestSpec_ge
  have hne2 : root ++ [cpName (latestSpec fs root + 1)] ≠ [] := by simp
  unfold qualSerials
  rw [listdir_preMark, List.filterMap_append]
  have hnew : qualSerial (preMarkState fs root args prog) root
      (cpName (latestSpec fs root + 1)) = none :=
    qualSerial_no_mark (by omega)
      (preMark_mark_absent hW hne2 hfreshS hprogS)
  have h2 : List.filterMap
      (qualSerial (preMarkState fs root args prog) root)
      [cpName (latestSpec fs root + 1)] = [] := by
    simp [hnew]
  rw [h2, List.append_nil]
  refine List.filterMap_congr ?_
  intro e he
  have hneq : cpName (latestSpec fs root + 1) ≠ e := by
    intro hc
    obtain ⟨b, hb⟩ := mem_listdir_iff.mp he
    rw [← hc] at hb
    rw [FS.existsP_iff.mpr ⟨b, hb⟩] at hfreshS
    cases hfreshS
  rw [preMark_assoc]
  exact qualSerial_append_preserved
    (extra_no_touch preMark_extra_prefixed hneq)
    (extra_no_touch preMark_extra_prefixed hneq)

theorem resolver_on_preMark {fs : FS} {root : FsPath}
    {args : List (String × String)} {prog : PyProgram} (hW : fs.Wf)
    (hne : root ≠ []) (hdir : fs.isdir root = true)
    (hent : ∀ e ∈ fs.listdir root, EntryOk e)
    (hfreshS : fs.existsP (root ++ [cpName (latestSpec fs root + 1)]) =
      false)
    (hprogS : ∀ x ∈ eligNames prog, x ≠ SUCCESS_MARK_FILENAME) :
    get_latest_checkpoint_serial (some root)
        (preMarkState fs root args prog) =
      Except.ok (latestSpec fs root, preMarkState fs root args prog) := by
  have hr : (-1 : Int) ≤ latestSpec fs root := latestSpec_ge
  have hdir2 : (preMarkState fs root args prog).isdir root = true := by
    rw [preMark_assoc, FS.isdir_append, hdir]
    rfl
  have hent2 : ∀ e ∈ (preMarkState fs root args prog).listdir root,
      EntryOk e := by
    intro e he
    rw [listdir_preMark] at he
    rcases List.mem_append.mp he with he | he
    · exact hent e he
    · have : e = cpName (latestSpec fs root + 1) := by simpa using he
      subst this
      exact Or.inl ⟨latestSpec fs root + 1, by omega, rfl⟩
  rw [resolver_spec hne hdir2 hent2]
  have : latestSpec (preMarkState fs root args prog) root =
      latestSpec fs root := by
    unfold latestSpec
    rw [quals_preMark hW hfreshS hprogS]
  rw [this]

/-! ### Sorting lemmas for the retention pass -/

theorem insertDesc_perm (x : Int) (l : List Int) :
    (insertDesc x l).Perm (x :: l) := by
  induction l with
  | nil => exact List.Perm.refl _
  | cons y ys ih =>
    unfold insertDesc
    by_cases h : x ≥ y
    · rw [if_pos h]
    · rw [if_neg h]
      exact (List.Perm.cons y ih).trans (List.Perm.swap x y ys)

theorem sortDesc_perm (l : List Int) : (sortDesc l).Perm l := by
  induction l with
  | nil => exact List.Perm.refl _
  | cons x xs ih =>
    exact (insertDesc_perm x (sortDesc xs)).trans (List.Perm.cons x ih)

theorem insertDesc_sorted {l : List Int} (x : Int)
    (h : l.Pairwise (· ≥ ·)) : (insertDesc x l).Pairwise (· ≥ ·) := by
  induction l with
  | nil => simp [insertDesc]
  | cons y ys ih =>
    unfold insertDesc
    by_cases hxy : x ≥ y
    · rw [if_pos hxy]
      refine List.Pairwise.cons ?_ h
      intro z hz
      rcases List.mem_cons.mp hz with rfl | hz
      · exact hxy
      · exact le_trans ((List.pairwise_cons.mp h).1 z hz) hxy
    · rw [if_neg hxy]
      obtain ⟨h1, h2⟩ := List.pairwise_cons.mp h
      refine List.Pairwise.cons ?_ (ih h2)
      intro z hz
      rcases List.mem_cons.mp ((insertDesc_perm x ys).mem_iff.mp hz) with
        rfl | hz
      · omega
      · exact h1 z hz

theorem sortDesc_sorted (l : List Int) : (sortDesc l).Pairwise (· ≥ ·) := by
  induction l with
  | nil => simp [sortDesc]
  | cons x xs ih => exact insertDesc_sorted x ih

theorem sortDesc_head_max {l : List Int} {m : Int} (hm : m ∈ l)
    (hmax : ∀ x ∈ l, x ≤ m) (hnd : l.Nodup) :
    ∃ t, sortDesc l = m :: t ∧ m ∉ t := by
  have hperm := sortDesc_perm l
  have hmem : m ∈ sortDesc l := hperm.mem_iff.mpr hm
  have hnd2 : (sortDesc l).Nodup := hperm.nodup_iff.mpr hnd
  cases hs : sortDesc l with
  | nil => rw [hs] at hmem; cases hmem
  | cons h0 t =>
    rw [hs] at hmem hnd2
    have hsort := sortDesc_sorted l
    rw [hs] at hsort
    obtain ⟨h1, -⟩ := List.pairwise_cons.mp hsort
    have hh0 : h0 = m := by
      have hh0m : h0 ≤ m := hmax h0 (hperm.mem_iff.mp (by rw [hs]; simp))
      rcases List.mem_cons.mp hmem with rfl | hmt
      · rfl
      · have := h1 m hmt
        omega
    subst hh0
    exact ⟨t, rfl, (List.nodup_cons.mp hnd2).1⟩

theorem strict_max_not_dropped {l : List Int} {m : Int} {k : Nat}
    (hm : m ∈ l) (hmax : ∀ x ∈ l, x ≤ m) (hnd : l.Nodup) (hk : 1 ≤ k) :
    m ∉ (sortDesc l).drop k := by
  obtain ⟨t, hs, hmt⟩ := sortDesc_head_max hm hmax hnd
  rw [hs]
  intro hc
  rcases k with - | k2
  · omega
  · exact hmt (List.drop_subset k2 t hc)

/-! ### The serial map on canonical listings -/

theorem dictInsert_fresh {k : Int} {v : String} {l : List (Int × String)}
    (h : k ∉ l.map Prod.fst) : dictInsert k v l = l ++ [(k, v)] := by
  induction l with
  | nil => rfl
  | cons a t ih =>
    have hne : ¬k = a.1 := fun hc => h (by simp [hc])
    have hkt : k ∉ t.map Prod.fst := fun hc => h (by simp [hc])
    unfold dictInsert
    rw [if_neg hne, ih hkt]
    simp

theorem foldl_dictInsert_fresh :
    ∀ (ns : List Int) (acc : List (Int × String))
      (_ : ∀ n ∈ ns, n ∉ acc.map Prod.fst) (_ : ns.Nodup),
      ns.foldl (fun a n => dictInsert n (cpName n) a) acc =
        acc ++ ns.map (fun n => (n, cpName n)) := by
  intro ns
  induction ns with
  | nil => intro acc h1 h2; simp
  | cons n rest ih =>
    intro acc h1 h2
    rw [List.foldl_cons,
      dictInsert_fresh (h1 n (List.mem_cons_self n rest))]
    rw [ih (acc ++ [(n, cpName n)]) ?_ (List.nodup_cons.mp h2).2]
    · simp
    · intro m hm
      rw [List.map_append, List.mem_append]
      rintro (hc | hc)
      · exact h1 m (List.mem_cons_of_mem n hm) hc
      · have : m = n := by simpa using hc
        subst this
        exact (List.nodup_cons.mp h2).1 hm

theorem buildSerialMap_canon :
    ∀ (ns : List Int) (acc : List (Int × String)) (fsx : FS)
      (_ : ∀ n ∈ ns, 0 ≤ n),
      buildSerialMap (ns.map cpName) acc fsx =
        Except.ok (ns.foldl (fun a n => dictInsert n (cpName n) a) acc,
          fsx) := by
  intro ns
  induction ns with
  | nil => intro acc fsx h; rfl
  | cons n rest ih =>
    intro acc fsx h
    rw [List.map_cons]
    show FsM.bind (FsM.liftE (_get_dir_serial (cpName n)))
      (fun m => buildSerialMap (rest.map cpName) (dictInsert m (cpName n)
        acc)) fsx = _
    rw [FsM.bind_ok (show FsM.liftE (_get_dir_serial (cpName n)) fsx =
      Except.ok (n, fsx) by
        rw [show _get_dir_serial (cpName n) = Except.ok n from
          get_dir_serial_cpName n (h n (List.mem_cons_self n rest))]
        rfl)]
    rw [ih (dictInsert n (cpName n) acc) fsx
      (fun m hm => h m (List.mem_cons_of_mem n hm))]
    rfl

theorem sh_rmtree_ok {g : FS} {p : FsPath} (hd : g.isdir p = true) :
    sh_rmtree p g =
      Except.ok ((), g.filter (fun e => !(p.isPrefixOf e.1))) := by
  simp [sh_rmtree, FsM.liftFs, FS.rmtree, hd]

theorem prefix_eq_of_child {root : FsPath} {a b : String}
    (h : (root ++ [a]).isPrefixOf (root ++ [b]) = true) : a = b := by
  have hpre := List.isPrefixOf_iff_prefix.mp h
  have hlen : (root ++ [a]).length = (root ++ [b]).length := by simp
  have := List.IsPrefix.eq_of_length hpre hlen
  simpa using List.append_cancel_left this

theorem deleteSerials_spec {root : FsPath} :
    ∀ (ds : List Int) (g : FS)
      (_ : ∀ n ∈ ds, g.isdir (root ++ [cpName n]) = true)
      (_ : ∀ n ∈ ds, 0 ≤ n) (_ : ds.Nodup),
      deleteSerials root ds g = Except.ok ((),
        g.filter (fun e => ds.all (fun n =>
          !(root ++ [cpName n]).isPrefixOf e.1))) := by
  intro ds
  induction ds with
  | nil =>
    intro g h1 h2 h3
    simp [deleteSerials, FsM.pure, List.filter_eq_self.mpr]
  | cons n rest ih =>
    intro g h1 h2 h3
    have hdn : g.isdir (root ++ [cpName n]) = true :=
      h1 n (List.mem_cons_self n rest)
    show FsM.bind (_get_serial_dir root n) (fun cur_dir =>
      FsM.bind (sh_rmtree cur_dir) (fun _ =>
        deleteSerials root rest)) g = _
    rw [FsM.bind_ok (get_serial_dir_exists hdn)]
    rw [FsM.bind_ok (sh_rmtree_ok hdn)]
    have hdirs2 : ∀ m ∈ rest,
        FS.isdir (List.filter (fun e =>
            !(root ++ [cpName n]).isPrefixOf e.1) g)
          (root ++ [cpName m]) = true := by
      intro m hm
      rw [FS.isdir_iff_mem]
      refine List.mem_filter.mpr ⟨FS.isdir_iff_mem.mp (h1 m
        (List.mem_cons_of_mem n hm)), ?_⟩
      simp only [Bool.not_eq_eq_eq_not, Bool.not_true]
      rw [Bool.eq_false_iff]
      intro hc
      have : n = m := cpName_injective
        (h2 n (List.mem_cons_self n rest))
        (h2 m (List.mem_cons_of_mem n hm))
        (prefix_eq_of_child hc)
      subst this
      exact (List.nodup_cons.mp h3).1 hm
    rw [ih _ hdirs2 (fun m hm => h2 m (List.mem_cons_of_mem n hm))
      (List.nodup_cons.mp h3).2]
    rw [List.filter_filter]
    refine congrArg (fun z => Except.ok ((), z)) ?_
    refine List.filter_congr ?_
    intro e he
    simp [List.all_cons, Bool.and_comm]

theorem listdir_cons (e : FsPath × Bool) (t : FS) (root : FsPath) :
    FS.listdir (e :: t) root =
      (childName root e.1).toList ++ FS.listdir t root := by
  unfold FS.listdir
  rw [List.filterMap_cons]
  cases childName root e.1 with
  | none => rfl
  | some x => rfl

theorem childPrefix_eq_beq {root : FsPath} {p : FsPath} {x : String}
    (hc : childName root p = some x) (n : Int) :
    (root ++ [cpName n]).isPrefixOf p = (cpName n == x) := by
  rw [childName_eq_some hc]
  rcases hb : (cpName n == x) with - | -
  · rw [Bool.eq_false_iff]
    intro hcc
    rw [prefix_eq_of_child hcc] at hb
    simp at hb
  · have hxe : cpName n = x := by simpa using hb
    rw [hxe]
    exact List.isPrefixOf_iff_prefix.mpr (List.prefix_refl _)

theorem listdir_filter_children (g : FS) (root : FsPath)
    (ds : List Int) :
    FS.listdir (List.filter (fun e => ds.all (fun n =>
        !(root ++ [cpName n]).isPrefixOf e.1)) g) root =
      List.filter (fun x => ds.all (fun n => !(cpName n == x)))
        (FS.listdir g root) := by
  induction g with
  | nil => rfl
  | cons e t ih =>
    rw [List.filter_cons, listdir_cons, List.filter_append, ← ih]
    by_cases hp : (ds.all fun n =>
        !(root ++ [cpName n]).isPrefixOf e.1) = true
    · rw [if_pos hp, listdir_cons]
      congr 1
      cases hc : childName root e.1 with
      | none => rfl
      | some x =>
        have heq : (ds.all fun n => !(cpName n == x)) =
            (ds.all fun n =>
              !(root ++ [cpName n]).isPrefixOf e.1) := by
          refine congrArg ds.all ?_
          funext n
          rw [childPrefix_eq_beq hc n]
        have hq : (ds.all fun n => !(cpName n == x)) = true := by
          rw [heq]
          exact hp
        show Option.toList (some x) =
          List.filter (fun x => ds.all fun n => !(cpName n == x))
            (Option.toList (some x))
        show [x] = List.filter _ [x]
        simp [hq]
    · rw [if_neg hp]
      have hz : List.filter (fun x => ds.all fun n => !(cpName n == x))
          (childName root e.1).toList = [] := by
        cases hc : childName root e.1 with
        | none => rfl
        | some x =>
          have heq : (ds.all fun n => !(cpName n == x)) =
              (ds.all fun n =>
                !(root ++ [cpName n]).isPrefixOf e.1) := by
            refine congrArg ds.all ?_
            funext n
            rw [childPrefix_eq_beq hc n]
          have hq : (ds.all fun n => !(cpName n == x)) = false := by
            rw [heq]
            exact Bool.eq_false_iff.mpr hp
          show List.filter _ [x] = []
          simp [hq]
      rw [hz]
      rfl

theorem canon_listing {L : List String}
    (h : ∀ e ∈ L, ∃ n, 0 ≤ n ∧ e = cpName n) :
    ∃ ns : List Int, (∀ n ∈ ns, 0 ≤ n) ∧ L = ns.map cpName := by
  induction L with
  | nil => exact ⟨[], by simp, rfl⟩
  | cons e t ih =>
    obtain ⟨ns, h1, h2⟩ := ih (fun x hx => h x (List.mem_cons_of_mem e hx))
    obtain ⟨n, hn0, hne⟩ := h e (List.mem_cons_self e t)
    refine ⟨n :: ns, ?_, ?_⟩
    · intro m hm
      rcases List.mem_cons.mp hm with rfl | hm
      · exact hn0
      · exact h1 m hm
    · rw [List.map_cons, ← h2, ← hne]

theorem scroll_canon {g : FS} {root : FsPath} {ns : List Int} (k : Int)
    (hdir : g.isdir root = true)
    (hlist : g.listdir root = ns.map cpName)
    (hpos : ∀ n ∈ ns, 0 ≤ n)
    (hnd : ns.Nodup)
    (hdirs : ∀ n ∈ ns, g.isdir (root ++ [cpName n]) = true) :
    _scroll_delete root k g =
      if (ns.length : Int) ≤ k then Except.ok ((), g)
      else Except.ok ((), List.filter (fun e =>
        ((sortDesc ns).drop k.toNat).all
          (fun n => !(root ++ [cpName n]).isPrefixOf e.1)) g) := by
  unfold _scroll_delete
  rw [FsM.bind_ok (show os_listdir root g =
    Except.ok (g.listdir root, g) by simp [os_listdir, hdir])]
  rw [hlist]
  rw [FsM.bind_ok (buildSerialMap_canon ns [] g hpos)]
  rw [foldl_dictInsert_fresh ns [] (by simp) hnd]
  simp only [List.nil_append, List.length_map, List.map_map]
  by_cases hle : (ns.length : Int) ≤ k
  · rw [if_pos hle, if_pos hle]
    rfl
  · rw [if_neg hle, if_neg hle]
    have hkeys : ns.map (Prod.fst ∘ (fun n => (n, cpName n))) = ns := by
      have hc : (Prod.fst ∘ (fun n : Int => (n, cpName n))) = id := by
        funext n
        rfl
      rw [hc, List.map_id]
    rw [hkeys]
    have hnd2 : ((sortDesc ns).drop k.toNat).Nodup :=
      List.Nodup.sublist (List.drop_sublist _ _)
        ((sortDesc_perm ns).nodup_iff.mpr hnd)
    refine deleteSerials_spec _ g ?_ ?_ hnd2
    · intro n hn
      exact hdirs n ((sortDesc_perm ns).mem_iff.mp
        (List.drop_subset _ _ hn))
    · intro n hn
      exact hpos n ((sortDesc_perm ns).mem_iff.mp
        (List.drop_subset _ _ hn))

theorem qualSerial_some {g : FS} {root : FsPath} {e : String} {n : Int}
    (h : qualSerial g root e = some n) :
    0 ≤ n ∧ e = cpName n ∧
      g.isfile (root ++ [e, MODEL_DIR, SUCCESS_MARK_FILENAME]) = true := by
  unfold qualSerial at h
  rcases hp : _get_dir_serial e with err | m
  · rw [hp] at h
    cases h
  · rw [hp] at h
    replace h : (if 0 ≤ m ∧ e = cpName m ∧ g.isdir (root ++ [e]) = true ∧
        g.isfile (root ++ [e, MODEL_DIR, SUCCESS_MARK_FILENAME]) = true
      then some m else none) = some n := h
    by_cases hcond : 0 ≤ m ∧ e = cpName m ∧ g.isdir (root ++ [e]) = true ∧
        g.isfile (root ++ [e, MODEL_DIR, SUCCESS_MARK_FILENAME]) = true
    · rw [if_pos hcond] at h
      obtain rfl : m = n := by simpa using h
      exact ⟨hcond.1, hcond.2.1, hcond.2.2.2⟩
    · rw [if_neg hcond] at h
      cases h

theorem latestSpec_eq_of_mem_ub {g : FS} {root : FsPath} {m : Int}
    (hm : -1 ≤ m) (hin : m ∈ qualSerials g root)
    (hub : ∀ x ∈ qualSerials g root, x ≤ m) :
    latestSpec g root = m := by
  unfold latestSpec
  have h1 := (le_foldl_max (qualSerials g root) (-1)).2 m hin
  rcases foldl_max_mem (qualSerials g root) (-1) with h2 | h2
  · omega
  · have h3 := hub _ h2
    omega

theorem child_not_prefix_root (root : FsPath) (a : String) :
    (root ++ [a]).isPrefixOf root = false := by
  rw [Bool.eq_false_iff]
  intro h
  have := (List.isPrefixOf_iff_prefix.mp h).length_le
  simp at this

theorem resolver_after_retention {fs : FS} {root : FsPath}
    {args : List (String × String)} {prog : PyProgram} {ds : List Int}
    (hne : root ≠ []) (hdir : fs.isdir root = true)
    (hent : ∀ e ∈ fs.listdir root, ∃ n, 0 ≤ n ∧ e = cpName n ∧
      n ≤ latestSpec fs root)
    (hds0 : ∀ n ∈ ds, 0 ≤ n)
    (hdsr : (latestSpec fs root + 1) ∉ ds) :
    get_latest_checkpoint_serial (some root)
        (List.filter (fun e => ds.all (fun n =>
          !(root ++ [cpName n]).isPrefixOf e.1))
          (chiefState fs root args prog)) =
      Except.ok (latestSpec fs root + 1,
        List.filter (fun e => ds.all (fun n =>
          !(root ++ [cpName n]).isPrefixOf e.1))
          (chiefState fs root args prog)) ∧
    FS.isdir (List.filter (fun e => ds.all (fun n =>
        !(root ++ [cpName n]).isPrefixOf e.1))
        (chiefState fs root args prog))
      (root ++ [cpName (latestSpec fs root + 1)]) = true := by
  have hr : (-1 : Int) ≤ latestSpec fs root := latestSpec_ge
  have hall_of : ∀ p : FsPath,
      (∀ n ∈ ds, (root ++ [cpName n]).isPrefixOf p = false) →
      ds.all (fun n => !(root ++ [cpName n]).isPrefixOf p) = true := by
    intro p h
    rw [List.all_eq_true]
    intro n hn
    rw [h n hn]
    rfl
  have hpr_root : ds.all (fun n =>
      !(root ++ [cpName n]).isPrefixOf root) = true :=
    hall_of root (fun n _ => child_not_prefix_root root (cpName n))
  have hne_ds : ∀ n ∈ ds, cpName n ≠ cpName (latestSpec fs root + 1) := by
    intro n hn hc
    have hnx : n = latestSpec fs root + 1 :=
      cpName_injective (hds0 n hn) (by omega) hc
    rw [hnx] at hn
    exact hdsr hn
  have hpr_sdir : ds.all (fun n => !(root ++ [cpName n]).isPrefixOf
      (root ++ [cpName (latestSpec fs root + 1)])) = true := by
    refine hall_of _ ?_
    intro n hn
    rw [Bool.eq_false_iff]
    intro hc
    exact hne_ds n hn (prefix_eq_of_child hc)
  have hpr_mark : ds.all (fun n => !(root ++ [cpName n]).isPrefixOf
      (root ++ [cpName (latestSpec fs root + 1), MODEL_DIR,
        SUCCESS_MARK_FILENAME])) = true := by
    refine hall_of _ ?_
    intro n hn
    rw [Bool.eq_false_iff]
    intro hc
    exact hne_ds n hn (prefix_root_child hc)
  have hsd_mem : (root ++ [cpName (latestSpec fs root + 1)], false) ∈
      chiefState fs root args prog := by
    simp [chiefState, preMarkState, nextSdir]
  have hmk_mem : (root ++ [cpName (latestSpec fs root + 1), MODEL_DIR,
      SUCCESS_MARK_FILENAME], true) ∈ chiefState fs root args prog := by
    have hpath : root ++ [cpName (latestSpec fs root + 1), MODEL_DIR,
        SUCCESS_MARK_FILENAME] =
        (root ++ [cpName (latestSpec fs root + 1)]) ++ [ MODEL_DIR] ++
          [SUCCESS_MARK_FILENAME] := by simp
    rw [hpath]
    simp [chiefState, markEntry, nextSdir]
  have hdirg2 : FS.isdir (List.filter (fun e => ds.all (fun n =>
      !(root ++ [cpName n]).isPrefixOf e.1))
      (chiefState fs root args prog)) root = true := by
    rw [FS.isdir_iff_mem]
    refine List.mem_filter.mpr ⟨?_, hpr_root⟩
    have hmem : (root, false) ∈ fs := FS.isdir_iff_mem.mp hdir
    simp [chiefState, preMarkState, nextSdir, hmem]
  have hlist2 : FS.listdir (List.filter (fun e => ds.all (fun n =>
      !(root ++ [cpName n]).isPrefixOf e.1))
      (chiefState fs root args prog)) root =
      List.filter (fun x => ds.all (fun n => !(cpName n == x)))
        (fs.listdir root ++ [cpName (latestSpec fs root + 1)]) := by
    rw [listdir_filter_children, listdir_chiefState]
  have hEnt2 : ∀ e ∈ FS.listdir (List.filter (fun e => ds.all (fun n =>
      !(root ++ [cpName n]).isPrefixOf e.1))
      (chiefState fs root args prog)) root, EntryOk e := by
    intro e he
    rw [hlist2] at he
    have hm := (List.mem_filter.mp he).1
    rcases List.mem_append.mp hm with hm | hm
    · obtain ⟨n, hn0, rfl, -⟩ := hent e hm
      exact Or.inl ⟨n, hn0, rfl⟩
    · have : e = cpName (latestSpec fs root + 1) := by simpa using hm
      subst this
      exact Or.inl ⟨latestSpec fs root + 1, by omega, rfl⟩
  refine ⟨?_, by
    rw [FS.isdir_iff_mem]
    exact List.mem_filter.mpr ⟨hsd_mem, hpr_sdir⟩⟩
  rw [resolver_spec hne hdirg2 hEnt2]
  have hnew_listed : cpName (latestSpec fs root + 1) ∈
      FS.listdir (List.filter (fun e => ds.all (fun n =>
        !(root ++ [cpName n]).isPrefixOf e.1))
        (chiefState fs root args prog)) root := by
    rw [hlist2]
    refine List.mem_filter.mpr ⟨List.mem_append.mpr (Or.inr (by simp)), ?_⟩
    rw [List.all_eq_true]
    intro n hn
    have := hne_ds n hn
    simp [this]
  have hsdir2 : FS.isdir (List.filter (fun e => ds.all (fun n =>
      !(root ++ [cpName n]).isPrefixOf e.1))
      (chiefState fs root args prog))
      (root ++ [cpName (latestSpec fs root + 1)]) = true := by
    rw [FS.isdir_iff_mem]
    exact List.mem_filter.mpr ⟨hsd_mem, hpr_sdir⟩
  have hmark2 : FS.isfile (List.filter (fun e => ds.all (fun n =>
      !(root ++ [cpName n]).isPrefixOf e.1))
      (chiefState fs root args prog))
      (root ++ [cpName (latestSpec fs root + 1), MODEL_DIR,
        SUCCESS_MARK_FILENAME]) = true := by
    rw [FS.isfile_iff_mem]
    exact List.mem_filter.mpr ⟨hmk_mem, hpr_mark⟩
  have hqual : qualSerial (List.filter (fun e => ds.all (fun n =>
      !(root ++ [cpName n]).isPrefixOf e.1))
      (chiefState fs root args prog)) root
      (cpName (latestSpec fs root + 1)) =
      some (latestSpec fs root + 1) := by
    unfold qualSerial
    rw [get_dir_serial_cpName _ (by omega)]
    exact if_pos ⟨by omega, rfl, hsdir2, hmark2⟩
  have hin : latestSpec fs root + 1 ∈ qualSerials
      (List.filter (fun e => ds.all (fun n =>
        !(root ++ [cpName n]).isPrefixOf e.1))
        (chiefState fs root args prog)) root :=
    List.mem_filterMap.mpr ⟨cpName (latestSpec fs root + 1),
      hnew_listed, hqual⟩
  have hub : ∀ x ∈ qualSerials (List.filter (fun e => ds.all (fun n =>
      !(root ++ [cpName n]).isPrefixOf e.1))
      (chiefState fs root args prog)) root,
      x ≤ latestSpec fs root + 1 := by
    intro x hx
    obtain ⟨e, he, hqe⟩ := List.mem_filterMap.mp hx
    obtain ⟨hx0, rfl, -⟩ := qualSerial_some hqe
    rw [hlist2] at he
    have hm := (List.mem_filter.mp he).1
    rcases List.mem_append.mp hm with hm | hm
    · obtain ⟨n, hn0, hnn, hnr⟩ := hent _ hm
      have := cpName_injective hx0 hn0 hnn
      omega
    · have hmm : cpName x = cpName (latestSpec fs root + 1) := by
        simpa using hm
      have := cpName_injective hx0 (by omega) hmm
      omega
  rw [latestSpec_eq_of_mem_ub (by omega) hin hub]

theorem chief_save_then_resolve {fs : FS} {root : FsPath}
    {args : List (String × String)} {prog : PyProgram} {k : Int}
    (hW : fs.Wf) (hne : root ≠ []) (hdir : fs.isdir root = true)
    (hent : ∀ e ∈ fs.listdir root, ∃ n, 0 ≤ n ∧ e = cpName n ∧
      n ≤ latestSpec fs root)
    (hdirs : ∀ e ∈ fs.listdir root, fs.isdir (root ++ [e]) = true)
    (hk : 1 ≤ k)
    (hargsN : (args.map Prod.fst).Nodup)
    (hargsS : ∀ a ∈ args, a.1 ≠ SUCCESS_MARK_FILENAME)
    (hprogN : (eligNames prog).Nodup)
    (hprogS : ∀ x ∈ eligNames prog, x ≠ SUCCESS_MARK_FILENAME) :
    ∃ g2, save_checkpoint (some root) 0 (some args) (some prog) k fs =
        Except.ok ((), g2) ∧
      get_latest_checkpoint_serial (some root) g2 =
        Except.ok (latestSpec fs root + 1, g2) ∧
      g2.isdir (root ++ [cpName (latestSpec fs root + 1)]) = true := by
  obtain ⟨hrun, hWc⟩ := save_checkpoint_chief_steps k hW hne hdir hent
    hargsN hargsS hprogN hprogS
  obtain ⟨ns, hns0, hnsL⟩ := canon_listing
    (fun e he => Exists.imp (fun n h => ⟨h.1, h.2.1⟩) (hent e he))
  have hndL : (fs.listdir root).Nodup := listdir_nodup hW root
  rw [hnsL] at hndL
  have hnd : ns.Nodup := List.Nodup.of_map _ hndL
  have hr : (-1 : Int) ≤ latestSpec fs root := latestSpec_ge
  have hns_le : ∀ n ∈ ns, n ≤ latestSpec fs root := by
    intro n hn
    have hmem : cpName n ∈ fs.listdir root := by
      rw [hnsL]
      exact List.mem_map_of_mem _ hn
    obtain ⟨m, hm0, hmeq, hmr⟩ := hent _ hmem
    have := cpName_injective (hns0 n hn) hm0 hmeq
    omega
  have hlistC : (chiefState fs root args prog).listdir root =
      (ns ++ [latestSpec fs root + 1]).map cpName := by
    rw [listdir_chiefState, hnsL, List.map_append]
    rfl
  have hns'0 : ∀ n ∈ ns ++ [latestSpec fs root + 1], 0 ≤ n := by
    intro n hn
    rcases List.mem_append.mp hn with hn | hn
    · exact hns0 n hn
    · have : n = latestSpec fs root + 1 := by simpa using hn
      omega
  have hnd' : (ns ++ [latestSpec fs root + 1]).Nodup := by
    rw [List.nodup_append]
    refine ⟨hnd, List.nodup_singleton _, ?_⟩
    intro a ha hb
    have h1 := hns_le a ha
    have h2 : a = latestSpec fs root + 1 := by simpa using hb
    omega
  have hdirC : (chiefState fs root args prog).isdir root = true := by
    simp [chiefState, preMarkState, nextSdir, FS.isdir_append, hdir]
  have hdirsC : ∀ n ∈ ns ++ [latestSpec fs root + 1],
      (chiefState fs root args prog).isdir (root ++ [cpName n]) =
        true := by
    intro n hn
    rcases List.mem_append.mp hn with hn | hn
    · have hmem : cpName n ∈ fs.listdir root := by
        rw [hnsL]
        exact List.mem_map_of_mem _ hn
      have hd := hdirs _ hmem
      simp [chiefState, preMarkState, nextSdir, FS.isdir_append, hd]
    · have hx : n = latestSpec fs root + 1 := by simpa using hn
      subst hx
      rw [FS.isdir_iff_mem]
      simp [chiefState, preMarkState, nextSdir]
  have hscroll := scroll_canon k hdirC hlistC hns'0 hnd' hdirsC
  by_cases hle : (((ns ++ [latestSpec fs root + 1]).length : Int)) ≤ k
  · rw [if_pos hle] at hscroll
    refine ⟨chiefState fs root args prog, by rw [hrun, hscroll], ?_⟩
    have hfe : List.filter (fun e => ([] : List Int).all (fun n =>
        !(root ++ [cpName n]).isPrefixOf e.1))
        (chiefState fs root args prog) = chiefState fs root args prog :=
      List.filter_eq_self.mpr (fun a _ => rfl)
    rw [← hfe]
    exact resolver_after_retention hne hdir hent (by simp) (by simp)
  · rw [if_neg hle] at hscroll
    refine ⟨_, by rw [hrun, hscroll], ?_⟩
    refine resolver_after_retention hne hdir hent ?_ ?_
    · intro n hn
      exact hns'0 n ((sortDesc_perm _).mem_iff.mp
        (List.drop_subset _ _ hn))
    · refine strict_max_not_dropped ?_ ?_ hnd' ?_
      · exact List.mem_append.mpr (Or.inr (by simp))
      · intro x hx
        rcases List.mem_append.mp hx with hx | hx
        · have := hns_le x hx
          omega
        · have : x = latestSpec fs root + 1 := by simpa using hx
          omega
      · omega

/-- Counterexample to C2 as stated.  With stray root entries whose names
parse to large serials (`junk_10`, `junk_11`, `junk_12`), a chief save
cycle that completes fully (its success mark is written) allocates serial
`-1 + 1 = 0`, but the retention pass with `max_num_checkpoints = 3` then
counts the junk serials, keeps the top three `12, 11, 10` and deletes the
just-completed `checkpoint_0`; resolution afterwards returns `-1`, not
the serial of the completed save. -/
theorem C2_counterexample :
    ∃ g1 g2,
      get_latest_checkpoint_serial (some ["ckpt"])
        [(["ckpt"], false), (["ckpt", "junk_10"], false),
          (["ckpt", "junk_11"], false), (["ckpt", "junk_12"], false)] =
        Except.ok (-1, g1) ∧
      save_checkpoint (some ["ckpt"]) 0 (some [("step", "5")])
        (some [⟨"w", VarType.LOD_TENSOR, true⟩]) 3
        [(["ckpt"], false), (["ckpt", "junk_10"], false),
          (["ckpt", "junk_11"], false), (["ckpt", "junk_12"], false)] =
        Except.ok ((), g2) ∧
      FS.existsP g2 ["ckpt", "checkpoint_0"] = false ∧
      get_latest_checkpoint_serial (some ["ckpt"]) g2 =
        Except.ok (-1, g2) ∧
      (-1 : Int) ≠ -1 + 1 := by
  refine ⟨[(["ckpt"], false), (["ckpt", "junk_10"], false),
      (["ckpt", "junk_11"], false), (["ckpt", "junk_12"], false),
      (["ckpt", "checkpoint_10"], false), (["ckpt", "checkpoint_11"],
        false), (["ckpt", "checkpoint_12"], false)],
    [(["ckpt"], false), (["ckpt", "junk_10"], false),
      (["ckpt", "junk_11"], false), (["ckpt", "junk_12"], false),
      (["ckpt", "checkpoint_10"], false), (["ckpt", "checkpoint_11"],
        false), (["ckpt", "checkpoint_12"], false)],
    ?_, ?_, ?_, ?_, ?_⟩ <;> decide

/-- C2: a serial directory without a success mark is invisible to
resolution, but the other half of the claim fails as stated (see
C2_counterexample): stray parseable root entries can make the retention
pass inside a fully-completed save delete that same checkpoint, after
which resolution does not return its serial.  Amended to roots whose
listed entries are all canonical serial directories `checkpoint_n` with
`n` at most the current latest serial: a fully completed chief save
cycle allocates serial `r + 1` (`r` the previous resolver value) and
resolution afterwards returns exactly `r + 1`; a save cycle interrupted
just before the success mark is written leaves resolution returning the
previous value `r` and never the serial `r + 1` of the half-written
directory. -/
theorem C2_resolution_tracks_saves {fs : FS} {root : FsPath}
    {args : List (String × String)} {prog : PyProgram} {k : Int}
    (hW : fs.Wf) (hne : root ≠ []) (hdir : fs.isdir root = true)
    (hent : ∀ e ∈ fs.listdir root, ∃ n, 0 ≤ n ∧ e = cpName n ∧
      n ≤ latestSpec fs root)
    (hdirs : ∀ e ∈ fs.listdir root, fs.isdir (root ++ [e]) = true)
    (hk : 1 ≤ k)
    (hargsN : (args.map Prod.fst).Nodup)
    (hargsS : ∀ a ∈ args, a.1 ≠ SUCCESS_MARK_FILENAME)
    (hprogN : (eligNames prog).Nodup)
    (hprogS : ∀ x ∈ eligNames prog, x ≠ SUCCESS_MARK_FILENAME) :
    (∃ g2, save_checkpoint (some root) 0 (some args) (some prog) k fs =
        Except.ok ((), g2) ∧
      get_latest_checkpoint_serial (some root) g2 =
        Except.ok (latestSpec fs root + 1, g2)) ∧
    (∃ g3, save_checkpoint_interrupted root 0 (some args) (some prog)
        fs = Except.ok ((), g3) ∧
      get_latest_checkpoint_serial (some root) g3 =
        Except.ok (latestSpec fs root, g3) ∧
      latestSpec fs root ≠ latestSpec fs root + 1) := by
  obtain ⟨g2, hs1, hs2, -⟩ := chief_save_then_resolve hW hne hdir hent
    hdirs hk hargsN hargsS hprogN hprogS
  refine ⟨⟨g2, hs1, hs2⟩, ?_⟩
  obtain ⟨hrun, hWp⟩ := save_checkpoint_interrupted_spec hW hne hdir hent
    hargsN hargsS hprogN
  refine ⟨preMarkState fs root args prog, hrun, ?_, by omega⟩
  refine resolver_on_preMark hW hne hdir ?_ ?_ hprogS
  · intro e he
    obtain ⟨n, h0, he2, -⟩ := hent e he
    exact Or.inl ⟨n, h0, he2⟩
  · exact next_serial_fresh latestSpec_ge hent

/-- Witness for C2: from a well-formed root holding no entries, a chief
save with retention 1 completes and resolution returns the allocated
serial; the interrupted variant leaves resolution at the previous value. -/
theorem C2_witness :
    FS.Wf [((["ckpt"] : FsPath), false)] ∧
    ((∃ g2, save_checkpoint (some ["ckpt"]) 0 (some [("step", "5")])
        (some [⟨"w", VarType.LOD_TENSOR, true⟩]) 1 [(["ckpt"], false)] =
        Except.ok ((), g2) ∧
      get_latest_checkpoint_serial (some ["ckpt"]) g2 =
        Except.ok (latestSpec [(["ckpt"], false)] ["ckpt"] + 1, g2)) ∧
     (∃ g3, save_checkpoint_interrupted ["ckpt"] 0
        (some [("step", "5")])
        (some [⟨"w", VarType.LOD_TENSOR, true⟩]) [(["ckpt"], false)] =
        Except.ok ((), g3) ∧
      get_latest_checkpoint_serial (some ["ckpt"]) g3 =
        Except.ok (latestSpec [(["ckpt"], false)] ["ckpt"], g3) ∧
      latestSpec [(["ckpt"], false)] ["ckpt"] ≠
        latestSpec [(["ckpt"], false)] ["ckpt"] + 1)) := by
  have hW : FS.Wf [((["ckpt"] : FsPath), false)] := by
    constructor
    · intro e he kk hk
      rw [List.mem_singleton] at he
      subst he
      simp at hk
    · decide
  have hemp : FS.listdir [((["ckpt"] : FsPath), false)] ["ckpt"] =
      ([] : List String) := rfl
  refine ⟨hW, C2_resolution_tracks_saves hW (by decide) (by decide)
    ?_ ?_ (by decide) (by decide) (by decide) (by decide) (by decide)⟩
  · intro e he
    rw [hemp] at he
    cases he
  · intro e he
    rw [hemp] at he
    cases he

/-- Counterexample to C3 as stated: the retention pass does not skip
unparseable entries.  On a root containing a stray file `notes.txt`
(whose name has no separator), `_scroll_delete` raises the ValueError
from the tuple unpack in `_get_dir_serial` instead of performing a
no-op. -/
theorem C3_counterexample :
    _scroll_delete ["ckpt"] 3
        [(["ckpt"], false), (["ckpt", "notes.txt"], true)] =
      Except.error (PyErr.valueError "unpack",
        [(["ckpt"], false), (["ckpt", "notes.txt"], true)]) ∧
    ∀ g2, _scroll_delete ["ckpt"] 3
        [(["ckpt"], false), (["ckpt", "notes.txt"], true)] ≠
      Except.ok ((), g2) := by
  have h1 : _scroll_delete ["ckpt"] 3
      [(["ckpt"], false), (["ckpt", "notes.txt"], true)] =
      Except.error (PyErr.valueError "unpack",
        [(["ckpt"], false), (["ckpt", "notes.txt"], true)]) := by decide
  refine ⟨h1, ?_⟩
  intro g2 hg
  rw [h1] at hg
  cases hg

/-- C3: amended.  As stated the claim fails because unparseable entries
crash the pass rather than being skipped (see C3_counterexample).  On a
root whose entries are exactly the canonical serial directories of the
distinct nonnegative serials `ns`, the retention pass is a no-op when
their count is at most `max_num_checkpoints`, and otherwise succeeds
keeping exactly the `max_num_checkpoints` highest serials: the surviving
listing is a permutation of the top of the descending sort, has exactly
`max_num_checkpoints` entries, every path under a dropped serial
directory is removed, and every dropped serial is at most every kept
serial. -/
theorem C3_scroll_retention {g : FS} {root : FsPath} {ns : List Int}
    (k : Int)
    (hdir : g.isdir root = true)
    (hlist : g.listdir root = ns.map cpName)
    (hpos : ∀ n ∈ ns, 0 ≤ n)
    (hnd : ns.Nodup)
    (hdirs : ∀ n ∈ ns, g.isdir (root ++ [cpName n]) = true) :
    ((ns.length : Int) ≤ k → _scroll_delete root k g =
      Except.ok ((), g)) ∧
    (0 ≤ k → k < (ns.length : Int) → ∃ g2,
      _scroll_delete root k g = Except.ok ((), g2) ∧
      (FS.listdir g2 root).Perm
        (((sortDesc ns).take k.toNat).map cpName) ∧
      (FS.listdir g2 root).length = k.toNat ∧
      (∀ n ∈ (sortDesc ns).drop k.toNat, ∀ p,
        (root ++ [cpName n]).isPrefixOf p = true →
          FS.existsP g2 p = false) ∧
      (∀ a ∈ (sortDesc ns).take k.toNat,
        ∀ m ∈ (sortDesc ns).drop k.toNat, m ≤ a)) := by
  have hscroll := scroll_canon k hdir hlist hpos hnd hdirs
  constructor
  · intro hle
    rw [if_pos hle] at hscroll
    exact hscroll
  · intro hk0 hlt
    rw [if_neg (by omega)] at hscroll
    have hsdnd : (sortDesc ns).Nodup :=
      (sortDesc_perm ns).nodup_iff.mpr hnd
    have hsplit : (sortDesc ns).take k.toNat ++
        (sortDesc ns).drop k.toNat = sortDesc ns :=
      List.take_append_drop _ _
    have hdisj : ∀ a, a ∈ (sortDesc ns).take k.toNat →
        a ∈ (sortDesc ns).drop k.toNat → False := by
      have h := hsdnd
      rw [← hsplit] at h
      exact fun a ha hb => (List.nodup_append.mp h).2.2 ha hb
    have hpredT : ∀ a ∈ (sortDesc ns).take k.toNat,
        (((sortDesc ns).drop k.toNat).all
          (fun n => !(cpName n == cpName a))) = true := by
      intro a ha
      rw [List.all_eq_true]
      intro n hn
      have hne2 : ¬(cpName n == cpName a) = true := by
        intro hc
        have h0n := hpos n ((sortDesc_perm ns).mem_iff.mp
          (List.drop_subset _ _ hn))
        have h0a := hpos a ((sortDesc_perm ns).mem_iff.mp
          (List.take_subset _ _ ha))
        have hna := cpName_injective h0n h0a (by simpa using hc)
        subst hna
        exact hdisj n ha hn
      simp only [Bool.not_eq_eq_eq_not, Bool.not_true]
      exact Bool.eq_false_iff.mpr hne2
    have hpredD : ∀ a ∈ (sortDesc ns).drop k.toNat,
        (((sortDesc ns).drop k.toNat).all
          (fun n => !(cpName n == cpName a))) = false := by
      intro a ha
      rw [Bool.eq_false_iff]
      intro hcc
      rw [List.all_eq_true] at hcc
      have := hcc a ha
      simp at this
    have hPerm : FS.listdir (List.filter (fun e =>
        ((sortDesc ns).drop k.toNat).all (fun n =>
          !(root ++ [cpName n]).isPrefixOf e.1)) g) root |>.Perm
        (((sortDesc ns).take k.toNat).map cpName) := by
      rw [listdir_filter_children, hlist, List.map_filter]
      refine List.Perm.map cpName ?_
      refine (List.Perm.filter _ (sortDesc_perm ns).symm).trans ?_
      have hform : List.filter ((fun x =>
          ((sortDesc ns).drop k.toNat).all (fun n =>
            !(cpName n == x))) ∘ cpName) (sortDesc ns) =
          List.filter ((fun x =>
            ((sortDesc ns).drop k.toNat).all (fun n =>
              !(cpName n == x))) ∘ cpName)
            ((sortDesc ns).take k.toNat ++
              (sortDesc ns).drop k.toNat) := by
        rw [hsplit]
      rw [hform, List.filter_append]
      have hft : List.filter ((fun x =>
          ((sortDesc ns).drop k.toNat).all (fun n =>
            !(cpName n == x))) ∘ cpName)
          ((sortDesc ns).take k.toNat) =
          (sortDesc ns).take k.toNat :=
        List.filter_eq_self.mpr (fun a ha => hpredT a ha)
      have hfd : List.filter ((fun x =>
          ((sortDesc ns).drop k.toNat).all (fun n =>
            !(cpName n == x))) ∘ cpName)
          ((sortDesc ns).drop k.toNat) = [] := by
        refine List.filter_eq_nil.mpr ?_
        intro a ha hc
        have hc2 : (((sortDesc ns).drop k.toNat).all
            (fun n => !(cpName n == cpName a))) = true := hc
        rw [hpredD a ha] at hc2
        cases hc2
      rw [hft, hfd, List.append_nil]
    refine ⟨_, hscroll, hPerm, ?_, ?_, ?_⟩
    · rw [hPerm.length_eq, List.length_map, List.length_take]
      have hlen := (sortDesc_perm ns).length_eq
      omega
    · intro n hn p hp
      refine existsP_false_of_ne ?_
      intro ent hent hc
      have hpred := (List.mem_filter.mp hent).2
      rw [List.all_eq_true] at hpred
      have h2 := hpred n hn
      rw [hc, hp] at h2
      simp at h2
    · intro a ha m hm
      have hsort := sortDesc_sorted ns
      rw [← hsplit] at hsort
      exact (List.pairwise_append.mp hsort).2.2 a ha m hm

/-- Witness for C3: on a root holding serial directories 0, 1, 2, the
retention characterization applies with retention 2 and all hypotheses
hold by computation. -/
theorem C3_witness :
    FS.listdir [(["ckpt"], false), (["ckpt", "checkpoint_0"], false),
        (["ckpt", "checkpoint_1"], false),
        (["ckpt", "checkpoint_2"], false)] ["ckpt"] =
      ([0, 1, 2] : List Int).map cpName ∧
    ((((([0, 1, 2] : List Int)).length : Int) ≤ 2 →
      _scroll_delete ["ckpt"] 2
        [(["ckpt"], false), (["ckpt", "checkpoint_0"], false),
          (["ckpt", "checkpoint_1"], false),
          (["ckpt", "checkpoint_2"], false)] =
        Except.ok ((), [(["ckpt"], false),
          (["ckpt", "checkpoint_0"], false),
          (["ckpt", "checkpoint_1"], false),
          (["ckpt", "checkpoint_2"], false)])) ∧
    (0 ≤ (2 : Int) → (2 : Int) < ((([0, 1, 2] : List Int)).length : Int) →
      ∃ g2, _scroll_delete ["ckpt"] 2
        [(["ckpt"], false), (["ckpt", "checkpoint_0"], false),
          (["ckpt", "checkpoint_1"], false),
          (["ckpt", "checkpoint_2"], false)] = Except.ok ((), g2) ∧
      (FS.listdir g2 ["ckpt"]).Perm
        (((sortDesc [0, 1, 2]).take (2 : Int).toNat).map cpName) ∧
      (FS.listdir g2 ["ckpt"]).length = (2 : Int).toNat ∧
      (∀ n ∈ (sortDesc [0, 1, 2]).drop (2 : Int).toNat, ∀ p,
        (["ckpt"] ++ [cpName n]).isPrefixOf p = true →
          FS.existsP g2 p = false) ∧
      (∀ a ∈ (sortDesc [0, 1, 2]).take (2 : Int).toNat,
        ∀ m ∈ (sortDesc [0, 1, 2]).drop (2 : Int).toNat, m ≤ a))) :=
  ⟨by decide, C3_scroll_retention 2 (by decide) (by decide) (by decide)
    (by decide) (by decide)⟩

/-- C4: save_checkpoint allocates the serial resolver + 1.  On a
canonical root, resolution before the save returns `r`, the completed
save creates the directory of serial `r + 1` and resolution afterwards
returns `r + 1`; concretely, from an empty root four chief saves with
retention 3 allocate serials 0, 1, 2, 3 in order, the fourth deletes the
directory of serial 0, exactly `checkpoint_1, checkpoint_2,
checkpoint_3` remain and resolution returns 3. -/
theorem C4_allocation_increments {fs : FS} {root : FsPath}
    {args : List (String × String)} {prog : PyProgram} {k : Int}
    (hW : fs.Wf) (hne : root ≠ []) (hdir : fs.isdir root = true)
    (hent : ∀ e ∈ fs.listdir root, ∃ n, 0 ≤ n ∧ e = cpName n ∧
      n ≤ latestSpec fs root)
    (hdirs : ∀ e ∈ fs.listdir root, fs.isdir (root ++ [e]) = true)
    (hk : 1 ≤ k)
    (hargsN : (args.map Prod.fst).Nodup)
    (hargsS : ∀ a ∈ args, a.1 ≠ SUCCESS_MARK_FILENAME)
    (hprogN : (eligNames prog).Nodup)
    (hprogS : ∀ x ∈ eligNames prog, x ≠ SUCCESS_MARK_FILENAME) :
    (get_latest_checkpoint_serial (some root) fs =
        Except.ok (latestSpec fs root, fs) ∧
      ∃ g2, save_checkpoint (some root) 0 (some args) (some prog) k fs =
        Except.ok ((), g2) ∧
      g2.isdir (root ++ [cpName (latestSpec fs root + 1)]) = true ∧
      get_latest_checkpoint_serial (some root) g2 =
        Except.ok (latestSpec fs root + 1, g2)) ∧
    ((chiefSave3 [(["ckpt"], false)]).isdir
       ["ckpt", "checkpoint_0"] = true ∧
     (chiefSave3 (chiefSave3 [(["ckpt"], false)])).isdir
       ["ckpt", "checkpoint_1"] = true ∧
     (chiefSave3 (chiefSave3 (chiefSave3 [(["ckpt"], false)]))).isdir
       ["ckpt", "checkpoint_2"] = true ∧
     save_checkpoint (some ["ckpt"]) 0 (some [("step", "5")])
       (some [⟨"w", VarType.LOD_TENSOR, true⟩]) 3
       (chiefSave3 (chiefSave3 (chiefSave3 [(["ckpt"], false)]))) =
       Except.ok ((), chiefSave3 (chiefSave3 (chiefSave3
         (chiefSave3 [(["ckpt"], false)])))) ∧
     (chiefSave3 (chiefSave3 (chiefSave3 (chiefSave3
       [(["ckpt"], false)])))).isdir ["ckpt", "checkpoint_3"] = true ∧
     FS.existsP (chiefSave3 (chiefSave3 (chiefSave3 (chiefSave3
       [(["ckpt"], false)])))) ["ckpt", "checkpoint_0"] = false ∧
     FS.listdir (chiefSave3 (chiefSave3 (chiefSave3 (chiefSave3
       [(["ckpt"], false)])))) ["ckpt"] =
       ["checkpoint_1", "checkpoint_2", "checkpoint_3"] ∧
     get_latest_checkpoint_serial (some ["ckpt"])
       (chiefSave3 (chiefSave3 (chiefSave3 (chiefSave3
         [(["ckpt"], false)])))) =
       Except.ok (3, chiefSave3 (chiefSave3 (chiefSave3 (chiefSave3
         [(["ckpt"], false)]))))) := by
  constructor
  · have hEntryOk : ∀ e ∈ fs.listdir root, EntryOk e := by
      intro e he
      obtain ⟨n, h0, he2, -⟩ := hent e he
      exact Or.inl ⟨n, h0, he2⟩
    refine ⟨resolver_spec hne hdir hEntryOk, ?_⟩
    obtain ⟨g2, hs1, hs2, hs3⟩ := chief_save_then_resolve hW hne hdir
      hent hdirs hk hargsN hargsS hprogN hprogS
    exact ⟨g2, hs1, hs3, hs2⟩
  · refine ⟨?_, ?_, ?_, ?_, ?_, ?_, ?_, ?_⟩ <;> decide

/-- Witness for C4: from a well-formed empty root, resolution returns
the prior value, a chief save with retention 2 creates the next serial
directory and resolution then returns its serial. -/
theorem C4_witness :
    FS.Wf [((["out"] : FsPath), false)] ∧
    ((get_latest_checkpoint_serial (some ["out"]) [(["out"], false)] =
        Except.ok (latestSpec [(["out"], false)] ["out"],
          [(["out"], false)]) ∧
      ∃ g2, save_checkpoint (some ["out"]) 0 (some [("epoch", "7")])
        (some [⟨"b", VarType.LOD_TENSOR, true⟩]) 2 [(["out"], false)] =
        Except.ok ((), g2) ∧
      g2.isdir (["out"] ++
        [cpName (latestSpec [(["out"], false)] ["out"] + 1)]) = true ∧
      get_latest_checkpoint_serial (some ["out"]) g2 =
        Except.ok (latestSpec [(["out"], false)] ["out"] + 1, g2)) ∧
    ((chiefSave3 [(["ckpt"], false)]).isdir
       ["ckpt", "checkpoint_0"] = true ∧
     (chiefSave3 (chiefSave3 [(["ckpt"], false)])).isdir
       ["ckpt", "checkpoint_1"] = true ∧
     (chiefSave3 (chiefSave3 (chiefSave3 [(["ckpt"], false)]))).isdir
       ["ckpt", "checkpoint_2"] = true ∧
     save_checkpoint (some ["ckpt"]) 0 (some [("step", "5")])
       (some [⟨"w", VarType.LOD_TENSOR, true⟩]) 3
       (chiefSave3 (chiefSave3 (chiefSave3 [(["ckpt"], false)]))) =
       Except.ok ((), chiefSave3 (chiefSave3 (chiefSave3
         (chiefSave3 [(["ckpt"], false)])))) ∧
     (chiefSave3 (chiefSave3 (chiefSave3 (chiefSave3
       [(["ckpt"], false)])))).isdir ["ckpt", "checkpoint_3"] = true ∧
     FS.existsP (chiefSave3 (chiefSave3 (chiefSave3 (chiefSave3
       [(["ckpt"], false)])))) ["ckpt", "checkpoint_0"] = false ∧
     FS.listdir (chiefSave3 (chiefSave3 (chiefSave3 (chiefSave3
       [(["ckpt"], false)])))) ["ckpt"] =
       ["checkpoint_1", "checkpoint_2", "checkpoint_3"] ∧
     get_latest_checkpoint_serial (some ["ckpt"])
       (chiefSave3 (chiefSave3 (chiefSave3 (chiefSave3
         [(["ckpt"], false)])))) =
       Except.ok (3, chiefSave3 (chiefSave3 (chiefSave3 (chiefSave3
         [(["ckpt"], false)])))))) := by
  have hW : FS.Wf [((["out"] : FsPath), false)] := by
    constructor
    · intro e he kk hk
      rw [List.mem_singleton] at he
      subst he
      simp at hk
    · decide
  have hemp : FS.listdir [((["out"] : FsPath), false)] ["out"] =
      ([] : List String) := rfl
  refine ⟨hW, C4_allocation_increments hW (by decide) (by decide)
    ?_ ?_ (by decide) (by decide) (by decide) (by decide) (by decide)⟩
  · intro e he
    rw [hemp] at he
    cases he
  · intro e he
    rw [hemp] at he
    cases he

/-- C9: calling save_checkpoint with `trainer_args` omitted (`None`)
always raises AssertionError from the assert in save_trainer_args, for
every trainer id and retention count: on a canonical root the run stops
with exactly the new serial directory created and no file of any kind
written, so trainer arguments are mandatory in practice. -/
theorem C9_none_trainer_args_asserts {fs : FS} {root : FsPath}
    {tid k : Int} {mprog : Option PyProgram}
    (hW : fs.Wf) (hne : root ≠ []) (hdir : fs.isdir root = true)
    (hent : ∀ e ∈ fs.listdir root, ∃ n, 0 ≤ n ∧ e = cpName n ∧
      n ≤ latestSpec fs root) :
    save_checkpoint (some root) tid none mprog k fs =
      Except.error (PyErr.assertionError,
        fs ++ [(root ++ [cpName (latestSpec fs root + 1)], false)]) ∧
    (fs ++ [(root ++ [cpName (latestSpec fs root + 1)],
      false)]).isdir (root ++ [cpName (latestSpec fs root + 1)]) =
      true ∧
    ∀ p, (fs ++ [(root ++ [cpName (latestSpec fs root + 1)],
      false)]).isfile p = fs.isfile p := by
  have hEntryOk : ∀ e ∈ fs.listdir root, EntryOk e := by
    intro e he
    obtain ⟨n, hn0, heq, -⟩ := hent e he
    exact Or.inl ⟨n, hn0, heq⟩
  have hfreshS : fs.existsP (root ++ [cpName (latestSpec fs root + 1)]) =
      false := next_serial_fresh latestSpec_ge hent
  refine ⟨?_, ?_, ?_⟩
  · simp only [save_checkpoint]
    rw [FsM.bind_ok (rfl : os_isdir root fs =
      Except.ok (fs.isdir root, fs))]
    rw [hdir]
    show FsM.bind (if (true : Bool) = true then FsM.pure ()
      else os_makedirs root) _ fs = _
    rw [FsM.bind_ok (show (if (true : Bool) = true then FsM.pure ()
        else os_makedirs root) fs = Except.ok ((), fs) by
      rw [if_pos rfl]; rfl)]
    show FsM.bind (get_latest_checkpoint_serial (some root)) _ fs = _
    rw [FsM.bind_ok (resolver_spec hne hdir hEntryOk)]
    show FsM.bind (_get_serial_dir root (latestSpec fs root + 1)) _ fs = _
    rw [FsM.bind_ok (get_serial_dir_creates
      (by rw [FS.not_isdir_of_not_existsP hfreshS]; simp)
      (makedirs_child_ok hW hdir hfreshS))]
    show FsM.bind (save_trainer_args
      (root ++ [cpName (latestSpec fs root + 1)]) tid none) _ _ = _
    exact FsM.bind_err rfl
  · rw [FS.isdir_append, Bool.or_eq_true]
    right
    simp [FS.isdir]
  · intro p
    rw [FS.isfile_append]
    have hf : FS.isfile [(root ++ [cpName (latestSpec fs root + 1)],
        false)] p = false := by
      simp [FS.isfile]
    rw [hf, Bool.or_false]

/-- Witness for C9: on a well-formed empty root, the omitted-args save
raises AssertionError with only `checkpoint_0` newly created. -/
theorem C9_witness :
    FS.Wf [((["ckpt"] : FsPath), false)] ∧
    (save_checkpoint (some ["ckpt"]) 7 none none 3
        [(["ckpt"], false)] =
      Except.error (PyErr.assertionError,
        [(["ckpt"], false)] ++ [(["ckpt"] ++
          [cpName (latestSpec [(["ckpt"], false)] ["ckpt"] + 1)],
          false)]) ∧
    FS.isdir ([(["ckpt"], false)] ++ [(["ckpt"] ++
      [cpName (latestSpec [(["ckpt"], false)] ["ckpt"] + 1)],
      false)]) (["ckpt"] ++
      [cpName (latestSpec [(["ckpt"], false)] ["ckpt"] + 1)]) = true ∧
    ∀ p, FS.isfile ([(["ckpt"], false)] ++ [(["ckpt"] ++
      [cpName (latestSpec [(["ckpt"], false)] ["ckpt"] + 1)],
      false)]) p = FS.isfile [(["ckpt"], false)] p) := by
  have hW : FS.Wf [((["ckpt"] : FsPath), false)] := by
    constructor
    · intro e he kk hk
      rw [List.mem_singleton] at he
      subst he
      simp at hk
    · decide
  have hemp : FS.listdir [((["ckpt"] : FsPath), false)] ["ckpt"] =
      ([] : List String) := rfl
  refine ⟨hW, C9_none_trainer_args_asserts hW (by decide) (by decide) ?_⟩
  intro e he
  rw [hemp] at he
  cases he

/-! ### Error classification along the load path -/

theorem makedirs_cases (fs : FS) (p : FsPath) :
    (∃ fs2, fs.makedirs p = Except.ok fs2) ∨
    (∃ msg, fs.makedirs p = Except.error (PyErr.osError msg)) := by
  unfold FS.makedirs
  by_cases h1 : fs.existsP p = true
  · right
    exact ⟨_, by rw [if_pos h1]⟩
  · rw [if_neg h1]
    by_cases h2 : (pathPrefixes p).any fs.isfile = true
    · right
      exact ⟨_, by rw [if_pos h2]⟩
    · left
      exact ⟨_, by rw [if_neg h2]⟩

theorem os_makedirs_cases (p : FsPath) (fs : FS) :
    (∃ fs2, os_makedirs p fs = Except.ok ((), fs2)) ∨
    (∃ msg, os_makedirs p fs =
      Except.error (PyErr.osError msg, fs)) := by
  unfold os_makedirs FsM.liftFs
  rcases makedirs_cases fs p with ⟨fs2, h⟩ | ⟨msg, h⟩
  · left
    refine ⟨fs2, ?_⟩
    show (match fs.makedirs p with
      | Except.ok fs3 => Except.ok ((), fs3)
      | Except.error e => Except.error (e, fs)) = Except.ok ((), fs2)
    rw [h]
  · right
    refine ⟨msg, ?_⟩
    show (match fs.makedirs p with
      | Except.ok fs3 => Except.ok ((), fs3)
      | Except.error e => Except.error (e, fs)) =
        Except.error (PyErr.osError msg, fs)
    rw [h]

theorem get_serial_dir_cases (cdir : FsPath) (s : Int) (fs : FS) :
    (∃ fs2, _get_serial_dir cdir s fs =
      Except.ok (cdir ++ [cpName s], fs2)) ∨
    (∃ msg fs2, _get_serial_dir cdir s fs =
      Except.error (PyErr.osError msg, fs2)) := by
  unfold _get_serial_dir
  rw [FsM.bind_ok (rfl : os_isdir (cdir ++ [cpName s]) fs =
    Except.ok (fs.isdir (cdir ++ [cpName s]), fs))]
  by_cases hd : fs.isdir (cdir ++ [cpName s]) = true
  · rw [hd]
    left
    exact ⟨fs, by simp [FsM.bind, FsM.pure]⟩
  · rw [Bool.not_eq_true] at hd
    rw [hd]
    rcases os_makedirs_cases (cdir ++ [cpName s]) fs with
      ⟨fs2, h⟩ | ⟨msg, h⟩
    · left
      refine ⟨fs2, ?_⟩
      rw [FsM.bind_ok (show (if (false : Bool) = true then FsM.pure ()
          else os_makedirs (cdir ++ [cpName s])) fs =
          Except.ok ((), fs2) by
        rw [if_neg Bool.false_ne_true]; exact h)]
      rfl
    · right
      refine ⟨msg, fs, ?_⟩
      rw [FsM.bind_err (show (if (false : Bool) = true then FsM.pure ()
          else os_makedirs (cdir ++ [cpName s])) fs =
          Except.error (PyErr.osError msg, fs) by
        rw [if_neg Bool.false_ne_true]; exact h)]

theorem get_model_dir_cases (d : FsPath) (fs : FS) :
    (∃ fs2, _get_model_dir d fs =
      Except.ok (d ++ [ MODEL_DIR], fs2)) ∨
    (∃ msg fs2, _get_model_dir d fs =
      Except.error (PyErr.osError msg, fs2)) := by
  unfold _get_model_dir
  rw [FsM.bind_ok (rfl : os_isdir (d ++ [ MODEL_DIR]) fs =
    Except.ok (fs.isdir (d ++ [ MODEL_DIR]), fs))]
  by_cases hd : fs.isdir (d ++ [ MODEL_DIR]) = true
  · rw [hd]
    left
    exact ⟨fs, by simp [FsM.bind, FsM.pure]⟩
  · rw [Bool.not_eq_true] at hd
    rw [hd]
    rcases os_makedirs_cases (d ++ [ MODEL_DIR]) fs with
      ⟨fs2, h⟩ | ⟨msg, h⟩
    · left
      refine ⟨fs2, ?_⟩
      rw [FsM.bind_ok (show (if (false : Bool) = true then FsM.pure ()
          else os_makedirs (d ++ [ MODEL_DIR])) fs =
          Except.ok ((), fs2) by
        rw [if_neg Bool.false_ne_true]; exact h)]
      rfl
    · right
      refine ⟨msg, fs, ?_⟩
      rw [FsM.bind_err (show (if (false : Bool) = true then FsM.pure ()
          else os_makedirs (d ++ [ MODEL_DIR])) fs =
          Except.error (PyErr.osError msg, fs) by
        rw [if_neg Bool.false_ne_true]; exact h)]

theorem executorRunLoad_no_value :
    ∀ (paths : List FsPath) (fs : FS),
      ¬isValueError (executorRunLoad paths fs) := by
  intro paths
  induction paths with
  | nil =>
    rintro fs ⟨msg, fs2, h⟩
    cases h
  | cons p rest ih =>
    intro fs h
    have h2 : (if fs.isfile p = true then executorRunLoad rest fs
        else Except.error (PyErr.notFound "load: no such file", fs)) =
        executorRunLoad (p :: rest) fs := rfl
    by_cases hp : fs.isfile p = true
    · rw [if_pos hp] at h2
      rw [← h2] at h
      exact ih fs h
    · rw [if_neg hp] at h2
      obtain ⟨msg, fs2, hx⟩ := h
      rw [← h2] at hx
      cases hx

theorem executorRunLoad_ok_iff :
    ∀ (paths : List FsPath) (fs : FS),
      executorRunLoad paths fs = Except.ok ((), fs) ↔
        ∀ p ∈ paths, fs.isfile p = true := by
  intro paths
  induction paths with
  | nil =>
    intro fs
    constructor
    · intro h q hq
      cases hq
    · intro h
      rfl
  | cons p rest ih =>
    intro fs
    have h2 : executorRunLoad (p :: rest) fs =
        (if fs.isfile p = true then executorRunLoad rest fs
          else Except.error (PyErr.notFound "load: no such file", fs)) :=
      rfl
    by_cases hp : fs.isfile p = true
    · rw [h2, if_pos hp, ih fs]
      constructor
      · intro h q hq
        rcases List.mem_cons.mp hq with rfl | hq
        · exact hp
        · exact h q hq
      · intro h q hq
        exact h q (List.mem_cons_of_mem p hq)
    · rw [h2, if_neg hp]
      constructor
      · intro h
        cases h
      · intro h
        exact absurd (h p (List.mem_cons_self p rest)) hp

theorem load_checkpoint_no_value {cdir : FsPath} {s : Int} (hs : 0 ≤ s)
    (prog : PyProgram) (fs : FS) :
    ¬isValueError (load_checkpoint (some cdir) (some s) (some prog)
      fs) := by
  intro h
  simp only [load_checkpoint] at h
  rw [if_neg (by omega : ¬s < 0)] at h
  rcases get_serial_dir_cases cdir s fs with ⟨fs2, hg⟩ | ⟨msg, fs2, hg⟩
  · rw [FsM.bind_ok hg] at h
    replace h : isValueError (FsM.bind
        (_get_model_dir (cdir ++ [cpName s]))
        (fun d => load_vars d (some prog) none _is_checkpoint_var)
        fs2) := h
    rcases get_model_dir_cases (cdir ++ [cpName s]) fs2 with
      ⟨fs3, hm⟩ | ⟨msg, fs3, hm⟩
    · rw [FsM.bind_ok hm] at h
      replace h : isValueError (executorRunLoad
          (saveOpPaths (cdir ++ [cpName s] ++ [ MODEL_DIR])
            (prog.filter _is_checkpoint_var)) fs3) := h
      exact executorRunLoad_no_value _ fs3 h
    · rw [FsM.bind_err hm] at h
      obtain ⟨m2, f2, hx⟩ := h
      exact absurd hx (by simp)
  · rw [FsM.bind_err hg] at h
    obtain ⟨m2, f2, hx⟩ := h
    exact absurd hx (by simp)

/-- C7: load_checkpoint raises ValueError exactly for a null directory,
a null or negative serial, or a null program, leaving the filesystem
untouched; with a nonnegative serial and a program it never raises
ValueError, and when the serial and model directories exist it reduces
to the executor loading exactly the eligible-variable files from the
model directory of that serial: the success mark is not among the read
paths and success depends only on those files existing. -/
theorem C7_load_checkpoint_validation (fs : FS) (cdir : FsPath)
    (s : Int) (prog : PyProgram) (os2 : Option Int)
    (op : Option PyProgram) :
    (load_checkpoint none os2 op fs = Except.error
      (PyErr.valueError "checkpoint_dir should not be None", fs)) ∧
    (load_checkpoint (some cdir) none op fs = Except.error
      (PyErr.valueError "serial should not be None or <0", fs)) ∧
    (s < 0 → load_checkpoint (some cdir) (some s) op fs = Except.error
      (PyErr.valueError "serial should not be None or <0", fs)) ∧
    (0 ≤ s → load_checkpoint (some cdir) (some s) none fs =
      Except.error
        (PyErr.valueError "main_program should not be None", fs)) ∧
    (0 ≤ s → ¬isValueError (load_checkpoint (some cdir) (some s)
      (some prog) fs)) ∧
    (0 ≤ s → fs.isdir (cdir ++ [cpName s]) = true →
      fs.isdir (cdir ++ [cpName s] ++ [ MODEL_DIR]) = true →
      load_checkpoint (some cdir) (some s) (some prog) fs =
        executorRunLoad (saveOpPaths
          (cdir ++ [cpName s] ++ [ MODEL_DIR])
          (prog.filter _is_checkpoint_var)) fs ∧
      ((∀ x ∈ eligNames prog, x ≠ SUCCESS_MARK_FILENAME) →
        (cdir ++ [cpName s] ++ [ MODEL_DIR] ++
          [SUCCESS_MARK_FILENAME]) ∉ saveOpPaths
          (cdir ++ [cpName s] ++ [ MODEL_DIR])
          (prog.filter _is_checkpoint_var)) ∧
      (executorRunLoad (saveOpPaths
          (cdir ++ [cpName s] ++ [ MODEL_DIR])
          (prog.filter _is_checkpoint_var)) fs =
        Except.ok ((), fs) ↔
        ∀ p ∈ saveOpPaths (cdir ++ [cpName s] ++ [ MODEL_DIR])
          (prog.filter _is_checkpoint_var),
          fs.isfile p = true)) := by
  refine ⟨rfl, rfl, ?_, ?_, ?_, ?_⟩
  · intro hs
    simp only [load_checkpoint]
    rw [if_pos hs]
    rfl
  · intro hs
    simp only [load_checkpoint]
    rw [if_neg (by omega : ¬s < 0)]
    rfl
  · intro hs
    exact load_checkpoint_no_value hs prog fs
  · intro hs hd hm
    refine ⟨?_, ?_, executorRunLoad_ok_iff _ fs⟩
    · simp only [load_checkpoint]
      rw [if_neg (by omega : ¬s < 0)]
      rw [FsM.bind_ok (get_serial_dir_exists hd)]
      show FsM.bind (_get_model_dir (cdir ++ [cpName s]))
        (fun d => load_vars d (some prog) none _is_checkpoint_var)
        fs = _
      rw [FsM.bind_ok (get_model_dir_exists hm)]
      rfl
    · intro hS hmem
      obtain ⟨v, hv, hveq⟩ := List.mem_filterMap.mp hmem
      by_cases hraw : v.type = VarType.RAW
      · rw [if_pos hraw] at hveq
        cases hveq
      · rw [if_neg hraw] at hveq
        have hname : v.name = SUCCESS_MARK_FILENAME := by
          have := (Option.some.injEq _ _).mp hveq
          simpa using List.append_cancel_left this
        refine hS v.name ?_ hname
        exact List.mem_map_of_mem _ hv

/-- Witness for C7: on a root holding `checkpoint_2` with a model
directory containing only the one eligible variable file `w` and no
success mark, the validation characterization applies at serial 2, and
the load succeeds even though the success mark is absent. -/
theorem C7_witness :
    ((load_checkpoint none none none
        [(["ckpt"], false), (["ckpt", "checkpoint_2"], false),
          (["ckpt", "checkpoint_2", "__model__"], false),
          (["ckpt", "checkpoint_2", "__model__", "w"], true)] =
      Except.error
        (PyErr.valueError "checkpoint_dir should not be None",
          [(["ckpt"], false), (["ckpt", "checkpoint_2"], false),
            (["ckpt", "checkpoint_2", "__model__"], false),
            (["ckpt", "checkpoint_2", "__model__", "w"], true)])) ∧
      (load_checkpoint (some ["ckpt"]) none none
          [(["ckpt"], false), (["ckpt", "checkpoint_2"], false),
            (["ckpt", "checkpoint_2", "__model__"], false),
            (["ckpt", "checkpoint_2", "__model__", "w"], true)] =
        Except.error
          (PyErr.valueError "serial should not be None or <0",
            [(["ckpt"], false), (["ckpt", "checkpoint_2"], false),
              (["ckpt", "checkpoint_2", "__model__"], false),
              (["ckpt", "checkpoint_2", "__model__", "w"], true)])) ∧
      ((2 : Int) < 0 → load_checkpoint (some ["ckpt"]) (some 2) none
          [(["ckpt"], false), (["ckpt", "checkpoint_2"], false),
            (["ckpt", "checkpoint_2", "__model__"], false),
            (["ckpt", "checkpoint_2", "__model__", "w"], true)] =
        Except.error
          (PyErr.valueError "serial should not be None or <0",
            [(["ckpt"], false), (["ckpt", "checkpoint_2"], false),
              (["ckpt", "checkpoint_2", "__model__"], false),
              (["ckpt", "checkpoint_2", "__model__", "w"], true)])) ∧
      ((0 : Int) ≤ 2 → load_checkpoint (some ["ckpt"]) (some 2) none
          [(["ckpt"], false), (["ckpt", "checkpoint_2"], false),
            (["ckpt", "checkpoint_2", "__model__"], false),
            (["ckpt", "checkpoint_2", "__model__", "w"], true)] =
        Except.error
          (PyErr.valueError "main_program should not be None",
            [(["ckpt"], false), (["ckpt", "checkpoint_2"], false),
              (["ckpt", "checkpoint_2", "__model__"], false),
              (["ckpt", "checkpoint_2", "__model__", "w"], true)])) ∧
      ((0 : Int) ≤ 2 → ¬isValueError (load_checkpoint (some ["ckpt"])
        (some 2) (some [⟨"w", VarType.LOD_TENSOR, true⟩])
        [(["ckpt"], false), (["ckpt", "checkpoint_2"], false),
          (["ckpt", "checkpoint_2", "__model__"], false),
          (["ckpt", "checkpoint_2", "__model__", "w"], true)])) ∧
      ((0 : Int) ≤ 2 →
        FS.isdir [(["ckpt"], false), (["ckpt", "checkpoint_2"], false),
            (["ckpt", "checkpoint_2", "__model__"], false),
            (["ckpt", "checkpoint_2", "__model__", "w"], true)]
          (["ckpt"] ++ [cpName 2]) = true →
        FS.isdir [(["ckpt"], false), (["ckpt", "checkpoint_2"], false),
            (["ckpt", "checkpoint_2", "__model__"], false),
            (["ckpt", "checkpoint_2", "__model__", "w"], true)]
          (["ckpt"] ++ [cpName 2] ++ [ MODEL_DIR]) = true →
        load_checkpoint (some ["ckpt"]) (some 2)
            (some [⟨"w", VarType.LOD_TENSOR, true⟩])
            [(["ckpt"], false), (["ckpt", "checkpoint_2"], false),
              (["ckpt", "checkpoint_2", "__model__"], false),
              (["ckpt", "checkpoint_2", "__model__", "w"], true)] =
          executorRunLoad (saveOpPaths
            (["ckpt"] ++ [cpName 2] ++ [ MODEL_DIR])
            (List.filter _is_checkpoint_var
              [⟨"w", VarType.LOD_TENSOR, true⟩]))
            [(["ckpt"], false), (["ckpt", "checkpoint_2"], false),
              (["ckpt", "checkpoint_2", "__model__"], false),
              (["ckpt", "checkpoint_2", "__model__", "w"], true)] ∧
        ((∀ x ∈ eligNames [⟨"w", VarType.LOD_TENSOR, true⟩],
            x ≠ SUCCESS_MARK_FILENAME) →
          (["ckpt"] ++ [cpName 2] ++ [ MODEL_DIR] ++
            [SUCCESS_MARK_FILENAME]) ∉ saveOpPaths
            (["ckpt"] ++ [cpName 2] ++ [ MODEL_DIR])
            (List.filter _is_checkpoint_var
              [⟨"w", VarType.LOD_TENSOR, true⟩])) ∧
        (executorRunLoad (saveOpPaths
            (["ckpt"] ++ [cpName 2] ++ [ MODEL_DIR])
            (List.filter _is_checkpoint_var
              [⟨"w", VarType.LOD_TENSOR, true⟩]))
            [(["ckpt"], false), (["ckpt", "checkpoint_2"], false),
              (["ckpt", "checkpoint_2", "__model__"], false),
              (["ckpt", "checkpoint_2", "__model__", "w"], true)] =
          Except.ok ((),
            [(["ckpt"], false), (["ckpt", "checkpoint_2"], false),
              (["ckpt", "checkpoint_2", "__model__"], false),
              (["ckpt", "checkpoint_2", "__model__", "w"], true)]) ↔
          ∀ p ∈ saveOpPaths (["ckpt"] ++ [cpName 2] ++ [ MODEL_DIR])
            (List.filter _is_checkpoint_var
              [⟨"w", VarType.LOD_TENSOR, true⟩]),
            FS.isfile [(["ckpt"], false),
              (["ckpt", "checkpoint_2"], false),
              (["ckpt", "checkpoint_2", "__model__"], false),
              (["ckpt", "checkpoint_2", "__model__", "w"], true)]
              p = true))) ∧
    load_checkpoint (some ["ckpt"]) (some 2)
        (some [⟨"w", VarType.LOD_TENSOR, true⟩])
        [(["ckpt"], false), (["ckpt", "checkpoint_2"], false),
          (["ckpt", "checkpoint_2", "__model__"], false),
          (["ckpt", "checkpoint_2", "__model__", "w"], true)] =
      Except.ok ((),
        [(["ckpt"], false), (["ckpt", "checkpoint_2"], false),
          (["ckpt", "checkpoint_2", "__model__"], false),
          (["ckpt", "checkpoint_2", "__model__", "w"], true)]) :=
  ⟨C7_load_checkpoint_validation
    [(["ckpt"], false), (["ckpt", "checkpoint_2"], false),
      (["ckpt", "checkpoint_2", "__model__"], false),
      (["ckpt", "checkpoint_2", "__model__", "w"], true)]
    ["ckpt"] 2 [⟨"w", VarType.LOD_TENSOR, true⟩] none none,
    by decide⟩
